import Mathlib

/-! serial-pl011: MIDI over a PL011 UART

A shallow embedding of `src/serial-pl011.c` and the properties of its
specification.

Conventions of the embedding

* C `int` fields whose arithmetic is guarded by the code itself
  (`buff_in_count`, the cursors, `prev_out`) are `Int`; a conversion to a
  narrower C type is written out (`% 65536` for `unsigned short`, `% 256`
  for `unsigned char`, `toShort` for `short int`).
* Arrays are total maps from the index to the cell.  `tx_buff` and the two
  port tables are indexed by `Nat`, `prev_status` by `Int` because the code
  indexes it with `prev_out`, which starts at `-1`.
* `prev_status` has `SNDRV_SERIAL_MAX_OUTS` cells.  An access at an index
  outside `0..SNDRV_SERIAL_MAX_OUTS-1` leaves the array, and C does not say
  what the program does from there on (in the layout of the session record
  the cell before the array belongs to `prev_out`).  Every access is recorded
  in the trace with its index.  The embedding follows the source as long as
  the recorded indices are inside the array (`CacheInBounds`); `definedPart`
  cuts a trace behind the first access outside.  A property of executions
  that can reach such an access is stated for the executions that satisfy
  `CacheInBounds`.
* Pointers into the port tables are `Bool`: bound (`true`) or `NULL`.
* What the driver does to the outside world is appended to `trace`, oldest
  event first: line initialisation and teardown, divisor registers, bytes
  written to the data register, bytes stored in `tx_buff`, bytes handed to
  `snd_rawmidi_receive`, and diagnostics.
* What the hardware tells the driver is an argument of the embedded
  function: the words the receiver presents, and the flag readings.
-/

namespace SerialPl011

/-! ## Constants -/

def SNDRV_SERIAL_SOUNDCANVAS : Nat := 0
def SNDRV_SERIAL_MS124T : Nat := 1
def SNDRV_SERIAL_MS124W_SA : Nat := 2
def SNDRV_SERIAL_MS124W_MB : Nat := 3
def SNDRV_SERIAL_GENERIC : Nat := 4

def SNDRV_SERIAL_MAX_OUTS : Nat := 16
def SNDRV_SERIAL_MAX_INS : Nat := 16

/-- Capacity of the transmit ring, `(1<<15)`. -/
def TX_BUFF_SIZE : Nat := 1 <<< 15
def TX_BUFF_MASK : Nat := TX_BUFF_SIZE - 1

def AMBA_ISR_PASS_LIMIT : Int := 256

def SERIAL_MODE_NOT_OPENED : Nat := 0
def SERIAL_MODE_INPUT_OPEN : Nat := 1 <<< 0
def SERIAL_MODE_OUTPUT_OPEN : Nat := 1 <<< 1
def SERIAL_MODE_INPUT_TRIGGERED : Nat := 1 <<< 2
def SERIAL_MODE_OUTPUT_TRIGGERED : Nat := 1 <<< 3

/-- The complement `~m` of a flag inside a 32-bit `int`. -/
def maskOff (m : Nat) : Nat := 0xFFFFFFFF - m

/-- Conversion of an `int` value to `short int` (two's complement, 16 bit). -/
def toShort (x : Int) : Int := (x + 32768) % 65536 - 32768

/-! ## Data model -/

/-- Effects of the driver on its surroundings. -/
inductive Event where
  /-- Marks a run of `snd_uart_pl011_do_open`. -/
  | lineInit
  /-- Marks a run of `snd_uart_pl011_do_close`. -/
  | lineTeardown
  /-- The values written to `UART011_FBRD` and `UART011_IBRD`. -/
  | divisor (fbrd ibrd : Nat)
  /-- A byte written to the data register, `writeb(b, UART01x_DR)`. -/
  | dataWrite (b : Nat)
  /-- A byte stored in the ring, `tx_buff[buff_in] = b`. -/
  | buffered (b : Nat)
  /-- Acknowledge of the transmit interrupt, `writew(UART011_TXIC, UART011_ICR)`. -/
  | txAck
  /-- A byte delivered by `snd_rawmidi_receive(midi_input[port], &b, 1)`. -/
  | receive (port b : Nat)
  /-- The "Overrun on device" warning of the read loop. -/
  | rxOverrun
  /-- The "Buffer overrun on device" warning of `snd_uart_pl011_output_byte`. -/
  | txOverrun
  /-- An access to `prev_status[i]`. -/
  | statusCache (i : Int)
  deriving DecidableEq

/-- The fields of `struct snd_uart_pl011` the driver logic uses, the rate of
the session's clock (`clk`, what `clk_get_rate` returns) and the trace. -/
structure snd_uart_pl011 where
  midi_output : Nat → Bool
  midi_input : Nat → Bool
  filemode : Nat
  clk : Nat
  clk_rate : Nat
  speed : Nat
  fifo_limit : Int
  fifo_count : Int
  adaptor : Nat
  prev_in : Nat
  rstatus : Nat
  prev_out : Int
  prev_status : Int → Nat
  tx_buff : Nat → Nat
  buff_in_count : Int
  buff_in : Int
  buff_out : Int
  drop_on_full : Bool
  trace : List Event

/-- One read of the receive side: the word `readw(UART01x_DR)` returns and
whether `UART01x_FR` shows `UART011_FR_RXFF` right after it. -/
structure RxWord where
  data : Nat
  rxff : Bool
  deriving DecidableEq

/-- Modelled from the spec: the kernel's `DIV_ROUND_CLOSEST` for unsigned
operands, which is not defined in this repository; the spec asks for
closest-integer rounding, not truncation. -/
def DIV_ROUND_CLOSEST (x divisor : Nat) : Nat := (x + divisor / 2) / divisor

/-! ## Transmit ring buffer -/

/-- Embeds `snd_uart_pl011_buffer_output`: move the oldest pending byte to the data
register. -/
def snd_uart_pl011_buffer_output (uart : snd_uart_pl011) : snd_uart_pl011 :=
  let buff_out : Nat := (uart.buff_out % 65536).toNat
  if uart.buff_in_count > 0 then
    { uart with
      trace := uart.trace ++ [Event.dataWrite (uart.tx_buff buff_out)]
      fifo_count := toShort (uart.fifo_count + 1)
      buff_out := (((buff_out + 1) % 65536 &&& TX_BUFF_MASK : Nat) : Int)
      buff_in_count := uart.buff_in_count - 1 }
  else uart

/-- Embeds `snd_uart_pl011_buffer_can_write`. -/
def snd_uart_pl011_buffer_can_write (uart : snd_uart_pl011) (Num : Int) : Int :=
  if uart.buff_in_count + Num < TX_BUFF_SIZE then 1 else 0

/-- Embeds `snd_uart_pl011_write_buffer`: the new state and the return value. -/
def snd_uart_pl011_write_buffer (uart : snd_uart_pl011) (byte : Nat) :
    snd_uart_pl011 × Int :=
  let buff_in : Nat := (uart.buff_in % 65536).toNat
  if uart.buff_in_count < TX_BUFF_SIZE then
    ({ uart with
       tx_buff := Function.update uart.tx_buff buff_in byte
       trace := uart.trace ++ [Event.buffered byte]
       buff_in := (((buff_in + 1) % 65536 &&& TX_BUFF_MASK : Nat) : Int)
       buff_in_count := uart.buff_in_count + 1 }, 1)
  else (uart, 0)

/-! ## Line initialisation and teardown -/

/-- Embeds `snd_uart_pl011_do_open`.  The products `clk_rate * 8` and `clk_rate * 4`
(`unsigned long`, whose width depends on the platform) are exact here; `quot` is
an `unsigned int` and `writew` stores 16 bits.  The control, line-control,
trigger-level and interrupt-mask writes carry header constants only and are
summarised by `Event.lineInit`. -/
def snd_uart_pl011_do_open (uart : snd_uart_pl011) : snd_uart_pl011 :=
  let clk_rate := uart.clk
  let quot : Nat :=
    (if uart.speed > clk_rate / 16 then DIV_ROUND_CLOSEST (clk_rate * 8) uart.speed
      else DIV_ROUND_CLOSEST (clk_rate * 4) uart.speed) % 4294967296
  { uart with
    buff_in_count := 0
    buff_in := 0
    buff_out := 0
    fifo_limit := 16
    fifo_count := 0
    clk_rate := clk_rate
    trace := uart.trace ++
      [Event.lineInit, Event.divisor ((quot &&& 0x3f) % 65536) ((quot >>> 6) % 65536)] }

/-- Embeds `snd_uart_pl011_do_close`. -/
def snd_uart_pl011_do_close (uart : snd_uart_pl011) : snd_uart_pl011 :=
  { uart with trace := uart.trace ++ [Event.lineTeardown] }

/-! ## Interrupt service loop -/

/-- The body of the read loop of `snd_uart_pl011_io_loop` up to the pass
counter: one word is read from the data register, truncated to `unsigned char`,
remembered if it is a status byte, and then either taken as part of a stream
switch (generic adaptor) or handed to the selected input.  The state is paired
with the local variable `substream`. -/
def rx_byte (st : snd_uart_pl011 × Nat) (w : RxWord) : snd_uart_pl011 × Nat :=
  let uart := st.1
  let substream := st.2
  let c : Nat := w.data % 256
  let uart := if c &&& 0x80 ≠ 0 then { uart with rstatus := c } else uart
  let st : snd_uart_pl011 × Nat :=
    if uart.adaptor = SNDRV_SERIAL_GENERIC then
      if uart.rstatus = 0xf5 then
        let substream := if c ≤ SNDRV_SERIAL_MAX_INS ∧ c > 0 then c - 1 else substream
        let uart := if c ≠ 0xf5 then { uart with rstatus := 0 } else uart
        (uart, substream)
      else if uart.filemode &&& SERIAL_MODE_INPUT_OPEN ≠ 0 ∧ uart.midi_input substream = true then
        ({ uart with trace := uart.trace ++ [Event.receive substream c] }, substream)
      else (uart, substream)
    else if uart.filemode &&& SERIAL_MODE_INPUT_OPEN ≠ 0 ∧ uart.midi_input substream = true then
      ({ uart with trace := uart.trace ++ [Event.receive substream c] }, substream)
    else (uart, substream)
  if w.rxff then ({ st.1 with trace := st.1.trace ++ [Event.rxOverrun] }, st.2) else st

/-- The read loop of `snd_uart_pl011_io_loop`.  The list holds the words the
receiver presents, in order: the interrupt status shows receive or
receive-timeout as long as the list is not empty.  The result carries the
words left unread. -/
def read_loop : snd_uart_pl011 × Nat → Int → List RxWord → (snd_uart_pl011 × Nat) × List RxWord
  | st, _, [] => (st, [])
  | st, pass_counter, w :: rest =>
    let st := rx_byte st w
    if pass_counter = 0 then (st, rest) else read_loop st (pass_counter - 1) rest

/-- The write loop of `snd_uart_pl011_io_loop`.  The first argument bounds the
number of iterations; `snd_uart_pl011_io_loop` passes the number of pending
bytes, which every iteration lowers by one. -/
def write_loop : Nat → snd_uart_pl011 → snd_uart_pl011
  | 0, uart => uart
  | n + 1, uart =>
    if uart.fifo_count < uart.fifo_limit ∧ uart.buff_in_count > 0 then
      write_loop n (snd_uart_pl011_buffer_output uart)
    else uart

/-- Embeds `snd_uart_pl011_io_loop`; `txis` is the reading of `UART011_TXIS` in
the interrupt status, `txfe` the reading of `UART011_FR_TXFE` in the flags.
Returns the new state and the received words left unread. -/
def snd_uart_pl011_io_loop (uart : snd_uart_pl011) (rx : List RxWord) (txis txfe : Bool) :
    snd_uart_pl011 × List RxWord :=
  let r := read_loop (uart, uart.prev_in) AMBA_ISR_PASS_LIMIT rx
  let uart := { r.1.1 with prev_in := r.1.2 }
  let uart :=
    if txis then { uart with trace := uart.trace ++ [Event.txAck], fifo_count := 2 } else uart
  let uart := if txfe then { uart with fifo_count := 0 } else uart
  (write_loop uart.buff_in_count.toNat uart, r.2)

/-- The two values of `irqreturn_t` the driver returns. -/
inductive irqreturn where
  | IRQ_NONE
  | IRQ_HANDLED
  deriving DecidableEq

/-- Embeds `snd_uart_pl011_interrupt`; the last component is the return value. -/
def snd_uart_pl011_interrupt (uart : snd_uart_pl011) (rx : List RxWord) (txis txfe : Bool) :
    (snd_uart_pl011 × List RxWord) × irqreturn :=
  if uart.filemode = SERIAL_MODE_NOT_OPENED then ((uart, rx), irqreturn.IRQ_NONE)
  else (snd_uart_pl011_io_loop uart rx txis txfe, irqreturn.IRQ_HANDLED)

/-- Invoke the service loop `n` times in a row on the words the receiver
presents; `tx i` gives the `txis` and `txfe` readings of invocation `i`. -/
def io_loop_repeat : Nat → snd_uart_pl011 → List RxWord → (Nat → Bool × Bool) →
    snd_uart_pl011 × List RxWord
  | 0, uart, rx, _ => (uart, rx)
  | n + 1, uart, rx, tx =>
    let r := snd_uart_pl011_io_loop uart rx (tx 0).1 (tx 0).2
    io_loop_repeat n r.1 r.2 (fun i => tx (i + 1))

/-! ## Session state machine -/

/-- Embeds `snd_uart_pl011_input_open`; `number` is `substream->number`. -/
def snd_uart_pl011_input_open (uart : snd_uart_pl011) (number : Nat) : snd_uart_pl011 :=
  let uart :=
    if uart.filemode = SERIAL_MODE_NOT_OPENED then snd_uart_pl011_do_open uart else uart
  { uart with
    filemode := uart.filemode ||| SERIAL_MODE_INPUT_OPEN
    midi_input := Function.update uart.midi_input number true }

/-- Embeds `snd_uart_pl011_input_close`. -/
def snd_uart_pl011_input_close (uart : snd_uart_pl011) (number : Nat) : snd_uart_pl011 :=
  let uart :=
    { uart with
      filemode := uart.filemode &&& maskOff SERIAL_MODE_INPUT_OPEN
      midi_input := Function.update uart.midi_input number false }
  if uart.filemode = SERIAL_MODE_NOT_OPENED then snd_uart_pl011_do_close uart else uart

/-- Embeds `snd_uart_pl011_input_trigger`. -/
def snd_uart_pl011_input_trigger (uart : snd_uart_pl011) (up : Bool) : snd_uart_pl011 :=
  if up then { uart with filemode := uart.filemode ||| SERIAL_MODE_INPUT_TRIGGERED }
  else { uart with filemode := uart.filemode &&& maskOff SERIAL_MODE_INPUT_TRIGGERED }

/-- Embeds `snd_uart_pl011_output_open`. -/
def snd_uart_pl011_output_open (uart : snd_uart_pl011) (number : Nat) : snd_uart_pl011 :=
  let uart :=
    if uart.filemode = SERIAL_MODE_NOT_OPENED then snd_uart_pl011_do_open uart else uart
  { uart with
    filemode := uart.filemode ||| SERIAL_MODE_OUTPUT_OPEN
    midi_output := Function.update uart.midi_output number true }

/-- Embeds `snd_uart_pl011_output_close`. -/
def snd_uart_pl011_output_close (uart : snd_uart_pl011) (number : Nat) : snd_uart_pl011 :=
  let uart :=
    { uart with
      filemode := uart.filemode &&& maskOff SERIAL_MODE_OUTPUT_OPEN
      midi_output := Function.update uart.midi_output number false }
  if uart.filemode = SERIAL_MODE_NOT_OPENED then snd_uart_pl011_do_close uart else uart

/-- Embeds the part of `snd_uart_pl011_create` that sets the session fields:
`kzalloc` zeroes everything, then the adaptor, policy, speed, `prev_out = -1`,
`prev_in = 0`, `rstatus = 0` and the status cache (0x80 in each of the 16
cells) are set.  `clk` is the rate of the clock the session is given. -/
def snd_uart_pl011_create (speed adaptor : Nat) (droponfull : Bool) (clk : Nat) :
    snd_uart_pl011 :=
  { midi_output := fun _ => false
    midi_input := fun _ => false
    filemode := 0
    clk := clk
    clk_rate := 0
    speed := speed
    fifo_limit := 0
    fifo_count := 0
    adaptor := adaptor
    prev_in := 0
    rstatus := 0
    prev_out := -1
    prev_status := fun i => if 0 ≤ i ∧ i < SNDRV_SERIAL_MAX_OUTS then 0x80 else 0
    tx_buff := fun _ => 0
    buff_in_count := 0
    buff_in := 0
    buff_out := 0
    drop_on_full := droponfull
    trace := [] }

/-! ## Output path -/

/-- Embeds `snd_uart_pl011_output_byte`; `txfe` is the reading of
`UART011_FR_TXFE`, looked at only when the ring is empty.  Returns the new
state and the return value. -/
def snd_uart_pl011_output_byte (uart : snd_uart_pl011) (txfe : Bool) (midi_byte : Nat) :
    snd_uart_pl011 × Int :=
  if uart.buff_in_count = 0 then
    if txfe then
      ({ uart with fifo_count := 1, trace := uart.trace ++ [Event.dataWrite midi_byte] }, 1)
    else if uart.fifo_count < uart.fifo_limit then
      ({ uart with
         fifo_count := toShort (uart.fifo_count + 1)
         trace := uart.trace ++ [Event.dataWrite midi_byte] }, 1)
    else ((snd_uart_pl011_write_buffer uart midi_byte).1, 1)
  else
    let r := snd_uart_pl011_write_buffer uart midi_byte
    if r.2 = 0 then ({ r.1 with trace := r.1.trace ++ [Event.txOverrun] }, 0) else (r.1, 1)

/-- The framing byte of the MS-124W M/B branch of `snd_uart_pl011_output_write`
(`SNDRV_SERIAL_MS124W_MB_NOCOMBO` is not defined): the port number goes to the
upper nibble of an `unsigned char`, and the "no port" value 0x08 is replaced
by 0xf8. -/
def ms124w_mb_addr_byte (number : Nat) : Nat :=
  let addr_byte := ((number <<< 4) ||| 0x08) % 256
  if addr_byte = 0x08 then 0xf8 else addr_byte

/-- The `while (1)` loop of the MS-124W M/B branch of
`snd_uart_pl011_output_write`.  The list is what `snd_rawmidi_transmit` can
still hand over; `fe i` is the flag reading seen by the `i`-th call of
`snd_uart_pl011_output_byte`, `k` counts these calls.  Returns the new state and
the bytes not taken from the application. -/
def output_write_mb (number : Nat) (fe : Nat → Bool) :
    List Nat → snd_uart_pl011 → Nat → snd_uart_pl011 × List Nat
  | [], uart, _ => (uart, [])
  | midi_byte :: rest, uart, k =>
    if uart.buff_in_count > (TX_BUFF_SIZE : Int) - 2 then (uart, midi_byte :: rest)
    else
      let uart := (snd_uart_pl011_output_byte uart (fe k) (ms124w_mb_addr_byte number)).1
      let uart := (snd_uart_pl011_output_byte uart (fe (k + 1)) midi_byte).1
      output_write_mb number fe rest uart (k + 2)

/-- The body of `if (snd_uart_pl011_buffer_can_write(uart, 3))` in
`snd_uart_pl011_output_write`: the part selection sequence.  Returns the new
state and the number of `snd_uart_pl011_output_byte` calls made so far. -/
def output_write_select (uart : snd_uart_pl011) (number : Nat) (fe : Nat → Bool) (k : Nat)
    (midi_byte : Nat) : snd_uart_pl011 × Nat :=
  let uart := { uart with prev_out := (number : Int) }
  let uart := (snd_uart_pl011_output_byte uart (fe k) 0xf5).1
  let uart := (snd_uart_pl011_output_byte uart (fe (k + 1)) ((uart.prev_out + 1) % 256).toNat).1
  if midi_byte < 0x80 ∧ uart.adaptor = SNDRV_SERIAL_SOUNDCANVAS then
    let uart := { uart with trace := uart.trace ++ [Event.statusCache uart.prev_out] }
    ((snd_uart_pl011_output_byte uart (fe (k + 2)) (uart.prev_status uart.prev_out)).1, k + 3)
  else (uart, k + 2)

/-- The head of the body of the `while (snd_rawmidi_transmit_peek(...) == 1)`
loop of `snd_uart_pl011_output_write`: the `if (first == 0 && ...)` statement.
`idle` is the value of `time_after(jiffies, lasttime + 3*HZ)`.  The result is
`none` when the loop is left by `break`, else the new state and the number of
`snd_uart_pl011_output_byte` calls made so far. -/
def output_write_part_select (uart : snd_uart_pl011) (number : Nat) (idle : Bool)
    (fe : Nat → Bool) (first : Bool) (k : Nat) (midi_byte : Nat) :
    Option (snd_uart_pl011 × Nat) :=
  if first = false ∧
      (uart.adaptor = SNDRV_SERIAL_SOUNDCANVAS ∨ uart.adaptor = SNDRV_SERIAL_GENERIC) ∧
      (uart.prev_out ≠ (number : Int) ∨ idle = true) then
    if snd_uart_pl011_buffer_can_write uart 3 = 1 then
      some (output_write_select uart number fe k midi_byte)
    else if uart.drop_on_full = false then none
    else some (uart, k)
  else some (uart, k)

/-- The running status statement of the loop body of
`snd_uart_pl011_output_write`:
`if (midi_byte >= 0x80 && midi_byte < 0xf0) uart->prev_status[uart->prev_out] = midi_byte`.
The index `prev_out` is recorded in the trace.  The state returned is what the
source produces when the index is inside the array; when it is not, the
record of the access alone is meaningful (see `CacheInBounds`). -/
def output_write_status (uart : snd_uart_pl011) (midi_byte : Nat) : snd_uart_pl011 :=
  if midi_byte ≥ 0x80 ∧ midi_byte < 0xf0 then
    { uart with
      prev_status := Function.update uart.prev_status uart.prev_out midi_byte
      trace := uart.trace ++ [Event.statusCache uart.prev_out] }
  else uart

/-- The `while (snd_rawmidi_transmit_peek(...) == 1)` loop of
`snd_uart_pl011_output_write` for the adaptors other than MS-124W M/B.  The list
is what the application has pending, `first` the local flag, `idle`, `fe` and
`k` as in `output_write_part_select` and `output_write_mb`.  Returns the new
state and the bytes not acknowledged. -/
def output_write_loop (number : Nat) (idle : Bool) (fe : Nat → Bool) :
    List Nat → snd_uart_pl011 → Bool → Nat → snd_uart_pl011 × List Nat
  | [], uart, _, _ => (uart, [])
  | midi_byte :: rest, uart, first, k =>
    match output_write_part_select uart number idle fe first k midi_byte with
    | none => (uart, midi_byte :: rest)
    | some (uart, k) =>
      let r := snd_uart_pl011_output_byte uart (fe k) midi_byte
      if r.2 = 0 ∧ uart.drop_on_full = false then (r.1, midi_byte :: rest)
      else output_write_loop number idle fe rest (output_write_status r.1 midi_byte) true (k + 1)

/-- Embeds `snd_uart_pl011_output_write` for the output port `number`. -/
def snd_uart_pl011_output_write (uart : snd_uart_pl011) (number : Nat) (stream : List Nat)
    (idle : Bool) (fe : Nat → Bool) : snd_uart_pl011 × List Nat :=
  if uart.adaptor = SNDRV_SERIAL_MS124W_MB then output_write_mb number fe stream uart 0
  else output_write_loop number idle fe stream uart false 0

/-- Embeds `snd_uart_pl011_output_trigger`. -/
def snd_uart_pl011_output_trigger (uart : snd_uart_pl011) (number : Nat) (up : Bool)
    (stream : List Nat) (idle : Bool) (fe : Nat → Bool) : snd_uart_pl011 × List Nat :=
  let uart :=
    if up then { uart with filemode := uart.filemode ||| SERIAL_MODE_OUTPUT_TRIGGERED }
    else { uart with filemode := uart.filemode &&& maskOff SERIAL_MODE_OUTPUT_TRIGGERED }
  if up then snd_uart_pl011_output_write uart number stream idle fe else (uart, stream)

/-- Direction of a logical port. -/
inductive Direction where
  | input
  | output
  deriving DecidableEq

/-- A logical port: its direction and `substream->number`. -/
structure LogicalPort where
  dir : Direction
  number : Nat
  deriving DecidableEq

/-- The `open` callback of a logical port. -/
def open_port (uart : snd_uart_pl011) (p : LogicalPort) : snd_uart_pl011 :=
  match p.dir with
  | Direction.input => snd_uart_pl011_input_open uart p.number
  | Direction.output => snd_uart_pl011_output_open uart p.number

/-- The `close` callback of a logical port. -/
def close_port (uart : snd_uart_pl011) (p : LogicalPort) : snd_uart_pl011 :=
  match p.dir with
  | Direction.input => snd_uart_pl011_input_close uart p.number
  | Direction.output => snd_uart_pl011_output_close uart p.number

/-- The open flag of a direction in `filemode`. -/
def open_flag : Direction → Nat
  | Direction.input => SERIAL_MODE_INPUT_OPEN
  | Direction.output => SERIAL_MODE_OUTPUT_OPEN

/-- The slot of a logical port in the port table. -/
def port_slot (uart : snd_uart_pl011) (p : LogicalPort) : Bool :=
  match p.dir with
  | Direction.input => uart.midi_input p.number
  | Direction.output => uart.midi_output p.number

/-! ## Observations -/

/-- The bytes written to the data register, oldest first. -/
def dataWrites : List Event → List Nat
  | [] => []
  | Event.dataWrite b :: es => b :: dataWrites es
  | _ :: es => dataWrites es

/-- Number of runs of `snd_uart_pl011_do_open` in a trace. -/
def inits (t : List Event) : Nat := t.count Event.lineInit

/-- Number of runs of `snd_uart_pl011_do_close` in a trace. -/
def teardowns (t : List Event) : Nat := t.count Event.lineTeardown

/-- The bytes handed to `snd_rawmidi_receive`, each with its input port, oldest
first. -/
def receives : List Event → List (Nat × Nat)
  | [] => []
  | Event.receive port b :: es => (port, b) :: receives es
  | _ :: es => receives es

/-- The bytes the output path accepted, oldest first: written to the data
register or stored in the ring. -/
def emitted : List Event → List Nat
  | [] => []
  | Event.dataWrite b :: es => b :: emitted es
  | Event.buffered b :: es => b :: emitted es
  | _ :: es => emitted es

/-- The bytes waiting in the ring, oldest first: `buff_in_count` cells
starting at `buff_out`, indices taken modulo the capacity. -/
def pending (uart : snd_uart_pl011) : List Nat :=
  (List.range uart.buff_in_count.toNat).map
    (fun i : Nat => uart.tx_buff ((uart.buff_out + (i : Int)) % (TX_BUFF_SIZE : Int)).toNat)

/-- A step of a ring-buffer client. -/
inductive BufOp where
  | push (byte : Nat)
  | pop
  deriving DecidableEq

/-- Run a sequence of `snd_uart_pl011_write_buffer` and
`snd_uart_pl011_buffer_output` calls; the second component lists the bytes
whose push returned 1. -/
def runBufOps : snd_uart_pl011 → List BufOp → snd_uart_pl011 × List Nat
  | uart, [] => (uart, [])
  | uart, BufOp.push b :: ops =>
      let r := snd_uart_pl011_write_buffer uart b
      let rest := runBufOps r.1 ops
      (rest.1, if r.2 = 1 then b :: rest.2 else rest.2)
  | uart, BufOp.pop :: ops => runBufOps (snd_uart_pl011_buffer_output uart) ops

/-- The ring-buffer invariant. -/
def RingInv (uart : snd_uart_pl011) : Prop :=
  0 ≤ uart.buff_in_count ∧ uart.buff_in_count ≤ TX_BUFF_SIZE ∧
  0 ≤ uart.buff_in ∧ uart.buff_in < TX_BUFF_SIZE ∧
  0 ≤ uart.buff_out ∧ uart.buff_out < TX_BUFF_SIZE ∧
  uart.buff_in = (uart.buff_out + uart.buff_in_count) % (TX_BUFF_SIZE : Int)

/-- The session data of the examples: a session right after
`snd_uart_pl011_create`. -/
def fresh (adaptor : Nat) (droponfull : Bool) : snd_uart_pl011 :=
  snd_uart_pl011_create 38400 adaptor droponfull 48000000

/-- A stream framed for the MS-124W M/B adaptor: every data byte preceded by the
framing byte `a`. -/
def frame_pairs (a : Nat) : List Nat → List Nat
  | [] => []
  | b :: bs => a :: b :: frame_pairs a bs

/-- What has left or is about to leave the session in transmit order: the bytes
written to the data register followed by the bytes pending in the ring. -/
def flow (uart : snd_uart_pl011) : List Nat := dataWrites uart.trace ++ pending uart

/-- Run the service loop once for each element of the list, which gives the
received words and the `txis` and `txfe` readings of that invocation. -/
def io_loops (uart : snd_uart_pl011) (ios : List (List RxWord × Bool × Bool)) : snd_uart_pl011 :=
  ios.foldl (fun u io => (snd_uart_pl011_io_loop u io.1 io.2.1 io.2.2).1) uart

/-- Two session states with the same ring and the same bytes written to the data
register. -/
def SameRing (u v : snd_uart_pl011) : Prop :=
  v.tx_buff = u.tx_buff ∧ v.buff_in_count = u.buff_in_count ∧ v.buff_in = u.buff_in ∧
  v.buff_out = u.buff_out ∧ dataWrites v.trace = dataWrites u.trace

/-- Two session states the receive side cannot tell apart, with the same bytes
delivered so far. -/
def SameDemux (u v : snd_uart_pl011) : Prop :=
  v.adaptor = u.adaptor ∧ v.filemode = u.filemode ∧ v.midi_input = u.midi_input ∧
  v.rstatus = u.rstatus ∧ v.prev_in = u.prev_in ∧ receives v.trace = receives u.trace

/-- The generic adaptor is in use, the input side counts as open, the slot of
input port `p` is bound, and no stream switch is under way. -/
def DemuxReady (uart : snd_uart_pl011) (p : Nat) : Prop :=
  uart.adaptor = SNDRV_SERIAL_GENERIC ∧ uart.filemode &&& SERIAL_MODE_INPUT_OPEN ≠ 0 ∧
  uart.midi_input p = true ∧ uart.rstatus ≠ 0xf5

/-- The received words of the examples: the bytes as read from the data
register, the receive FIFO never full. -/
def rx_words (bytes : List Nat) : List RxWord := bytes.map (fun b => RxWord.mk b false)

/-- The session of the counterexample to C3: input ports 0 and 1 and output port
0 are opened, then input port 0 is closed. -/
def input_flag_cleared : snd_uart_pl011 :=
  close_port (open_port (open_port (open_port (fresh SNDRV_SERIAL_GENERIC false)
    ⟨Direction.input, 0⟩) ⟨Direction.input, 1⟩) ⟨Direction.output, 0⟩) ⟨Direction.input, 0⟩

/-- The session of the example of C3: the four input ports 0..3 are open. -/
def four_inputs : snd_uart_pl011 :=
  open_port (open_port (open_port (open_port (fresh SNDRV_SERIAL_GENERIC false)
    ⟨Direction.input, 0⟩) ⟨Direction.input, 1⟩) ⟨Direction.input, 2⟩) ⟨Direction.input, 3⟩

/-- The session of the failing input of C4 and of the examples of the output
path: MS-124T adaptor, output port 0 open, nothing sent yet. -/
def pass_through_session : snd_uart_pl011 :=
  open_port (fresh SNDRV_SERIAL_MS124T false) ⟨Direction.output, 0⟩

/-- The byte sequence of the round-trip example: a system-exclusive message of
18 bytes, two more than the FIFO trigger limit, without a channel-voice status
byte. -/
def sysex_stream : List Nat :=
  [0xf0, 0x7e, 0x7f, 0x09, 0x01, 1, 2, 3, 4, 5, 6, 7, 8, 9, 10, 11, 12, 0xf7]

/-- An operation on a session: the callbacks the rawmidi layer invokes and the
interrupt, each with what the surroundings supply to it. -/
inductive SessionOp where
  | openPort (p : LogicalPort)
  | closePort (p : LogicalPort)
  | inputTrigger (up : Bool)
  | outputTrigger (number : Nat) (up : Bool) (stream : List Nat) (idle : Bool) (fe : Nat → Bool)
  | interrupt (rx : List RxWord) (txis txfe : Bool)

/-- One operation on a session. -/
def session_step (uart : snd_uart_pl011) : SessionOp → snd_uart_pl011
  | SessionOp.openPort p => open_port uart p
  | SessionOp.closePort p => close_port uart p
  | SessionOp.inputTrigger up => snd_uart_pl011_input_trigger uart up
  | SessionOp.outputTrigger number up stream idle fe =>
      (snd_uart_pl011_output_trigger uart number up stream idle fe).1
  | SessionOp.interrupt rx txis txfe => (snd_uart_pl011_interrupt uart rx txis txfe).1.1

/-- A sequence of operations on a session. -/
def run_session (uart : snd_uart_pl011) (ops : List SessionOp) : snd_uart_pl011 :=
  ops.foldl session_step uart

/-- The part selection sequence `snd_uart_pl011_output_write` sends ahead of the
byte `midi_byte` for output port `number`: 0xf5, the port byte, and for the
Soundcanvas the cached status byte of the port when `midi_byte` is a data
byte. -/
def select_sequence (uart : snd_uart_pl011) (number midi_byte : Nat) : List Nat :=
  [0xf5, (number + 1) % 256] ++
    (if midi_byte < 0x80 ∧ uart.adaptor = SNDRV_SERIAL_SOUNDCANVAS
      then [uart.prev_status (number : Int)] else [])

/-- The indices at which `prev_status` was read or written, oldest first. -/
def cacheIndices : List Event → List Int
  | [] => []
  | Event.statusCache i :: es => i :: cacheIndices es
  | _ :: es => cacheIndices es

/-- The session of the counterexample to C18: MS-124T adaptor, two bytes written
straight to the data register, nothing pending. -/
def two_written : snd_uart_pl011 :=
  (snd_uart_pl011_output_write pass_through_session 0 [1, 2] false (fun _ => false)).1

/-- The session of the example of C17: MS-124T adaptor, 16 bytes in flight and
two bytes pending in the ring. -/
def two_pending : snd_uart_pl011 :=
  (snd_uart_pl011_output_write pass_through_session 0 sysex_stream false (fun _ => false)).1

/-- The session of the example of C14: Soundcanvas adaptor, output port 2 open,
nothing sent yet. -/
def soundcanvas_session : snd_uart_pl011 :=
  open_port (fresh SNDRV_SERIAL_SOUNDCANVAS false) ⟨Direction.output, 2⟩

/-- The Soundcanvas session after a note-on status byte was sent on output port
2, which is now the last-used output port. -/
def soundcanvas_selected : snd_uart_pl011 :=
  (snd_uart_pl011_output_write soundcanvas_session 2 [0x90] false (fun _ => false)).1

/-- The session of the example of C16: Soundcanvas adaptor, its input port
open. -/
def soundcanvas_input : snd_uart_pl011 :=
  open_port (fresh SNDRV_SERIAL_SOUNDCANVAS false) ⟨Direction.input, 0⟩

/-- The session of the examples of C15: generic adaptor, four inputs open, the
byte 0xf5 just received. -/
def switch_started : snd_uart_pl011 :=
  (snd_uart_pl011_io_loop four_inputs (rx_words [0xf5]) false false).1

/-- The session of the failing input of C19 and C20: a new MS-124T session,
output port 0 opened, then triggered with the note-on status byte 0x90
pending. -/
def ms124t_note_on : snd_uart_pl011 :=
  run_session (snd_uart_pl011_create 38400 SNDRV_SERIAL_MS124T false 48000000)
    [SessionOp.openPort ⟨Direction.output, 0⟩,
     SessionOp.outputTrigger 0 true [0x90] false (fun _ => false)]

/-- The session of the example of C11: generic adaptor, blocking policy, output
port 1 open. -/
def generic_output : snd_uart_pl011 :=
  open_port (fresh SNDRV_SERIAL_GENERIC false) ⟨Direction.output, 1⟩

/-- Every access to `prev_status` recorded in the trace was made at an index
inside the array, `0..SNDRV_SERIAL_MAX_OUTS-1`: the execution that produced the
trace stayed within what C defines, and the embedding followed the source. -/
def CacheInBounds (t : List Event) : Prop :=
  ∀ i ∈ cacheIndices t, 0 ≤ i ∧ i < (SNDRV_SERIAL_MAX_OUTS : Int)

/-- The events of a trace up to and including the first access to `prev_status`
outside the array: the part of the execution up to where it leaves the
array. -/
def definedPart : List Event → List Event
  | [] => []
  | Event.statusCache i :: es =>
    if 0 ≤ i ∧ i < (SNDRV_SERIAL_MAX_OUTS : Int) then Event.statusCache i :: definedPart es
    else [Event.statusCache i]
  | e :: es => e :: definedPart es

/-- The byte sequence of the failing input of C4: a note-on message followed by
a note-off message, each with its status byte. -/
def two_notes : List Nat := [0x90, 0x3c, 0x64, 0x80, 0x3c, 0x40]

/-- The operations of the example of C21: a generic session opens input port 1
and output port 1, writes a note-on message to output port 1, and then reads
the select sequence for input port 1 followed by a note-on message. -/
def demux_ops : List SessionOp :=
  [SessionOp.openPort ⟨Direction.input, 1⟩,
   SessionOp.openPort ⟨Direction.output, 1⟩,
   SessionOp.outputTrigger 1 true [0x90, 0x3c, 0x64] false (fun _ => false),
   SessionOp.interrupt (rx_words [0xf5, 0x02, 0x90, 0x3c, 0x64]) false true]

/-- The in-flight estimate is between 0 and the trigger limit set by line
initialisation. -/
def FlowInv (uart : snd_uart_pl011) : Prop :=
  uart.fifo_limit = 16 ∧ 0 ≤ uart.fifo_count ∧ uart.fifo_count ≤ 16

/-- The selected input port and the ports bytes were delivered to are indices of
`midi_input`. -/
def DemuxBound (uart : snd_uart_pl011) : Prop :=
  uart.prev_in < SNDRV_SERIAL_MAX_INS ∧
  ∀ e ∈ receives uart.trace, e.1 < SNDRV_SERIAL_MAX_INS

/-- An operation of the transmit side after line initialisation. -/
inductive FlowOp where
  | serviceLoop (rx : List RxWord) (txis txfe : Bool)
  | outputWrite (number : Nat) (stream : List Nat) (idle : Bool) (fe : Nat → Bool)

/-- One operation of the transmit side. -/
def flow_step (uart : snd_uart_pl011) : FlowOp → snd_uart_pl011
  | FlowOp.serviceLoop rx txis txfe => (snd_uart_pl011_io_loop uart rx txis txfe).1
  | FlowOp.outputWrite number stream idle fe =>
      (snd_uart_pl011_output_write uart number stream idle fe).1

/-- A sequence of operations of the transmit side. -/
def run_flow (uart : snd_uart_pl011) (ops : List FlowOp) : snd_uart_pl011 :=
  ops.foldl flow_step uart

/-- The operations of the example of C24: a note-on message is written to output
port 1, then the service loop runs on a transmit interrupt. -/
def flow_ops : List FlowOp :=
  [FlowOp.outputWrite 1 [0x90, 0x3c, 0x64] false (fun _ => false),
   FlowOp.serviceLoop [] true false]

/-! ## Ring-buffer lemmas -/

theorem tx_buff_size_eq : TX_BUFF_SIZE = 32768 := by decide

theorem and_mask_eq_mod (x : Nat) : x &&& TX_BUFF_MASK = x % 32768 := by
  have h : TX_BUFF_MASK = 2 ^ 15 - 1 := by decide
  rw [h, Nat.and_pow_two_sub_one_eq_mod]

theorem ringInv_do_open (uart : snd_uart_pl011) : RingInv (snd_uart_pl011_do_open uart) := by
  simp [RingInv, snd_uart_pl011_do_open, tx_buff_size_eq]

theorem ringInv_write_buffer (uart : snd_uart_pl011) (b : Nat) (h : RingInv uart) :
    RingInv (snd_uart_pl011_write_buffer uart b).1 := by
  unfold RingInv at h ⊢
  unfold snd_uart_pl011_write_buffer
  simp only [tx_buff_size_eq, and_mask_eq_mod] at h ⊢
  split_ifs with hc
  · simp only
    push_cast at h hc ⊢
    omega
  · exact h

theorem ringInv_buffer_output (uart : snd_uart_pl011) (h : RingInv uart) :
    RingInv (snd_uart_pl011_buffer_output uart) := by
  unfold RingInv at h ⊢
  unfold snd_uart_pl011_buffer_output
  simp only [tx_buff_size_eq, and_mask_eq_mod] at h ⊢
  split_ifs with hc
  · simp only
    push_cast at h hc ⊢
    omega
  · exact h

theorem ringInv_runBufOps (ops : List BufOp) :
    ∀ uart : snd_uart_pl011, RingInv uart → RingInv (runBufOps uart ops).1 := by
  induction ops with
  | nil => intro uart h; exact h
  | cons op ops ih =>
    intro uart h
    cases op with
    | push b => exact ih _ (ringInv_write_buffer uart b h)
    | pop => exact ih _ (ringInv_buffer_output uart h)

theorem dataWrites_append (xs ys : List Event) :
    dataWrites (xs ++ ys) = dataWrites xs ++ dataWrites ys := by
  induction xs with
  | nil => rfl
  | cons e es ih => cases e <;> simp [dataWrites, ih]

/-- A successful push appends its byte to the pending bytes. -/
theorem pending_write_buffer (uart : snd_uart_pl011) (b : Nat) (h : RingInv uart)
    (hc : uart.buff_in_count < TX_BUFF_SIZE) :
    pending (snd_uart_pl011_write_buffer uart b).1 = pending uart ++ [b] ∧
    (snd_uart_pl011_write_buffer uart b).2 = 1 := by
  unfold RingInv at h
  obtain ⟨h0, -, hi0, hi1, ho0, ho1, hio⟩ := h
  simp only [tx_buff_size_eq] at hc hi1 ho1 hio
  push_cast at hc hi1 ho1 hio
  have hn : (uart.buff_in_count + 1).toNat = uart.buff_in_count.toNat + 1 := by omega
  unfold snd_uart_pl011_write_buffer pending
  simp only [tx_buff_size_eq, Nat.cast_ofNat]
  rw [if_pos hc]
  refine ⟨?_, rfl⟩
  simp only [hn, List.range_succ, List.map_append, List.map_cons, List.map_nil]
  congr 1
  · apply List.map_congr_left
    intro i hi
    have hi2 : i < uart.buff_in_count.toNat := List.mem_range.mp hi
    rw [Function.update_noteq]
    omega
  · have hidx : ((uart.buff_out + (uart.buff_in_count.toNat : Int)) % 32768).toNat
        = (uart.buff_in % 65536).toNat := by omega
    rw [hidx, Function.update_same]

/-- A pop of a non-empty ring writes the oldest pending byte to the data
register and leaves the others pending. -/
theorem pending_buffer_output (uart : snd_uart_pl011) (h : RingInv uart)
    (hc : 0 < uart.buff_in_count) :
    ∃ b, pending uart = b :: pending (snd_uart_pl011_buffer_output uart) ∧
      (snd_uart_pl011_buffer_output uart).trace = uart.trace ++ [Event.dataWrite b] := by
  unfold RingInv at h
  obtain ⟨-, h1, -, -, ho0, ho1, -⟩ := h
  simp only [tx_buff_size_eq] at h1 ho1
  push_cast at h1 ho1
  refine ⟨uart.tx_buff (uart.buff_out % 65536).toNat, ?_, ?_⟩
  · obtain ⟨n, hn⟩ : ∃ n : Nat, uart.buff_in_count.toNat = n + 1 := ⟨uart.buff_in_count.toNat - 1, by omega⟩
    have hn' : (uart.buff_in_count - 1).toNat = n := by omega
    unfold snd_uart_pl011_buffer_output pending
    simp only [tx_buff_size_eq, and_mask_eq_mod, Nat.cast_ofNat]
    rw [if_pos hc]
    simp only [hn, hn', List.range_succ_eq_map, List.map_cons, List.map_map]
    congr 1
    · congr 1
      omega
    · apply List.map_congr_left
      intro i _
      simp only [Function.comp]
      congr 1
      push_cast
      omega
  · unfold snd_uart_pl011_buffer_output
    rw [if_pos hc]

/-- Conservation of bytes in the ring: what was written to the data register
followed by what is pending grows exactly by the bytes pushed with success. -/
theorem fifo_runBufOps (ops : List BufOp) :
    ∀ uart : snd_uart_pl011, RingInv uart →
      dataWrites (runBufOps uart ops).1.trace ++ pending (runBufOps uart ops).1
        = dataWrites uart.trace ++ pending uart ++ (runBufOps uart ops).2 := by
  induction ops with
  | nil => intro uart _; simp [runBufOps]
  | cons op ops ih =>
    intro uart h
    cases op with
    | push b =>
      simp only [runBufOps]
      rw [ih _ (ringInv_write_buffer uart b h)]
      by_cases hc : uart.buff_in_count < TX_BUFF_SIZE
      · obtain ⟨hp, hr⟩ := pending_write_buffer uart b h hc
        have ht : (snd_uart_pl011_write_buffer uart b).1.trace
            = uart.trace ++ [Event.buffered b] := by
          unfold snd_uart_pl011_write_buffer; rw [if_pos hc]
        rw [hp, hr, ht, dataWrites_append]
        simp [dataWrites]
      · have hw : snd_uart_pl011_write_buffer uart b = (uart, 0) := by
          unfold snd_uart_pl011_write_buffer; rw [if_neg hc]
        rw [hw]
        simp
    | pop =>
      simp only [runBufOps]
      rw [ih _ (ringInv_buffer_output uart h)]
      by_cases hc : 0 < uart.buff_in_count
      · obtain ⟨b, hp, ht⟩ := pending_buffer_output uart h hc
        rw [hp, ht, dataWrites_append]
        simp [dataWrites]
      · have hw : snd_uart_pl011_buffer_output uart = uart := by
          unfold snd_uart_pl011_buffer_output; rw [if_neg (by omega)]
        rw [hw]

theorem pending_do_open (uart : snd_uart_pl011) : pending (snd_uart_pl011_do_open uart) = [] := by
  simp [pending, snd_uart_pl011_do_open]

/-! ## Claims -/

/-- C1: from the state set by line initialisation, after every sequence of
pushes and pops the count is between 0 and the capacity, both cursors are in
`[0, TX_BUFF_SIZE)`, the write cursor is the read cursor plus the count modulo
the capacity, and a count of 0 makes the cursors equal. -/
theorem C1_ring_invariant (uart : snd_uart_pl011) (ops : List BufOp) :
    let r := (runBufOps (snd_uart_pl011_do_open uart) ops).1
    (0 ≤ r.buff_in_count ∧ r.buff_in_count ≤ TX_BUFF_SIZE) ∧
    (0 ≤ r.buff_in ∧ r.buff_in < TX_BUFF_SIZE) ∧
    (0 ≤ r.buff_out ∧ r.buff_out < TX_BUFF_SIZE) ∧
    r.buff_in = (r.buff_out + r.buff_in_count) % (TX_BUFF_SIZE : Int) ∧
    (r.buff_in_count = 0 → r.buff_in = r.buff_out) := by
  intro r
  have h : RingInv r := ringInv_runBufOps ops _ (ringInv_do_open uart)
  unfold RingInv at h
  simp only [tx_buff_size_eq] at h ⊢
  push_cast at h ⊢
  refine ⟨⟨h.1, h.2.1⟩, ⟨h.2.2.1, h.2.2.2.1⟩, ⟨h.2.2.2.2.1, h.2.2.2.2.2.1⟩, h.2.2.2.2.2.2, ?_⟩
  intro h0
  omega

/-- C2: starting from the empty ring left by line initialisation, after every
interleaving of pushes and pops the bytes the pops wrote to the data register,
followed by the bytes still pending, are exactly the bytes whose push
returned 1, in the order they were pushed. -/
theorem C2_fifo_order (uart : snd_uart_pl011) (ops : List BufOp) :
    let start := snd_uart_pl011_do_open uart
    let r := runBufOps start ops
    ∃ popped : List Nat,
      dataWrites r.1.trace = dataWrites start.trace ++ popped ∧
      r.2 = popped ++ pending r.1 := by
  intro start r
  have h := fifo_runBufOps ops start (ringInv_do_open uart)
  rw [pending_do_open, List.append_nil] at h
  have hpre : ∀ (ops : List BufOp) (u : snd_uart_pl011),
      ∃ popped, dataWrites (runBufOps u ops).1.trace = dataWrites u.trace ++ popped := by
    intro ops
    induction ops with
    | nil => intro u; exact ⟨[], by simp [runBufOps]⟩
    | cons op ops ih =>
      intro u
      cases op with
      | push b =>
        obtain ⟨q, hq⟩ := ih (snd_uart_pl011_write_buffer u b).1
        refine ⟨q, ?_⟩
        simp only [runBufOps]
        rw [hq]
        unfold snd_uart_pl011_write_buffer
        split_ifs <;> simp [dataWrites_append, dataWrites]
      | pop =>
        obtain ⟨q, hq⟩ := ih (snd_uart_pl011_buffer_output u)
        simp only [runBufOps]
        rw [hq]
        unfold snd_uart_pl011_buffer_output
        split_ifs
        · exact ⟨u.tx_buff (u.buff_out % 65536).toNat :: q, by simp [dataWrites_append, dataWrites]⟩
        · exact ⟨q, rfl⟩
  obtain ⟨popped, hp⟩ := hpre ops start
  refine ⟨popped, hp, ?_⟩
  have h2 : dataWrites start.trace ++ (popped ++ pending r.1) = dataWrites start.trace ++ r.2 := by
    rw [← List.append_assoc, ← hp]
    exact h
  exact (List.append_cancel_left h2).symm

/-- A flag that is clear stays clear, and nothing else changes, when it is
masked off a non-negative 32-bit `int`. -/
theorem and_maskOff_of_clear (x m : Nat) (hm : m = 1 ∨ m = 2) (hx : x < 2 ^ 31)
    (h : x &&& m = 0) : x &&& maskOff m = x := by
  apply Nat.eq_of_testBit_eq
  intro i
  rw [Nat.testBit_and]
  by_cases hi : i < 32
  · have hb := congrArg (fun y => Nat.testBit y i) h
    simp only [Nat.testBit_and, Nat.zero_testBit] at hb
    rcases hm with rfl | rfl <;> interval_cases i <;>
      simp_all [maskOff, Nat.testBit, Nat.shiftRight_eq_div_pow]
  · have hlt : x < 2 ^ i :=
      lt_of_lt_of_le hx (Nat.pow_le_pow_right (by decide) (by omega))
    rw [Nat.testBit_lt_two_pow hlt]
    rfl

/-- C9 (as stated, refuted): output ports 0 and 15 of the MS-124W M/B adaptor are
distinct, yet both get the framing byte 0xf8. -/
theorem C9_counterexample :
    (0 : Nat) < 16 ∧ (15 : Nat) < 16 ∧ (0 : Nat) ≠ 15 ∧
    ms124w_mb_addr_byte 0 = 0xf8 ∧ ms124w_mb_addr_byte 15 = 0xf8 := by
  decide

/-- C9 (amended): among the output ports 0..15 of the MS-124W M/B adaptor two
distinct ports get the same framing byte only if they are 0 and 15; all other
pairs get different framing bytes. -/
theorem C9_addr_byte_injective (p q : Nat) (hp : p < 16) (hq : q < 16) (hpq : p ≠ q)
    (h015 : ¬ ((p = 0 ∧ q = 15) ∨ (p = 15 ∧ q = 0))) :
    ms124w_mb_addr_byte p ≠ ms124w_mb_addr_byte q := by
  interval_cases p <;> interval_cases q <;> simp_all +decide

/-- C9 (amended), at ports 2 and 3. -/
theorem C9_addr_byte_injective_witness :
    ms124w_mb_addr_byte 2 ≠ ms124w_mb_addr_byte 3 :=
  C9_addr_byte_injective 2 3 (by decide) (by decide) (by decide) (by decide)

/-- C10 (what the code computes): `snd_uart_pl011_buffer_can_write` returns 1
exactly when the count plus `Num` is strictly below the capacity, so it returns 0
when `Num` bytes would fill the ring exactly, as for a count of 32765 and 3
bytes. -/
theorem C10_can_write_strict (uart : snd_uart_pl011) (Num : Int) :
    (snd_uart_pl011_buffer_can_write uart Num = 1 ↔
      uart.buff_in_count + Num < (TX_BUFF_SIZE : Int)) ∧
    snd_uart_pl011_buffer_can_write { uart with buff_in_count := 32765 } 3 = 0 ∧
    (32765 : Int) + 3 ≤ (TX_BUFF_SIZE : Int) := by
  refine ⟨?_, ?_, ?_⟩
  · unfold snd_uart_pl011_buffer_can_write
    split_ifs with h <;> simp [h]
  · simp [snd_uart_pl011_buffer_can_write, tx_buff_size_eq]
  · simp [tx_buff_size_eq]

/-- The read loop handles the first `n + 1` words when the pass counter starts
at `n`, and leaves the others unread. -/
theorem read_loop_eq (rx : List RxWord) :
    ∀ (st : snd_uart_pl011 × Nat) (n : Nat),
      read_loop st (n : Int) rx = ((rx.take (n + 1)).foldl rx_byte st, rx.drop (n + 1)) := by
  induction rx with
  | nil => intro st n; simp [read_loop]
  | cons w rest ih =>
    intro st n
    cases n with
    | zero => simp [read_loop]
    | succ m =>
      have hne : ((m + 1 : Nat) : Int) ≠ 0 := by omega
      have hm : ((m + 1 : Nat) : Int) - 1 = (m : Int) := by omega
      rw [read_loop, if_neg hne, hm, ih]
      simp

theorem io_loop_unread (uart : snd_uart_pl011) (rx : List RxWord) (txis txfe : Bool) :
    (snd_uart_pl011_io_loop uart rx txis txfe).2 = rx.drop 257 := by
  have h := read_loop_eq rx (uart, uart.prev_in) 256
  simp only [snd_uart_pl011_io_loop, AMBA_ISR_PASS_LIMIT]
  rw [show (256 : Int) = ((256 : Nat) : Int) from rfl, h]

/-- C7 (what the code does): one invocation of the service loop leaves unread
exactly the words after the first 257, so under a flood it reads 257 words, one
more than `AMBA_ISR_PASS_LIMIT`; of 300 words 43 stay unread, not 44. -/
theorem C7_pass_limit_off_by_one (uart : snd_uart_pl011) (rx : List RxWord) (w : RxWord)
    (txis txfe : Bool) :
    (snd_uart_pl011_io_loop uart rx txis txfe).2 = rx.drop (AMBA_ISR_PASS_LIMIT.toNat + 1) ∧
    (snd_uart_pl011_io_loop uart (List.replicate 300 w) txis txfe).2.length = 43 := by
  constructor
  · exact io_loop_unread uart rx txis txfe
  · rw [io_loop_unread, List.length_drop, List.length_replicate]

theorem inits_append (xs ys : List Event) : inits (xs ++ ys) = inits xs + inits ys := by
  simp [inits]

theorem teardowns_append (xs ys : List Event) :
    teardowns (xs ++ ys) = teardowns xs + teardowns ys := by
  simp [teardowns]

theorem open_port_filemode (uart : snd_uart_pl011) (p : LogicalPort) :
    (open_port uart p).filemode = uart.filemode ||| open_flag p.dir := by
  obtain ⟨d, n⟩ := p
  cases d <;>
    simp only [open_port, open_flag, snd_uart_pl011_input_open, snd_uart_pl011_output_open] <;>
    split_ifs <;> rfl

theorem open_port_inits (uart : snd_uart_pl011) (p : LogicalPort) :
    inits (open_port uart p).trace
      = inits uart.trace + (if uart.filemode = SERIAL_MODE_NOT_OPENED then 1 else 0) := by
  obtain ⟨d, n⟩ := p
  cases d <;>
    simp only [open_port, snd_uart_pl011_input_open, snd_uart_pl011_output_open] <;>
    split_ifs <;> simp [snd_uart_pl011_do_open, inits]

theorem open_port_teardowns (uart : snd_uart_pl011) (p : LogicalPort) :
    teardowns (open_port uart p).trace = teardowns uart.trace := by
  obtain ⟨d, n⟩ := p
  cases d <;>
    simp only [open_port, snd_uart_pl011_input_open, snd_uart_pl011_output_open] <;>
    split_ifs <;> simp [snd_uart_pl011_do_open, teardowns]

theorem close_port_filemode (uart : snd_uart_pl011) (p : LogicalPort) :
    (close_port uart p).filemode = uart.filemode &&& maskOff (open_flag p.dir) := by
  obtain ⟨d, n⟩ := p
  cases d <;>
    simp only [close_port, open_flag, snd_uart_pl011_input_close, snd_uart_pl011_output_close] <;>
    split_ifs <;> rfl

theorem close_port_inits (uart : snd_uart_pl011) (p : LogicalPort) :
    inits (close_port uart p).trace = inits uart.trace := by
  obtain ⟨d, n⟩ := p
  cases d <;>
    simp only [close_port, snd_uart_pl011_input_close, snd_uart_pl011_output_close] <;>
    split_ifs <;> simp [snd_uart_pl011_do_close, inits]

theorem close_port_teardowns (uart : snd_uart_pl011) (p : LogicalPort) :
    teardowns (close_port uart p).trace
      = teardowns uart.trace +
        (if uart.filemode &&& maskOff (open_flag p.dir) = SERIAL_MODE_NOT_OPENED then 1 else 0) := by
  obtain ⟨d, n⟩ := p
  cases d <;>
    simp only [close_port, open_flag, snd_uart_pl011_input_close, snd_uart_pl011_output_close] <;>
    split_ifs <;> simp [snd_uart_pl011_do_close, teardowns]

/-- C5 (as stated, refuted): input ports 0 and 1 are opened from the Closed state
and closed again; teardown has already run after the first close, while port 1
is still open, and has run twice after the second. -/
theorem C5_counterexample :
    (fresh SNDRV_SERIAL_GENERIC false).filemode = SERIAL_MODE_NOT_OPENED ∧
    teardowns (close_port (open_port (open_port (fresh SNDRV_SERIAL_GENERIC false)
      ⟨Direction.input, 0⟩) ⟨Direction.input, 1⟩) ⟨Direction.input, 0⟩).trace = 1 ∧
    teardowns (close_port (close_port (open_port (open_port (fresh SNDRV_SERIAL_GENERIC false)
      ⟨Direction.input, 0⟩) ⟨Direction.input, 1⟩) ⟨Direction.input, 0⟩)
      ⟨Direction.input, 1⟩).trace = 2 := by
  decide

/-- C5 (amended): two logical ports `p` and `q` are opened from the Closed state
and then closed in either order (`pFirst` tells which is closed first).  Line
initialisation runs exactly once, at the first open.  When the two ports are of
different directions, teardown runs exactly once, at the last close. -/
theorem C5_init_teardown_once (uart : snd_uart_pl011) (p q : LogicalPort) (pFirst : Bool)
    (h0 : uart.filemode = SERIAL_MODE_NOT_OPENED) :
    let s1 := open_port uart p
    let s2 := open_port s1 q
    let s3 := close_port s2 (if pFirst then p else q)
    let s4 := close_port s3 (if pFirst then q else p)
    (inits s1.trace = inits uart.trace + 1 ∧ inits s2.trace = inits s1.trace ∧
      inits s3.trace = inits s1.trace ∧ inits s4.trace = inits s1.trace) ∧
    (p.dir ≠ q.dir →
      teardowns s2.trace = teardowns uart.trace ∧ teardowns s3.trace = teardowns uart.trace ∧
      teardowns s4.trace = teardowns uart.trace + 1) := by
  intro s1 s2 s3 s4
  have f1 : s1.filemode = open_flag p.dir := by
    simp only [s1, open_port_filemode, h0, SERIAL_MODE_NOT_OPENED, Nat.zero_or]
  have f2 : s2.filemode = open_flag p.dir ||| open_flag q.dir := by
    simp only [s2, open_port_filemode, f1]
  have i1 : inits s1.trace = inits uart.trace + 1 := by
    simp only [s1, open_port_inits, h0, if_true]
  have i2 : inits s2.trace = inits s1.trace := by
    have hne : s1.filemode ≠ SERIAL_MODE_NOT_OPENED := by
      rw [f1]; cases p.dir <;> decide
    simp only [s2, open_port_inits, if_neg hne, Nat.add_zero]
  have i3 : inits s3.trace = inits s2.trace := close_port_inits _ _
  have i4 : inits s4.trace = inits s3.trace := close_port_inits _ _
  refine ⟨⟨i1, i2, by rw [i3, i2], by rw [i4, i3, i2]⟩, ?_⟩
  intro hd
  have t2 : teardowns s2.trace = teardowns uart.trace := by
    simp only [s2, s1, open_port_teardowns]
  have f3 : s3.filemode = s2.filemode &&& maskOff (open_flag (if pFirst then p else q).dir) :=
    close_port_filemode _ _
  have t3 : teardowns s3.trace = teardowns s2.trace +
      (if s2.filemode &&& maskOff (open_flag (if pFirst then p else q).dir)
        = SERIAL_MODE_NOT_OPENED then 1 else 0) := close_port_teardowns _ _
  have t4 : teardowns s4.trace = teardowns s3.trace +
      (if s3.filemode &&& maskOff (open_flag (if pFirst then q else p).dir)
        = SERIAL_MODE_NOT_OPENED then 1 else 0) := close_port_teardowns _ _
  rw [t4, f3, t3, f2, t2]
  obtain ⟨pd, pn⟩ := p
  obtain ⟨qd, qn⟩ := q
  have b1 : (open_flag Direction.input ||| open_flag Direction.output)
      &&& maskOff (open_flag Direction.output) = 1 := by decide
  have b2 : (open_flag Direction.input ||| open_flag Direction.output)
      &&& maskOff (open_flag Direction.input) = 2 := by decide
  have b3 : (open_flag Direction.output ||| open_flag Direction.input)
      &&& maskOff (open_flag Direction.output) = 1 := by decide
  have b4 : (open_flag Direction.output ||| open_flag Direction.input)
      &&& maskOff (open_flag Direction.input) = 2 := by decide
  have b5 : (1 : Nat) &&& maskOff (open_flag Direction.input) = 0 := by decide
  have b6 : (2 : Nat) &&& maskOff (open_flag Direction.output) = 0 := by decide
  have n1 : ¬ ((1 : Nat) = 0) := by decide
  have n2 : ¬ ((2 : Nat) = 0) := by decide
  have n0 : SERIAL_MODE_NOT_OPENED = 0 := rfl
  cases pd <;> cases qd <;> cases pFirst <;> first
    | exact absurd rfl hd
    | simp only [if_true, if_false, Bool.false_eq_true, n0, b1, b2, b3, b4, b5, b6, n1, n2,
        Nat.add_zero, and_self]

/-- C5 (amended), at input port 0 and output port 1 opened on a new session and
closed in the order they were opened. -/
theorem C5_init_teardown_once_witness :
    (fresh SNDRV_SERIAL_GENERIC false).filemode = SERIAL_MODE_NOT_OPENED ∧
    teardowns (close_port (close_port (open_port (open_port (fresh SNDRV_SERIAL_GENERIC false)
      ⟨Direction.input, 0⟩) ⟨Direction.output, 1⟩) ⟨Direction.input, 0⟩)
      ⟨Direction.output, 1⟩).trace = teardowns (fresh SNDRV_SERIAL_GENERIC false).trace + 1 :=
  ⟨rfl, ((C5_init_teardown_once (fresh SNDRV_SERIAL_GENERIC false) ⟨Direction.input, 0⟩
    ⟨Direction.output, 1⟩ true rfl).2 (by decide)).2.2⟩

/-- C6 (as stated, refuted): input port 0 is open and the slot of input port 1 is
empty; closing input port 1 clears the input flag of the bitmask and runs
teardown. -/
theorem C6_counterexample :
    port_slot (open_port (fresh SNDRV_SERIAL_GENERIC false) ⟨Direction.input, 0⟩)
      ⟨Direction.input, 0⟩ = true ∧
    port_slot (open_port (fresh SNDRV_SERIAL_GENERIC false) ⟨Direction.input, 0⟩)
      ⟨Direction.input, 1⟩ = false ∧
    (open_port (fresh SNDRV_SERIAL_GENERIC false) ⟨Direction.input, 0⟩).filemode
      = SERIAL_MODE_INPUT_OPEN ∧
    (close_port (open_port (fresh SNDRV_SERIAL_GENERIC false) ⟨Direction.input, 0⟩)
      ⟨Direction.input, 1⟩).filemode = SERIAL_MODE_NOT_OPENED ∧
    teardowns (open_port (fresh SNDRV_SERIAL_GENERIC false) ⟨Direction.input, 0⟩).trace = 0 ∧
    teardowns (close_port (open_port (fresh SNDRV_SERIAL_GENERIC false) ⟨Direction.input, 0⟩)
      ⟨Direction.input, 1⟩).trace = 1 := by
  decide

/-- C6 (amended): in a session state whose bitmask is a non-negative `int`, is not
`SERIAL_MODE_NOT_OPENED` and does not have the open flag of the port's direction
set (only ports of the other direction count as open), closing a port whose
slot in the port table is empty leaves the whole session state as it was; in
particular the bitmask and the port table are unchanged and teardown is not
run. -/
theorem C6_close_idempotent (uart : snd_uart_pl011) (p : LogicalPort)
    (hint : uart.filemode < 2 ^ 31)
    (hopen : uart.filemode ≠ SERIAL_MODE_NOT_OPENED)
    (hflag : uart.filemode &&& open_flag p.dir = 0)
    (hslot : port_slot uart p = false) :
    close_port uart p = uart := by
  obtain ⟨d, n⟩ := p
  have hm : open_flag d = 1 ∨ open_flag d = 2 := by cases d <;> decide
  have hfm : uart.filemode &&& maskOff (open_flag d) = uart.filemode :=
    and_maskOff_of_clear _ _ hm hint hflag
  cases d
  · simp only [open_flag] at hfm
    simp only [port_slot] at hslot
    have hu : Function.update uart.midi_input n false = uart.midi_input := by
      rw [← hslot]; exact Function.update_eq_self n uart.midi_input
    simp only [close_port, snd_uart_pl011_input_close, hfm, hu, if_neg hopen]
  · simp only [open_flag] at hfm
    simp only [port_slot] at hslot
    have hu : Function.update uart.midi_output n false = uart.midi_output := by
      rw [← hslot]; exact Function.update_eq_self n uart.midi_output
    simp only [close_port, snd_uart_pl011_output_close, hfm, hu, if_neg hopen]

/-- C6 (amended), at a session with output port 0 open: closing input port 3 changes
nothing. -/
theorem C6_close_idempotent_witness :
    close_port (open_port (fresh SNDRV_SERIAL_GENERIC false) ⟨Direction.output, 0⟩)
      ⟨Direction.input, 3⟩
      = open_port (fresh SNDRV_SERIAL_GENERIC false) ⟨Direction.output, 0⟩ :=
  C6_close_idempotent (open_port (fresh SNDRV_SERIAL_GENERIC false) ⟨Direction.output, 0⟩)
    ⟨Direction.input, 3⟩ (by decide) (by decide) (by decide) (by decide)

/-! ## Output path lemmas -/

theorem emitted_append (xs ys : List Event) :
    emitted (xs ++ ys) = emitted xs ++ emitted ys := by
  induction xs with
  | nil => rfl
  | cons e es ih => cases e <;> simp [emitted, ih]

theorem frame_pairs_append (a : Nat) (xs ys : List Nat) :
    frame_pairs a (xs ++ ys) = frame_pairs a xs ++ frame_pairs a ys := by
  induction xs with
  | nil => rfl
  | cons b bs ih => simp [frame_pairs, ih]

/-- A byte offered to `snd_uart_pl011_output_byte` while the ring is not full is
accepted: it is written to the data register or stored in the ring, and the
count grows by at most one. -/
theorem output_byte_emitted (uart : snd_uart_pl011) (txfe : Bool) (b : Nat)
    (hc : uart.buff_in_count < TX_BUFF_SIZE) :
    emitted (snd_uart_pl011_output_byte uart txfe b).1.trace = emitted uart.trace ++ [b] ∧
    (snd_uart_pl011_output_byte uart txfe b).1.buff_in_count ≤ uart.buff_in_count + 1 ∧
    (snd_uart_pl011_output_byte uart txfe b).2 = 1 := by
  unfold snd_uart_pl011_output_byte snd_uart_pl011_write_buffer
  simp only [if_pos hc]
  split_ifs <;> simp_all [emitted_append, emitted]

theorem ms124w_mb_addr_byte_ne (number : Nat) : ms124w_mb_addr_byte number ≠ 0x08 := by
  unfold ms124w_mb_addr_byte
  simp only
  split_ifs with h
  · decide
  · exact h

theorem output_write_mb_emitted (number : Nat) (fe : Nat → Bool) (stream : List Nat) :
    ∀ (uart : snd_uart_pl011) (k : Nat),
      ∃ sent, stream = sent ++ (output_write_mb number fe stream uart k).2 ∧
        emitted (output_write_mb number fe stream uart k).1.trace
          = emitted uart.trace ++ frame_pairs (ms124w_mb_addr_byte number) sent := by
  induction stream with
  | nil => intro uart k; exact ⟨[], by simp [output_write_mb, frame_pairs]⟩
  | cons b rest ih =>
    intro uart k
    by_cases hfull : uart.buff_in_count > (TX_BUFF_SIZE : Int) - 2
    · refine ⟨[], ?_⟩
      simp [output_write_mb, hfull, frame_pairs]
    · have hsz := tx_buff_size_eq
      have h1 := output_byte_emitted uart (fe k) (ms124w_mb_addr_byte number)
        (by rw [hsz] at hfull ⊢; push_cast at hfull ⊢; omega)
      have h2 := output_byte_emitted
        (snd_uart_pl011_output_byte uart (fe k) (ms124w_mb_addr_byte number)).1 (fe (k + 1)) b
        (by rw [hsz] at hfull ⊢; push_cast at hfull ⊢; omega)
      obtain ⟨sent, hs, he⟩ := ih
        (snd_uart_pl011_output_byte
          (snd_uart_pl011_output_byte uart (fe k) (ms124w_mb_addr_byte number)).1
          (fe (k + 1)) b).1 (k + 2)
      refine ⟨b :: sent, ?_, ?_⟩
      · simp only [output_write_mb, if_neg hfull, List.cons_append]
        exact congrArg (List.cons b) hs
      · simp only [output_write_mb, if_neg hfull]
        rw [he, h2.1, h1.1]
        simp [frame_pairs]

/-- C8: with the MS-124W M/B adaptor, for every output port, session state and
offered byte sequence, `snd_uart_pl011_output_write` takes a leading part `sent`
of the offered bytes, and what it emits (to the data register or the ring) is
exactly `sent` with the framing byte before every data byte; the framing byte
is never 0x08.  So every framing byte is followed by its accepted data byte. -/
theorem C8_mb_framing_pairs (uart : snd_uart_pl011) (number : Nat) (stream : List Nat)
    (idle : Bool) (fe : Nat → Bool) (hmb : uart.adaptor = SNDRV_SERIAL_MS124W_MB) :
    ∃ sent : List Nat,
      stream = sent ++ (snd_uart_pl011_output_write uart number stream idle fe).2 ∧
      emitted (snd_uart_pl011_output_write uart number stream idle fe).1.trace
        = emitted uart.trace ++ frame_pairs (ms124w_mb_addr_byte number) sent ∧
      ms124w_mb_addr_byte number ≠ 0x08 := by
  obtain ⟨sent, h1, h2⟩ := output_write_mb_emitted number fe stream uart 0
  refine ⟨sent, ?_, ?_, ms124w_mb_addr_byte_ne number⟩
  · simp only [snd_uart_pl011_output_write, if_pos hmb]; exact h1
  · simp only [snd_uart_pl011_output_write, if_pos hmb]; exact h2

/-- C8, at a session with output port 2 open and the bytes 0x90 0x3c: the bytes
emitted are 0x28 0x90 0x28 0x3c. -/
theorem C8_mb_framing_pairs_witness :
    (∃ sent : List Nat,
      [0x90, 0x3c] = sent ++ (snd_uart_pl011_output_write
        (open_port (fresh SNDRV_SERIAL_MS124W_MB false) ⟨Direction.output, 2⟩) 2 [0x90, 0x3c]
        false (fun _ => false)).2 ∧
      emitted (snd_uart_pl011_output_write
        (open_port (fresh SNDRV_SERIAL_MS124W_MB false) ⟨Direction.output, 2⟩) 2 [0x90, 0x3c]
        false (fun _ => false)).1.trace
        = emitted (open_port (fresh SNDRV_SERIAL_MS124W_MB false) ⟨Direction.output, 2⟩).trace
          ++ frame_pairs (ms124w_mb_addr_byte 2) sent ∧
      ms124w_mb_addr_byte 2 ≠ 0x08) ∧
    emitted (snd_uart_pl011_output_write
        (open_port (fresh SNDRV_SERIAL_MS124W_MB false) ⟨Direction.output, 2⟩) 2 [0x90, 0x3c]
        false (fun _ => false)).1.trace = [0x28, 0x90, 0x28, 0x3c] :=
  ⟨C8_mb_framing_pairs (open_port (fresh SNDRV_SERIAL_MS124W_MB false) ⟨Direction.output, 2⟩)
    2 [0x90, 0x3c] false (fun _ => false) rfl, by decide⟩

/-! ## Conservation of the transmitted bytes -/

theorem pending_of_count_zero (uart : snd_uart_pl011) (h : uart.buff_in_count = 0) :
    pending uart = [] := by
  simp [pending, h]

/-- A byte offered to `snd_uart_pl011_output_byte` while the ring is not full
joins the transmit order at its end. -/
theorem output_byte_flow (uart : snd_uart_pl011) (txfe : Bool) (b : Nat) (h : RingInv uart)
    (hc : uart.buff_in_count < TX_BUFF_SIZE) :
    RingInv (snd_uart_pl011_output_byte uart txfe b).1 ∧
    flow (snd_uart_pl011_output_byte uart txfe b).1 = flow uart ++ [b] ∧
    (snd_uart_pl011_output_byte uart txfe b).2 = 1 ∧
    (snd_uart_pl011_output_byte uart txfe b).1.buff_in_count ≤ uart.buff_in_count + 1 ∧
    (snd_uart_pl011_output_byte uart txfe b).1.adaptor = uart.adaptor := by
  obtain ⟨hp, hr⟩ := pending_write_buffer uart b h hc
  have hinv := ringInv_write_buffer uart b h
  have ht : (snd_uart_pl011_write_buffer uart b).1.trace = uart.trace ++ [Event.buffered b] := by
    unfold snd_uart_pl011_write_buffer; rw [if_pos hc]
  have hcnt : (snd_uart_pl011_write_buffer uart b).1.buff_in_count = uart.buff_in_count + 1 := by
    unfold snd_uart_pl011_write_buffer; rw [if_pos hc]
  have had : (snd_uart_pl011_write_buffer uart b).1.adaptor = uart.adaptor := by
    unfold snd_uart_pl011_write_buffer; rw [if_pos hc]
  have hflow : flow (snd_uart_pl011_write_buffer uart b).1 = flow uart ++ [b] := by
    simp [flow, hp, ht, dataWrites_append, dataWrites]
  unfold snd_uart_pl011_output_byte
  by_cases h0 : uart.buff_in_count = 0
  · have hp0 := pending_of_count_zero uart h0
    rw [if_pos h0]
    split_ifs
    · refine ⟨h, ?_, rfl, by simp, rfl⟩
      simp [flow, pending, h0, dataWrites_append, dataWrites]
    · refine ⟨h, ?_, rfl, by simp, rfl⟩
      simp [flow, pending, h0, dataWrites_append, dataWrites]
    · exact ⟨hinv, hflow, rfl, le_of_eq hcnt, had⟩
  · rw [if_neg h0]
    simp only [hr, if_neg (by decide : ¬ ((1 : Int) = 0))]
    exact ⟨hinv, hflow, trivial, le_of_eq hcnt, had⟩

theorem flow_output_write_status (uart : snd_uart_pl011) (b : Nat) :
    flow (output_write_status uart b) = flow uart := by
  unfold output_write_status
  split_ifs <;> simp [flow, pending, dataWrites_append, dataWrites]

theorem ringInv_output_write_status (uart : snd_uart_pl011) (b : Nat) (h : RingInv uart) :
    RingInv (output_write_status uart b) := by
  unfold output_write_status
  split_ifs <;> exact h

/-- For an adaptor without part selection the write loop hands every offered
byte to `snd_uart_pl011_output_byte`, in order, as long as the ring has room. -/
theorem output_write_loop_flow (number : Nat) (idle : Bool) (fe : Nat → Bool)
    (stream : List Nat) :
    ∀ (uart : snd_uart_pl011) (first : Bool) (k : Nat),
      uart.adaptor ≠ SNDRV_SERIAL_SOUNDCANVAS → uart.adaptor ≠ SNDRV_SERIAL_GENERIC →
      RingInv uart → uart.buff_in_count + stream.length ≤ TX_BUFF_SIZE →
      (output_write_loop number idle fe stream uart first k).2 = [] ∧
      RingInv (output_write_loop number idle fe stream uart first k).1 ∧
      flow (output_write_loop number idle fe stream uart first k).1 = flow uart ++ stream := by
  induction stream with
  | nil => intro uart first k _ _ h _; simp [output_write_loop, h]
  | cons b rest ih =>
    intro uart first k hsc hgen h hfit
    simp only [List.length_cons] at hfit
    push_cast at hfit
    obtain ⟨hinv, hflow, hret, hcnt, had⟩ := output_byte_flow uart (fe k) b h (by omega)
    have hsel : output_write_part_select uart number idle fe first k b = some (uart, k) := by
      unfold output_write_part_select
      rw [if_neg]
      rintro ⟨-, h1 | h1, -⟩
      · exact hsc h1
      · exact hgen h1
    have hgo : ¬ ((snd_uart_pl011_output_byte uart (fe k) b).2 = 0 ∧ uart.drop_on_full = false) := by
      rw [hret]; rintro ⟨h1, -⟩; exact absurd h1 (by decide)
    have hst : (output_write_status (snd_uart_pl011_output_byte uart (fe k) b).1 b).adaptor
        = uart.adaptor := by
      rw [← had]; unfold output_write_status; split_ifs <;> rfl
    have hsc2 : (output_write_status (snd_uart_pl011_output_byte uart (fe k) b).1 b).buff_in_count
        = (snd_uart_pl011_output_byte uart (fe k) b).1.buff_in_count := by
      unfold output_write_status; split_ifs <;> rfl
    simp only [output_write_loop, hsel, if_neg hgo]
    have hih := ih (output_write_status (snd_uart_pl011_output_byte uart (fe k) b).1 b)
      true (k + 1) (by rw [hst]; exact hsc) (by rw [hst]; exact hgen)
      (ringInv_output_write_status _ _ hinv) (by rw [hsc2]; omega)
    rw [flow_output_write_status, hflow] at hih
    refine ⟨hih.1, hih.2.1, ?_⟩
    rw [hih.2.2]; simp

theorem sameRing_inv {u v : snd_uart_pl011} (h : SameRing u v) (hu : RingInv u) : RingInv v := by
  obtain ⟨-, h2, h3, h4, -⟩ := h
  unfold RingInv at hu ⊢
  rw [h2, h3, h4]
  exact hu

theorem sameRing_flow {u v : snd_uart_pl011} (h : SameRing u v) : flow v = flow u := by
  obtain ⟨h1, h2, -, h4, h5⟩ := h
  simp only [flow, pending, h1, h2, h4, h5]

theorem sameRing_rx_byte (st : snd_uart_pl011 × Nat) (w : RxWord) :
    SameRing st.1 (rx_byte st w).1 := by
  unfold rx_byte SameRing
  simp only
  split_ifs <;> simp [dataWrites_append, dataWrites]

theorem sameRing_foldl_rx_byte (ws : List RxWord) :
    ∀ st : snd_uart_pl011 × Nat, SameRing st.1 (ws.foldl rx_byte st).1 := by
  induction ws with
  | nil => intro st; exact ⟨rfl, rfl, rfl, rfl, rfl⟩
  | cons w rest ih =>
    intro st
    obtain ⟨a1, a2, a3, a4, a5⟩ := sameRing_rx_byte st w
    obtain ⟨b1, b2, b3, b4, b5⟩ := ih (rx_byte st w)
    exact ⟨b1.trans a1, b2.trans a2, b3.trans a3, b4.trans a4, b5.trans a5⟩

theorem buffer_output_flow (uart : snd_uart_pl011) (h : RingInv uart) :
    flow (snd_uart_pl011_buffer_output uart) = flow uart := by
  by_cases hc : 0 < uart.buff_in_count
  · obtain ⟨b, hp, ht⟩ := pending_buffer_output uart h hc
    simp [flow, hp, ht, dataWrites_append, dataWrites]
  · have hw : snd_uart_pl011_buffer_output uart = uart := by
      unfold snd_uart_pl011_buffer_output; rw [if_neg (by omega)]
    rw [hw]

theorem write_loop_flow (n : Nat) :
    ∀ uart : snd_uart_pl011, RingInv uart →
      RingInv (write_loop n uart) ∧ flow (write_loop n uart) = flow uart := by
  induction n with
  | zero => intro uart h; exact ⟨h, rfl⟩
  | succ m ih =>
    intro uart h
    unfold write_loop
    split_ifs
    · obtain ⟨h1, h2⟩ := ih _ (ringInv_buffer_output uart h)
      exact ⟨h1, h2.trans (buffer_output_flow uart h)⟩
    · exact ⟨h, rfl⟩

/-- The write loop has run to its end: its condition is false in the state
`snd_uart_pl011_io_loop` returns from it. -/
theorem write_loop_exit (n : Nat) :
    ∀ uart : snd_uart_pl011, uart.buff_in_count ≤ n →
      ¬ ((write_loop n uart).fifo_count < (write_loop n uart).fifo_limit ∧
        (write_loop n uart).buff_in_count > 0) := by
  induction n with
  | zero =>
    intro uart h
    simp only [write_loop]
    push_cast at h
    omega
  | succ m ih =>
    intro uart h
    unfold write_loop
    split_ifs with hc
    · apply ih
      unfold snd_uart_pl011_buffer_output
      rw [if_pos hc.2]
      push_cast at h ⊢
      omega
    · exact hc

/-- The service loop returns with its write loop finished: in the state it
returns, the in-flight count has reached the limit or nothing is pending. -/
theorem io_loop_write_done (uart : snd_uart_pl011) (rx : List RxWord) (txis txfe : Bool) :
    ¬ ((snd_uart_pl011_io_loop uart rx txis txfe).1.fifo_count
        < (snd_uart_pl011_io_loop uart rx txis txfe).1.fifo_limit ∧
      (snd_uart_pl011_io_loop uart rx txis txfe).1.buff_in_count > 0) := by
  simp only [snd_uart_pl011_io_loop]
  apply write_loop_exit
  exact Int.self_le_toNat _

/-- One invocation of the service loop keeps the ring invariant and the transmit
order. -/
theorem io_loop_flow (uart : snd_uart_pl011) (rx : List RxWord) (txis txfe : Bool)
    (h : RingInv uart) :
    RingInv (snd_uart_pl011_io_loop uart rx txis txfe).1 ∧
    flow (snd_uart_pl011_io_loop uart rx txis txfe).1 = flow uart := by
  have hr := read_loop_eq rx (uart, uart.prev_in) 256
  have hs := sameRing_foldl_rx_byte (rx.take 257) (uart, uart.prev_in)
  simp only [snd_uart_pl011_io_loop, AMBA_ISR_PASS_LIMIT]
  rw [show (256 : Int) = ((256 : Nat) : Int) from rfl, hr]
  simp only
  generalize (List.foldl rx_byte (uart, uart.prev_in) (List.take 257 rx)) = st at hs ⊢
  have hsame : ∀ u : snd_uart_pl011, SameRing uart u → 
      RingInv (write_loop u.buff_in_count.toNat u) ∧
      flow (write_loop u.buff_in_count.toNat u) = flow uart := by
    intro u hu
    obtain ⟨h1, h2⟩ := write_loop_flow u.buff_in_count.toNat u (sameRing_inv hu h)
    exact ⟨h1, h2.trans (sameRing_flow hu)⟩
  apply hsame
  obtain ⟨a1, a2, a3, a4, a5⟩ := hs
  cases txis <;> cases txfe <;>
    simp [SameRing, a1, a2, a3, a4, a5, dataWrites_append, dataWrites]

theorem io_loops_flow (ios : List (List RxWord × Bool × Bool)) :
    ∀ uart : snd_uart_pl011, RingInv uart →
      RingInv (io_loops uart ios) ∧ flow (io_loops uart ios) = flow uart := by
  induction ios with
  | nil => intro uart h; exact ⟨h, rfl⟩
  | cons io rest ih =>
    intro uart h
    obtain ⟨h1, h2⟩ := io_loop_flow uart io.1 io.2.1 io.2.2 h
    obtain ⟨h3, h4⟩ := ih _ h1
    exact ⟨h3, h4.trans h2⟩

/-- The round trip of the adaptors without framing, for the writes that stay
inside the status cache.  With the MS-124T or MS-124W S/A adaptor, a byte
sequence that fits in the ring is taken whole by `snd_uart_pl011_output_write`,
and once the service-loop invocations that follow (any received words, any
transmit flag readings) have emptied the ring, the data register has been
written with the bytes that were pending before the call followed by the
submitted bytes, in order; from an empty ring these are exactly the submitted
bytes. -/
theorem pass_through_round_trip (uart : snd_uart_pl011) (number : Nat) (stream : List Nat)
    (idle : Bool) (fe : Nat → Bool) (ios : List (List RxWord × Bool × Bool))
    (had : uart.adaptor = SNDRV_SERIAL_MS124T ∨ uart.adaptor = SNDRV_SERIAL_MS124W_SA)
    (hinv : RingInv uart)
    (hfit : uart.buff_in_count + stream.length ≤ TX_BUFF_SIZE)
    (_hin : CacheInBounds (snd_uart_pl011_output_write uart number stream idle fe).1.trace)
    (hdrained : (io_loops (snd_uart_pl011_output_write uart number stream idle fe).1 ios).buff_in_count
      = 0) :
    (snd_uart_pl011_output_write uart number stream idle fe).2 = [] ∧
    dataWrites (io_loops (snd_uart_pl011_output_write uart number stream idle fe).1 ios).trace
      = dataWrites uart.trace ++ pending uart ++ stream := by
  have hmb : uart.adaptor ≠ SNDRV_SERIAL_MS124W_MB := by
    rcases had with h | h <;> rw [h] <;> decide
  have hsc : uart.adaptor ≠ SNDRV_SERIAL_SOUNDCANVAS := by
    rcases had with h | h <;> rw [h] <;> decide
  have hgen : uart.adaptor ≠ SNDRV_SERIAL_GENERIC := by
    rcases had with h | h <;> rw [h] <;> decide
  have hw : snd_uart_pl011_output_write uart number stream idle fe
      = output_write_loop number idle fe stream uart false 0 := by
    simp only [snd_uart_pl011_output_write, if_neg hmb]
  rw [hw] at hdrained ⊢
  obtain ⟨h1, h2, h3⟩ := output_write_loop_flow number idle fe stream uart false 0 hsc hgen hinv hfit
  obtain ⟨-, h5⟩ := io_loops_flow ios _ h2
  refine ⟨h1, ?_⟩
  have h6 := pending_of_count_zero _ hdrained
  rw [h3] at h5
  simp only [flow, h6, List.append_nil] at h5
  exact h5

/-! ## Receive demultiplexer lemmas -/

theorem receives_append (xs ys : List Event) :
    receives (xs ++ ys) = receives xs ++ receives ys := by
  induction xs with
  | nil => rfl
  | cons e es ih => cases e <;> simp [receives, ih]

/-- A byte other than 0xf5 that arrives while no stream switch is under way is
delivered to the selected input port. -/
theorem rx_byte_plain (u : snd_uart_pl011) (p : Nat) (w : RxWord) (h : DemuxReady u p)
    (hw : w.data % 256 ≠ 0xf5) :
    (rx_byte (u, p) w).2 = p ∧ DemuxReady (rx_byte (u, p) w).1 p ∧
    receives (rx_byte (u, p) w).1.trace = receives u.trace ++ [(p, w.data % 256)] := by
  obtain ⟨hg, hf, hs, hr⟩ := h
  unfold rx_byte DemuxReady
  simp only
  split_ifs <;> simp_all [receives_append, receives]

theorem foldl_rx_byte_plain (p : Nat) (ws : List RxWord) :
    ∀ u : snd_uart_pl011, DemuxReady u p → (∀ w ∈ ws, w.data % 256 ≠ 0xf5) →
      (ws.foldl rx_byte (u, p)).2 = p ∧ DemuxReady (ws.foldl rx_byte (u, p)).1 p ∧
      receives (ws.foldl rx_byte (u, p)).1.trace
        = receives u.trace ++ ws.map (fun w => (p, w.data % 256)) := by
  induction ws with
  | nil => intro u h _; simp [h]
  | cons w rest ih =>
    intro u h hws
    obtain ⟨h1, h2, h3⟩ := rx_byte_plain u p w h (hws w (List.mem_cons_self _ _))
    have hst : rx_byte (u, p) w = ((rx_byte (u, p) w).1, p) := Prod.ext rfl h1
    obtain ⟨k1, k2, k3⟩ := ih (rx_byte (u, p) w).1 h2
      (fun x hx => hws x (List.mem_cons_of_mem _ hx))
    rw [List.foldl_cons, hst]
    refine ⟨k1, k2, ?_⟩
    rw [k3, h3]
    simp

/-- The byte 0xf5 starts a stream switch with the generic adaptor and is
delivered to no port. -/
theorem rx_byte_f5 (u : snd_uart_pl011) (sub : Nat) (s1 : RxWord)
    (hg : u.adaptor = SNDRV_SERIAL_GENERIC) (h1 : s1.data % 256 = 0xf5) :
    (rx_byte (u, sub) s1).1.adaptor = u.adaptor ∧
    (rx_byte (u, sub) s1).1.filemode = u.filemode ∧
    (rx_byte (u, sub) s1).1.midi_input = u.midi_input ∧
    (rx_byte (u, sub) s1).1.rstatus = 0xf5 ∧
    receives (rx_byte (u, sub) s1).1.trace = receives u.trace := by
  have hb5 : (0xf5 : Nat) &&& 0x80 ≠ 0 := by decide
  unfold rx_byte
  simp only [h1, hg]
  cases s1.rxff <;> simp [hb5, hg, receives_append, receives]

/-- The byte `p + 1` that follows 0xf5 selects input port `p`, ends the stream
switch and is delivered to no port. -/
theorem rx_byte_port (u : snd_uart_pl011) (sub p : Nat) (s2 : RxWord)
    (hg : u.adaptor = SNDRV_SERIAL_GENERIC) (hr : u.rstatus = 0xf5) (hp : p < 16)
    (h2 : s2.data % 256 = p + 1) :
    (rx_byte (u, sub) s2).2 = p ∧
    (rx_byte (u, sub) s2).1.adaptor = u.adaptor ∧
    (rx_byte (u, sub) s2).1.filemode = u.filemode ∧
    (rx_byte (u, sub) s2).1.midi_input = u.midi_input ∧
    (rx_byte (u, sub) s2).1.rstatus = 0 ∧
    receives (rx_byte (u, sub) s2).1.trace = receives u.trace := by
  have hb : (p + 1) &&& 0x80 = 0 := by interval_cases p <;> decide
  have hmax : SNDRV_SERIAL_MAX_INS = 16 := rfl
  have hle : p + 1 ≤ 16 := by omega
  have hne : p + 1 ≠ 0xf5 := by omega
  unfold rx_byte
  simp only [h2, hg, hr, hmax]
  cases s2.rxff <;> simp [hb, hle, hne, hg, hr, receives_append, receives]

/-- The two bytes of a stream switch, 0xf5 and then `p + 1`, select input port
`p` and are delivered to no port. -/
theorem rx_byte_select (u : snd_uart_pl011) (sub p : Nat) (s1 s2 : RxWord)
    (hg : u.adaptor = SNDRV_SERIAL_GENERIC) (hf : u.filemode &&& SERIAL_MODE_INPUT_OPEN ≠ 0)
    (hs : u.midi_input p = true) (hp : p < 16)
    (h1 : s1.data % 256 = 0xf5) (h2 : s2.data % 256 = p + 1) :
    (rx_byte (rx_byte (u, sub) s1) s2).2 = p ∧
    DemuxReady (rx_byte (rx_byte (u, sub) s1) s2).1 p ∧
    receives (rx_byte (rx_byte (u, sub) s1) s2).1.trace = receives u.trace := by
  obtain ⟨a1, a2, a3, a4, a5⟩ := rx_byte_f5 u sub s1 hg h1
  have hst : rx_byte (u, sub) s1 = ((rx_byte (u, sub) s1).1, (rx_byte (u, sub) s1).2) := rfl
  rw [hst]
  obtain ⟨b0, b1, b2, b3, b4, b5⟩ := rx_byte_port (rx_byte (u, sub) s1).1
    (rx_byte (u, sub) s1).2 p s2 (a1.trans hg) a4 hp h2
  refine ⟨b0, ⟨?_, ?_, ?_, ?_⟩, b5.trans a5⟩
  · rw [b1, a1]; exact hg
  · rw [b2, a2]; exact hf
  · rw [b3, a3]; exact hs
  · rw [b4]; decide

theorem sameDemux_write_loop (n : Nat) :
    ∀ uart : snd_uart_pl011, SameDemux uart (write_loop n uart) := by
  induction n with
  | zero => intro uart; exact ⟨rfl, rfl, rfl, rfl, rfl, rfl⟩
  | succ m ih =>
    intro uart
    unfold write_loop
    split_ifs with hc
    · obtain ⟨a1, a2, a3, a4, a5, a6⟩ := ih (snd_uart_pl011_buffer_output uart)
      have hb : SameDemux uart (snd_uart_pl011_buffer_output uart) := by
        unfold snd_uart_pl011_buffer_output SameDemux
        rw [if_pos hc.2]
        simp [receives_append, receives]
      obtain ⟨b1, b2, b3, b4, b5, b6⟩ := hb
      exact ⟨a1.trans b1, a2.trans b2, a3.trans b3, a4.trans b4, a5.trans b5, a6.trans b6⟩
    · exact ⟨rfl, rfl, rfl, rfl, rfl, rfl⟩

/-- What one invocation of the service loop does to the receive side: the first
257 words go through `rx_byte`, and the selected port is stored in `prev_in`. -/
theorem io_loop_demux (uart : snd_uart_pl011) (rx : List RxWord) (txis txfe : Bool) :
    SameDemux
      { ((rx.take 257).foldl rx_byte (uart, uart.prev_in)).1 with
        prev_in := ((rx.take 257).foldl rx_byte (uart, uart.prev_in)).2 }
      (snd_uart_pl011_io_loop uart rx txis txfe).1 := by
  have hr := read_loop_eq rx (uart, uart.prev_in) 256
  simp only [snd_uart_pl011_io_loop, AMBA_ISR_PASS_LIMIT]
  rw [show (256 : Int) = ((256 : Nat) : Int) from rfl, hr]
  simp only
  generalize (List.foldl rx_byte (uart, uart.prev_in) (List.take 257 rx)) = st
  have key : ∀ u : snd_uart_pl011, SameDemux { st.1 with prev_in := st.2 } u →
      SameDemux { st.1 with prev_in := st.2 } (write_loop u.buff_in_count.toNat u) := by
    intro u hu
    obtain ⟨a1, a2, a3, a4, a5, a6⟩ := sameDemux_write_loop u.buff_in_count.toNat u
    obtain ⟨b1, b2, b3, b4, b5, b6⟩ := hu
    exact ⟨a1.trans b1, a2.trans b2, a3.trans b3, a4.trans b4, a5.trans b5, a6.trans b6⟩
  apply key
  cases txis <;> cases txfe <;> simp [SameDemux, receives_append, receives]

theorem demuxReady_of_same {u v : snd_uart_pl011} {p : Nat} (h : SameDemux u v)
    (hu : DemuxReady u p) : DemuxReady v p := by
  obtain ⟨a1, a2, a3, a4, -, -⟩ := h
  unfold DemuxReady at hu ⊢
  rw [a1, a2, a3, a4]
  exact hu

/-- Enough invocations of the service loop deliver a run of plain bytes to the
selected input port and leave no word unread. -/
theorem io_loop_repeat_plain (p : Nat) (n : Nat) :
    ∀ (uart : snd_uart_pl011) (rx : List RxWord) (tx : Nat → Bool × Bool),
      DemuxReady uart p → uart.prev_in = p → (∀ w ∈ rx, w.data % 256 ≠ 0xf5) →
      rx.length ≤ 257 * n →
      (io_loop_repeat n uart rx tx).2 = [] ∧
      receives (io_loop_repeat n uart rx tx).1.trace
        = receives uart.trace ++ rx.map (fun w => (p, w.data % 256)) := by
  induction n with
  | zero =>
    intro uart rx tx _ _ _ hlen
    have : rx = [] := List.length_eq_zero.mp (by omega)
    subst this
    simp [io_loop_repeat]
  | succ m ih =>
    intro uart rx tx hready hin hrx hlen
    have hsame := io_loop_demux uart rx (tx 0).1 (tx 0).2
    have hun := io_loop_unread uart rx (tx 0).1 (tx 0).2
    rw [hin] at hsame
    obtain ⟨f1, f2, f3⟩ := foldl_rx_byte_plain p (rx.take 257) uart hready
      (fun w hw => hrx w (List.mem_of_mem_take hw))
    have hready2 : DemuxReady (snd_uart_pl011_io_loop uart rx (tx 0).1 (tx 0).2).1 p :=
      demuxReady_of_same hsame f2
    have hin2 : (snd_uart_pl011_io_loop uart rx (tx 0).1 (tx 0).2).1.prev_in = p := by
      rw [hsame.2.2.2.2.1]; exact f1
    have hrec : receives (snd_uart_pl011_io_loop uart rx (tx 0).1 (tx 0).2).1.trace
        = receives uart.trace ++ (rx.take 257).map (fun w => (p, w.data % 256)) := by
      rw [hsame.2.2.2.2.2]; exact f3
    obtain ⟨g1, g2⟩ := ih (snd_uart_pl011_io_loop uart rx (tx 0).1 (tx 0).2).1
      (snd_uart_pl011_io_loop uart rx (tx 0).1 (tx 0).2).2 (fun i => tx (i + 1)) hready2 hin2
      (by rw [hun]; exact fun w hw => hrx w (List.mem_of_mem_drop hw))
      (by rw [hun, List.length_drop]; omega)
    simp only [io_loop_repeat]
    refine ⟨g1, ?_⟩
    rw [g2, hrec, hun, List.append_assoc, ← List.map_append, List.take_append_drop]

/-- C3 (as stated, refuted): generic adaptor, the slot of input port 1 is open,
but input port 0 was closed after it was opened, which cleared
`SERIAL_MODE_INPUT_OPEN`; the session is still active through output port 0.
The bytes 0xf5 0x02 0x90 0x3c 0x64 are read and nothing is delivered. -/
theorem C3_counterexample :
    input_flag_cleared.adaptor = SNDRV_SERIAL_GENERIC ∧
    input_flag_cleared.midi_input 1 = true ∧
    input_flag_cleared.filemode = SERIAL_MODE_OUTPUT_OPEN ∧
    (io_loop_repeat 1 input_flag_cleared (rx_words [0xf5, 0x02, 0x90, 0x3c, 0x64])
      (fun _ => (false, false))).2 = [] ∧
    receives (io_loop_repeat 1 input_flag_cleared (rx_words [0xf5, 0x02, 0x90, 0x3c, 0x64])
      (fun _ => (false, false))).1.trace = [] := by
  decide

/-- C3 (amended): generic adaptor, `p` in 0..15, the slot of input port `p` open
and `SERIAL_MODE_INPUT_OPEN` set in the bitmask, any selected port and
remembered status before.  The receiver presents a word with low byte 0xf5, a
word with low byte `p + 1` and then payload words none of whose low bytes is
0xf5.  Then `n` invocations of the service loop, `n` large enough for the pass
limit of 257 words each, read all words and deliver exactly the payload bytes,
in order, to input port `p`; the two select bytes are delivered to no port. -/
theorem C3_select_routing (uart : snd_uart_pl011) (p : Nat) (s1 s2 : RxWord)
    (payload : List RxWord) (n : Nat) (tx : Nat → Bool × Bool)
    (hg : uart.adaptor = SNDRV_SERIAL_GENERIC) (hp : p < 16)
    (hslot : uart.midi_input p = true)
    (hflag : uart.filemode &&& SERIAL_MODE_INPUT_OPEN ≠ 0)
    (h1 : s1.data % 256 = 0xf5) (h2 : s2.data % 256 = p + 1)
    (hpay : ∀ w ∈ payload, w.data % 256 ≠ 0xf5)
    (hn : payload.length + 2 ≤ 257 * n) :
    (io_loop_repeat n uart (s1 :: s2 :: payload) tx).2 = [] ∧
    receives (io_loop_repeat n uart (s1 :: s2 :: payload) tx).1.trace
      = receives uart.trace ++ payload.map (fun w => (p, w.data % 256)) := by
  cases n with
  | zero => omega
  | succ m =>
    have hsame := io_loop_demux uart (s1 :: s2 :: payload) (tx 0).1 (tx 0).2
    have hun := io_loop_unread uart (s1 :: s2 :: payload) (tx 0).1 (tx 0).2
    have htake : (s1 :: s2 :: payload).take 257 = s1 :: s2 :: payload.take 255 := by
      simp [List.take]
    have hdrop : (s1 :: s2 :: payload).drop 257 = payload.drop 255 := by
      simp [List.drop]
    rw [htake, List.foldl_cons, List.foldl_cons] at hsame
    rw [hdrop] at hun
    obtain ⟨e1, e2, e3⟩ := rx_byte_select uart uart.prev_in p s1 s2 hg hflag hslot hp h1 h2
    have hst : rx_byte (rx_byte (uart, uart.prev_in) s1) s2
        = ((rx_byte (rx_byte (uart, uart.prev_in) s1) s2).1, p) := Prod.ext rfl e1
    rw [hst] at hsame
    obtain ⟨f1, f2, f3⟩ := foldl_rx_byte_plain p (payload.take 255)
      (rx_byte (rx_byte (uart, uart.prev_in) s1) s2).1 e2
      (fun w hw => hpay w (List.mem_of_mem_take hw))
    have hready : DemuxReady (snd_uart_pl011_io_loop uart (s1 :: s2 :: payload)
        (tx 0).1 (tx 0).2).1 p := demuxReady_of_same hsame f2
    have hin : (snd_uart_pl011_io_loop uart (s1 :: s2 :: payload)
        (tx 0).1 (tx 0).2).1.prev_in = p := by
      rw [hsame.2.2.2.2.1]; exact f1
    have hrec : receives (snd_uart_pl011_io_loop uart (s1 :: s2 :: payload)
        (tx 0).1 (tx 0).2).1.trace
        = receives uart.trace ++ (payload.take 255).map (fun w => (p, w.data % 256)) := by
      rw [hsame.2.2.2.2.2, ← e3]; exact f3
    obtain ⟨g1, g2⟩ := io_loop_repeat_plain p m
      (snd_uart_pl011_io_loop uart (s1 :: s2 :: payload) (tx 0).1 (tx 0).2).1
      (snd_uart_pl011_io_loop uart (s1 :: s2 :: payload) (tx 0).1 (tx 0).2).2
      (fun i => tx (i + 1)) hready hin
      (by rw [hun]; exact fun w hw => hpay w (List.mem_of_mem_drop hw))
      (by rw [hun, List.length_drop]; omega)
    simp only [io_loop_repeat]
    refine ⟨g1, ?_⟩
    rw [g2, hrec, hun, List.append_assoc, ← List.map_append, List.take_append_drop]

/-- C3 (amended), at the example of the specification: with four inputs open, the
bytes 0xf5 0x02 0x90 0x3c 0x64 deliver 0x90 0x3c 0x64 to input port 1. -/
theorem C3_select_routing_witness :
    (io_loop_repeat 1 four_inputs (rx_words [0xf5, 0x02, 0x90, 0x3c, 0x64])
      (fun _ => (false, false))).2 = [] ∧
    receives (io_loop_repeat 1 four_inputs (rx_words [0xf5, 0x02, 0x90, 0x3c, 0x64])
      (fun _ => (false, false))).1.trace
      = receives four_inputs.trace ++ [(1, 0x90), (1, 0x3c), (1, 0x64)] :=
  C3_select_routing four_inputs 1 ⟨0xf5, false⟩ ⟨0x02, false⟩ (rx_words [0x90, 0x3c, 0x64]) 1
    (fun _ => (false, false)) (by decide) (by decide) (by decide) (by decide) (by decide)
    (by decide) (by decide) (by decide)

/-- The round trip at an MS-124T session with output port 0 open and a
system-exclusive message, which has no channel-voice status byte: of the 18
bytes submitted 16 go straight to the data register and 2 through the ring,
which one invocation of the service loop with the transmit FIFO empty drains. -/
theorem pass_through_round_trip_sysex :
    (snd_uart_pl011_output_write pass_through_session 0 sysex_stream false
      (fun _ => false)).2 = [] ∧
    dataWrites (io_loops (snd_uart_pl011_output_write pass_through_session 0 sysex_stream false
      (fun _ => false)).1 [([], false, true)]).trace
      = dataWrites pass_through_session.trace ++ pending pass_through_session ++ sysex_stream :=
  pass_through_round_trip pass_through_session 0 sysex_stream false (fun _ => false)
    [([], false, true)] (Or.inl rfl) (by unfold RingInv; decide) (by decide)
    (by unfold CacheInBounds; decide) (by decide)

/-- C4 (what the code does at the failing input): an MS-124T session with output
port 0 open and nothing pending is given a note-on and a note-off message, six
bytes that fit in the ring.  `prev_out` is still -1, so after the first byte
0x90 is written to the data register its status is stored at index -1 of
`prev_status`, outside the array: up to where the execution leaves the array
one of the six bytes has reached the data register. -/
theorem C4_round_trip_leaves_array :
    pass_through_session.adaptor = SNDRV_SERIAL_MS124T ∧
    port_slot pass_through_session ⟨Direction.output, 0⟩ = true ∧
    pass_through_session.buff_in_count + two_notes.length ≤ TX_BUFF_SIZE ∧
    pass_through_session.prev_out = -1 ∧
    definedPart (snd_uart_pl011_output_write pass_through_session 0 two_notes false
        (fun _ => false)).1.trace
      = pass_through_session.trace ++ [Event.dataWrite 0x90, Event.statusCache (-1)] ∧
    dataWrites (definedPart (snd_uart_pl011_output_write pass_through_session 0 two_notes false
        (fun _ => false)).1.trace) = [0x90] := by
  decide

/-! ## The ring invariant in every reachable session state -/

theorem ringInv_create (speed adaptor : Nat) (droponfull : Bool) (clk : Nat) :
    RingInv (snd_uart_pl011_create speed adaptor droponfull clk) := by
  simp [RingInv, snd_uart_pl011_create, tx_buff_size_eq]

theorem ringInv_output_byte (uart : snd_uart_pl011) (txfe : Bool) (b : Nat) (h : RingInv uart) :
    RingInv (snd_uart_pl011_output_byte uart txfe b).1 := by
  have hw := ringInv_write_buffer uart b h
  unfold snd_uart_pl011_output_byte
  simp only
  split_ifs
  · exact h
  · exact h
  · exact hw
  · exact hw
  · exact hw

theorem ringInv_output_write_mb (number : Nat) (fe : Nat → Bool) (stream : List Nat) :
    ∀ (uart : snd_uart_pl011) (k : Nat), RingInv uart →
      RingInv (output_write_mb number fe stream uart k).1 := by
  induction stream with
  | nil => intro uart k h; exact h
  | cons b rest ih =>
    intro uart k h
    unfold output_write_mb
    split_ifs
    · exact h
    · exact ih _ _ (ringInv_output_byte _ _ _ (ringInv_output_byte _ _ _ h))

theorem ringInv_output_write_select (uart : snd_uart_pl011) (number : Nat) (fe : Nat → Bool)
    (k b : Nat) (h : RingInv uart) : RingInv (output_write_select uart number fe k b).1 := by
  have h1 : RingInv { uart with prev_out := (number : Int) } := h
  have h2 := ringInv_output_byte _ (fe k) 0xf5 h1
  have h3 := ringInv_output_byte _ (fe (k + 1))
    (((snd_uart_pl011_output_byte { uart with prev_out := (number : Int) } (fe k) 0xf5).1.prev_out
      + 1) % 256).toNat h2
  unfold output_write_select
  simp only
  split_ifs
  · exact ringInv_output_byte _ _ _ h3
  · exact h3

theorem ringInv_output_write_part_select (uart : snd_uart_pl011) (number : Nat) (idle : Bool)
    (fe : Nat → Bool) (first : Bool) (k b : Nat) (h : RingInv uart)
    (r : snd_uart_pl011 × Nat)
    (hr : output_write_part_select uart number idle fe first k b = some r) : RingInv r.1 := by
  unfold output_write_part_select at hr
  split_ifs at hr
  · cases hr; exact ringInv_output_write_select uart number fe k b h
  · cases hr; exact h
  · cases hr; exact h

theorem ringInv_output_write_loop (number : Nat) (idle : Bool) (fe : Nat → Bool)
    (stream : List Nat) :
    ∀ (uart : snd_uart_pl011) (first : Bool) (k : Nat), RingInv uart →
      RingInv (output_write_loop number idle fe stream uart first k).1 := by
  induction stream with
  | nil => intro uart first k h; exact h
  | cons b rest ih =>
    intro uart first k h
    unfold output_write_loop
    cases hsel : output_write_part_select uart number idle fe first k b with
    | none => exact h
    | some r =>
      obtain ⟨u1, k1⟩ := r
      have h1 : RingInv u1 :=
        ringInv_output_write_part_select uart number idle fe first k b h _ hsel
      have h2 := ringInv_output_byte u1 (fe k1) b h1
      simp only
      split_ifs
      · exact h2
      · exact ih _ _ _ (ringInv_output_write_status _ _ h2)

theorem ringInv_output_write (uart : snd_uart_pl011) (number : Nat) (stream : List Nat)
    (idle : Bool) (fe : Nat → Bool) (h : RingInv uart) :
    RingInv (snd_uart_pl011_output_write uart number stream idle fe).1 := by
  unfold snd_uart_pl011_output_write
  split_ifs
  · exact ringInv_output_write_mb number fe stream uart 0 h
  · exact ringInv_output_write_loop number idle fe stream uart false 0 h

theorem ringInv_session_step (uart : snd_uart_pl011) (op : SessionOp) (h : RingInv uart) :
    RingInv (session_step uart op) := by
  cases op with
  | openPort p =>
    obtain ⟨d, n⟩ := p
    have ho := ringInv_do_open uart
    cases d <;>
      simp only [session_step, open_port, snd_uart_pl011_input_open,
        snd_uart_pl011_output_open] <;>
      split_ifs <;> first | exact ho | exact h
  | closePort p =>
    obtain ⟨d, n⟩ := p
    cases d <;>
      simp only [session_step, close_port, snd_uart_pl011_input_close,
        snd_uart_pl011_output_close, snd_uart_pl011_do_close] <;>
      split_ifs <;> exact h
  | inputTrigger up =>
    simp only [session_step, snd_uart_pl011_input_trigger]
    split_ifs <;> exact h
  | outputTrigger number up stream idle fe =>
    simp only [session_step, snd_uart_pl011_output_trigger]
    cases up
    · exact h
    · exact ringInv_output_write _ number stream idle fe h
  | interrupt rx txis txfe =>
    simp only [session_step, snd_uart_pl011_interrupt]
    split_ifs
    · exact h
    · exact (io_loop_flow uart rx txis txfe h).1

/-- Every session state reached from `snd_uart_pl011_create` by open, close,
trigger, write and interrupt operations satisfies the ring invariant. -/
theorem ringInv_reachable (speed adaptor : Nat) (droponfull : Bool) (clk : Nat)
    (ops : List SessionOp) :
    RingInv (run_session (snd_uart_pl011_create speed adaptor droponfull clk) ops) := by
  have key : ∀ (ops : List SessionOp) (u : snd_uart_pl011), RingInv u →
      RingInv (run_session u ops) := by
    intro ops
    induction ops with
    | nil => intro u h; exact h
    | cons op rest ih => intro u h; exact ih _ (ringInv_session_step u op h)
  exact key ops _ (ringInv_create speed adaptor droponfull clk)

/-! ## Interrupt entry and baud divisor -/

/-- C12: an interrupt on a session whose bitmask is `SERIAL_MODE_NOT_OPENED` (`uart`)
returns `IRQ_NONE`, leaves every received word unread and leaves the whole
session state as it was, so no register is written and the ring, the in-flight
count and the demultiplexer state are unchanged.  On a session with any other
bitmask (`v`) it runs the service loop and returns `IRQ_HANDLED`. -/
theorem C12_spurious_interrupt (uart v : snd_uart_pl011) (rx : List RxWord) (txis txfe : Bool)
    (hclosed : uart.filemode = SERIAL_MODE_NOT_OPENED)
    (hopen : v.filemode ≠ SERIAL_MODE_NOT_OPENED) :
    (snd_uart_pl011_interrupt uart rx txis txfe).2 = irqreturn.IRQ_NONE ∧
    (snd_uart_pl011_interrupt uart rx txis txfe).1.2 = rx ∧
    (snd_uart_pl011_interrupt uart rx txis txfe).1.1 = uart ∧
    (snd_uart_pl011_interrupt v rx txis txfe).2 = irqreturn.IRQ_HANDLED ∧
    (snd_uart_pl011_interrupt v rx txis txfe).1 = snd_uart_pl011_io_loop v rx txis txfe := by
  simp [snd_uart_pl011_interrupt, hclosed, hopen]

/-- Closest-integer rounding: twice the distance between `DIV_ROUND_CLOSEST x d`
times `d` and `x` is at most `d`. -/
theorem div_round_closest_bounds (x d : Nat) (hd : 0 < d) :
    2 * (DIV_ROUND_CLOSEST x d * d) ≤ 2 * x + d ∧ 2 * x ≤ 2 * (DIV_ROUND_CLOSEST x d * d) + d := by
  unfold DIV_ROUND_CLOSEST
  have h1 : (x + d / 2) / d * d ≤ x + d / 2 := Nat.div_mul_le_self _ _
  have h2 : x + d / 2 < (x + d / 2) / d * d + d := by
    have := Nat.lt_div_mul_add (a := x + d / 2) hd
    omega
  omega

/-- The divisor registers for a given oversampling factor `m`. -/
theorem baud_core (uart : snd_uart_pl011) (m : Nat) (hspeed : 0 < uart.speed)
    (hfit : DIV_ROUND_CLOSEST (m * uart.clk) uart.speed < 4194304)
    (hq : (if uart.speed > uart.clk / 16 then DIV_ROUND_CLOSEST (uart.clk * 8) uart.speed
      else DIV_ROUND_CLOSEST (uart.clk * 4) uart.speed) = DIV_ROUND_CLOSEST (m * uart.clk) uart.speed) :
    ∃ fbrd ibrd : Nat,
      (snd_uart_pl011_do_open uart).trace
        = uart.trace ++ [Event.lineInit, Event.divisor fbrd ibrd] ∧
      fbrd < 64 ∧
      2 * |((64 * ibrd + fbrd : Nat) : Int) * (uart.speed : Int) - (m : Int) * (uart.clk : Int)|
        ≤ (uart.speed : Int) := by
  obtain ⟨b1, b2⟩ := div_round_closest_bounds (m * uart.clk) uart.speed hspeed
  generalize DIV_ROUND_CLOSEST (m * uart.clk) uart.speed = Q at hfit b1 b2 hq
  have hand : Q &&& 0x3f = Q % 64 := Nat.and_pow_two_sub_one_eq_mod Q 6
  have hshift : Q >>> 6 = Q / 64 := Nat.shiftRight_eq_div_pow Q 6
  have e0 : Q % 4294967296 = Q := Nat.mod_eq_of_lt (by omega)
  have e1 : Q % 64 % 65536 = Q % 64 := by omega
  have e2 : Q / 64 % 65536 = Q / 64 := by omega
  refine ⟨Q % 64, Q / 64, ?_, Nat.mod_lt _ (by decide), ?_⟩
  · simp only [snd_uart_pl011_do_open, hq, e0, hand, hshift, e1, e2]
  · have hsum : 64 * (Q / 64) + Q % 64 = Q := Nat.div_add_mod Q 64
    rw [hsum]
    have c1 : (2 : Int) * ((Q : Int) * (uart.speed : Int))
        ≤ 2 * ((m : Int) * (uart.clk : Int)) + (uart.speed : Int) := by exact_mod_cast b1
    have c2 : (2 : Int) * ((m : Int) * (uart.clk : Int))
        ≤ 2 * ((Q : Int) * (uart.speed : Int)) + (uart.speed : Int) := by exact_mod_cast b2
    generalize (Q : Int) * (uart.speed : Int) = A at c1 c2 ⊢
    generalize (m : Int) * (uart.clk : Int) = B at c1 c2 ⊢
    rcases abs_cases (A - B) with ⟨h, _⟩ | ⟨h, _⟩ <;> rw [h] <;> omega

/-- C13: for a requested rate above zero whose divisor fits the 22 bits of the two
registers, line initialisation writes a fractional part below 64 and an integer
part such that `quot = 64 * IBRD + FBRD` is the integer nearest to
`m * clk / speed`, that is `2 * |quot * speed - m * clk| ≤ speed`, with `m = 8`
when the rate exceeds `clk / 16` and `m = 4` otherwise. -/
theorem C13_baud_divisor (uart : snd_uart_pl011) (hspeed : 0 < uart.speed)
    (hfit : DIV_ROUND_CLOSEST ((if uart.speed > uart.clk / 16 then 8 else 4) * uart.clk)
      uart.speed < 4194304) :
    ∃ fbrd ibrd : Nat,
      (snd_uart_pl011_do_open uart).trace
        = uart.trace ++ [Event.lineInit, Event.divisor fbrd ibrd] ∧
      fbrd < 64 ∧
      2 * |((64 * ibrd + fbrd : Nat) : Int) * (uart.speed : Int)
          - ((if uart.speed > uart.clk / 16 then 8 else 4 : Nat) : Int) * (uart.clk : Int)|
        ≤ (uart.speed : Int) := by
  apply baud_core uart _ hspeed hfit
  split_ifs <;> rw [Nat.mul_comm]

/-! ## Receive side without stream switches -/

/-- What an adaptor other than the generic one does with a received word: the
byte goes to the selected input if that is open, and the selection stays. -/
theorem rx_byte_direct (u : snd_uart_pl011) (p : Nat) (w : RxWord)
    (hng : u.adaptor ≠ SNDRV_SERIAL_GENERIC) :
    (rx_byte (u, p) w).2 = p ∧
    (rx_byte (u, p) w).1.adaptor = u.adaptor ∧
    (rx_byte (u, p) w).1.filemode = u.filemode ∧
    (rx_byte (u, p) w).1.midi_input = u.midi_input ∧
    receives (rx_byte (u, p) w).1.trace = receives u.trace ++
      (if u.filemode &&& SERIAL_MODE_INPUT_OPEN ≠ 0 ∧ u.midi_input p = true
        then [(p, w.data % 256)] else []) := by
  unfold rx_byte
  simp only
  split_ifs <;> simp_all [receives_append, receives]

/-- A run of received words with an adaptor other than the generic one. -/
theorem foldl_rx_byte_direct (p : Nat) (ws : List RxWord) :
    ∀ u : snd_uart_pl011, u.adaptor ≠ SNDRV_SERIAL_GENERIC →
      (ws.foldl rx_byte (u, p)).2 = p ∧
      (ws.foldl rx_byte (u, p)).1.adaptor = u.adaptor ∧
      (ws.foldl rx_byte (u, p)).1.filemode = u.filemode ∧
      (ws.foldl rx_byte (u, p)).1.midi_input = u.midi_input ∧
      receives (ws.foldl rx_byte (u, p)).1.trace = receives u.trace ++
        (if u.filemode &&& SERIAL_MODE_INPUT_OPEN ≠ 0 ∧ u.midi_input p = true
          then ws.map (fun w => (p, w.data % 256)) else []) := by
  induction ws with
  | nil => intro u _; simp
  | cons w rest ih =>
    intro u hng
    obtain ⟨h1, h2, h3, h4, h5⟩ := rx_byte_direct u p w hng
    have hst : rx_byte (u, p) w = ((rx_byte (u, p) w).1, p) := Prod.ext rfl h1
    obtain ⟨k1, k2, k3, k4, k5⟩ := ih (rx_byte (u, p) w).1 (by rw [h2]; exact hng)
    rw [List.foldl_cons, hst]
    refine ⟨k1, k2.trans h2, k3.trans h3, k4.trans h4, ?_⟩
    rw [k5, h5, h3, h4]
    split_ifs <;> simp

/-- Service-loop invocations with an adaptor other than the generic one. -/
theorem io_loop_repeat_direct (n : Nat) :
    ∀ (uart : snd_uart_pl011) (rx : List RxWord) (tx : Nat → Bool × Bool),
      uart.adaptor ≠ SNDRV_SERIAL_GENERIC → rx.length ≤ 257 * n →
      (io_loop_repeat n uart rx tx).2 = [] ∧
      (io_loop_repeat n uart rx tx).1.prev_in = uart.prev_in ∧
      receives (io_loop_repeat n uart rx tx).1.trace = receives uart.trace ++
        (if uart.filemode &&& SERIAL_MODE_INPUT_OPEN ≠ 0 ∧ uart.midi_input uart.prev_in = true
          then rx.map (fun w => (uart.prev_in, w.data % 256)) else []) := by
  induction n with
  | zero =>
    intro uart rx tx _ hlen
    have : rx = [] := List.length_eq_zero.mp (by omega)
    subst this
    simp [io_loop_repeat]
  | succ m ih =>
    intro uart rx tx hng hlen
    obtain ⟨s1, s2, s3, -, s5, s6⟩ := io_loop_demux uart rx (tx 0).1 (tx 0).2
    have hun := io_loop_unread uart rx (tx 0).1 (tx 0).2
    obtain ⟨f1, f2, f3, f4, f5⟩ := foldl_rx_byte_direct uart.prev_in (rx.take 257) uart hng
    simp only at s1 s2 s3 s5 s6
    obtain ⟨g1, g2, g3⟩ := ih (snd_uart_pl011_io_loop uart rx (tx 0).1 (tx 0).2).1
      (snd_uart_pl011_io_loop uart rx (tx 0).1 (tx 0).2).2 (fun i => tx (i + 1))
      (by rw [s1, f2]; exact hng) (by rw [hun, List.length_drop]; omega)
    simp only [io_loop_repeat]
    refine ⟨g1, by rw [g2, s5, f1], ?_⟩
    rw [g3, s6, f5, s2, s3, s5, f1, f3, f4, hun]
    split_ifs
    · rw [List.append_assoc, ← List.map_append, List.take_append_drop]
    · simp

/-- C16: with an adaptor other than the generic one, enough invocations of the
service loop read every received word, whatever its value, and hand every byte
to the selected input port when that port is open (input flag set and slot
bound), none otherwise; no byte is taken as a select byte, and `prev_in` is the
same afterwards. -/
theorem C16_no_select_parsing (uart : snd_uart_pl011) (rx : List RxWord) (n : Nat)
    (tx : Nat → Bool × Bool)
    (hng : uart.adaptor ≠ SNDRV_SERIAL_GENERIC) (hn : rx.length ≤ 257 * n) :
    (io_loop_repeat n uart rx tx).2 = [] ∧
    (io_loop_repeat n uart rx tx).1.prev_in = uart.prev_in ∧
    receives (io_loop_repeat n uart rx tx).1.trace = receives uart.trace ++
      (if uart.filemode &&& SERIAL_MODE_INPUT_OPEN ≠ 0 ∧ uart.midi_input uart.prev_in = true
        then rx.map (fun w => (uart.prev_in, w.data % 256)) else []) :=
  io_loop_repeat_direct n uart rx tx hng hn

/-- A byte has its high bit clear exactly when it is below 0x80. -/
theorem and_0x80_iff (c : Nat) (h : c < 256) : c &&& 0x80 = 0 ↔ c < 0x80 := by
  have e : c &&& 0x80 = (c.testBit 7).toNat * 2 ^ 7 := Nat.and_two_pow c 7
  rw [e, Nat.testBit_to_div_mod]
  by_cases hc : c < 0x80
  · have : c / 128 % 2 = 0 := by omega
    simp [this, hc]
  · have : c / 128 % 2 = 1 := by omega
    simp [this, hc]

/-- C15 (amended): generic adaptor, remembered status 0xf5.  A received data byte
(below 0x80) that is 0 or above 16 (`w`) is delivered to no port, leaves the
selected input port as it was and clears the remembered status.  A received
status byte other than 0xf5 (`w2`) leaves the selected input port as it was,
becomes the remembered status, and is delivered to the selected port like any
other byte when that port is open. -/
theorem C15_out_of_range_select (u : snd_uart_pl011) (sub : Nat) (w w2 : RxWord)
    (hg : u.adaptor = SNDRV_SERIAL_GENERIC) (hr : u.rstatus = 0xf5)
    (hdata : w.data % 256 < 0x80)
    (hrange : w.data % 256 = 0 ∨ 16 < w.data % 256)
    (hstatus : 0x80 ≤ w2.data % 256) (hne : w2.data % 256 ≠ 0xf5) :
    ((rx_byte (u, sub) w).2 = sub ∧
      receives (rx_byte (u, sub) w).1.trace = receives u.trace ∧
      (rx_byte (u, sub) w).1.rstatus = 0) ∧
    ((rx_byte (u, sub) w2).2 = sub ∧
      (rx_byte (u, sub) w2).1.rstatus = w2.data % 256 ∧
      receives (rx_byte (u, sub) w2).1.trace = receives u.trace ++
        (if u.filemode &&& SERIAL_MODE_INPUT_OPEN ≠ 0 ∧ u.midi_input sub = true
          then [(sub, w2.data % 256)] else [])) := by
  have hb : w.data % 256 &&& 0x80 = 0 :=
    (and_0x80_iff _ (Nat.mod_lt _ (by decide))).mpr hdata
  have hb2 : w2.data % 256 &&& 0x80 ≠ 0 := by
    intro h0
    have := (and_0x80_iff _ (Nat.mod_lt _ (by decide))).mp h0
    omega
  have hmax : SNDRV_SERIAL_MAX_INS = 16 := rfl
  have hnr : ¬ (w.data % 256 ≤ 16 ∧ w.data % 256 > 0) := by omega
  have hn5 : w.data % 256 ≠ 0xf5 := by omega
  constructor
  · unfold rx_byte
    simp only [hb, hg, hr, hmax]
    cases w.rxff <;> simp [hnr, hn5, hg, hr, receives_append, receives]
  · unfold rx_byte
    simp only [hg]
    cases w2.rxff <;> split_ifs <;> simp_all [receives_append, receives]

/-! ## Transmit drain -/

/-- A value in the range of `short int` is not changed by the conversion. -/
theorem toShort_of_range (x : Int) (h1 : -32768 ≤ x) (h2 : x ≤ 32767) : toShort x = x := by
  unfold toShort
  omega

/-- The read loop does not touch the in-flight count or its limit. -/
theorem fifo_rx_byte (st : snd_uart_pl011 × Nat) (w : RxWord) :
    (rx_byte st w).1.fifo_count = st.1.fifo_count ∧
    (rx_byte st w).1.fifo_limit = st.1.fifo_limit := by
  unfold rx_byte
  simp only
  split_ifs <;> simp

theorem fifo_foldl_rx_byte (ws : List RxWord) :
    ∀ st : snd_uart_pl011 × Nat,
      (ws.foldl rx_byte st).1.fifo_count = st.1.fifo_count ∧
      (ws.foldl rx_byte st).1.fifo_limit = st.1.fifo_limit := by
  induction ws with
  | nil => intro st; exact ⟨rfl, rfl⟩
  | cons w rest ih =>
    intro st
    obtain ⟨a1, a2⟩ := fifo_rx_byte st w
    obtain ⟨b1, b2⟩ := ih (rx_byte st w)
    exact ⟨b1.trans a1, b2.trans a2⟩

/-- The write loop pops the oldest pending bytes until nothing is pending or the
in-flight count has reached the limit. -/
theorem write_loop_spec (m : Nat) :
    ∀ uart : snd_uart_pl011, RingInv uart → uart.buff_in_count ≤ m →
      -32768 ≤ uart.fifo_count → uart.fifo_limit ≤ 32767 →
      ∃ written : List Nat,
        (written.length : Int)
          = min uart.buff_in_count (max 0 (uart.fifo_limit - uart.fifo_count)) ∧
        pending uart = written ++ pending (write_loop m uart) ∧
        dataWrites (write_loop m uart).trace = dataWrites uart.trace ++ written ∧
        (write_loop m uart).buff_in_count = uart.buff_in_count - written.length ∧
        (write_loop m uart).fifo_count = uart.fifo_count + written.length ∧
        (write_loop m uart).fifo_limit = uart.fifo_limit := by
  induction m with
  | zero =>
    intro uart hinv hm _ _
    have h0 : 0 ≤ uart.buff_in_count := hinv.1
    refine ⟨[], ?_, by simp [write_loop], by simp [write_loop], by simp [write_loop],
      by simp [write_loop], by simp [write_loop]⟩
    push_cast at hm ⊢
    simp only [List.length_nil, Nat.cast_zero]
    omega
  | succ m ih =>
    intro uart hinv hm hlo hhi
    have h0 : 0 ≤ uart.buff_in_count := hinv.1
    unfold write_loop
    by_cases hc : uart.fifo_count < uart.fifo_limit ∧ uart.buff_in_count > 0
    · rw [if_pos hc]
      obtain ⟨b, hp, ht⟩ := pending_buffer_output uart hinv hc.2
      have hcnt : (snd_uart_pl011_buffer_output uart).buff_in_count = uart.buff_in_count - 1 := by
        unfold snd_uart_pl011_buffer_output; rw [if_pos hc.2]
      have hfc : (snd_uart_pl011_buffer_output uart).fifo_count = uart.fifo_count + 1 := by
        unfold snd_uart_pl011_buffer_output; rw [if_pos hc.2]
        exact toShort_of_range _ (by omega) (by omega)
      have hfl : (snd_uart_pl011_buffer_output uart).fifo_limit = uart.fifo_limit := by
        unfold snd_uart_pl011_buffer_output; rw [if_pos hc.2]
      obtain ⟨wr, w1, w2, w3, w4, w5, w6⟩ := ih (snd_uart_pl011_buffer_output uart)
        (ringInv_buffer_output uart hinv) (by rw [hcnt]; push_cast at hm ⊢; omega)
        (by rw [hfc]; omega) (by rw [hfl]; exact hhi)
      rw [hcnt, hfc, hfl] at w1
      refine ⟨b :: wr, ?_, ?_, ?_, ?_, ?_, ?_⟩
      · simp only [List.length_cons]; push_cast; omega
      · rw [hp, w2]; rfl
      · rw [w3, ht, dataWrites_append]; simp [dataWrites]
      · rw [w4, hcnt]; simp only [List.length_cons]; push_cast; omega
      · rw [w5, hfc]; simp only [List.length_cons]; push_cast; omega
      · rw [w6, hfl]
    · rw [if_neg hc]
      refine ⟨[], ?_, by simp, by simp, by simp, by simp, rfl⟩
      simp only [List.length_nil, Nat.cast_zero]
      omega

/-- C17: let `c0` be 0 if the hardware reports the transmit FIFO empty, else 2 if
it reports the transmit interrupt, else the previous in-flight count.  In a
session state with the ring invariant and `short int` flow fields, the service
loop writes to the data register exactly the `min n (max 0 (fifo_limit - c0))`
oldest of the `n` pending bytes, in order; these leave the ring, the in-flight
count is `c0` plus their number, and on return the ring is empty or the
in-flight count has reached the limit. -/
theorem C17_transmit_drain (uart : snd_uart_pl011) (rx : List RxWord) (txis txfe : Bool)
    (hinv : RingInv uart) (hlo : -32768 ≤ uart.fifo_count) (hhi : uart.fifo_limit ≤ 32767) :
    ∃ written : List Nat,
      (written.length : Int) = min uart.buff_in_count
        (max 0 (uart.fifo_limit - (if txfe then 0 else if txis then 2 else uart.fifo_count))) ∧
      pending uart = written ++ pending (snd_uart_pl011_io_loop uart rx txis txfe).1 ∧
      dataWrites (snd_uart_pl011_io_loop uart rx txis txfe).1.trace
        = dataWrites uart.trace ++ written ∧
      (snd_uart_pl011_io_loop uart rx txis txfe).1.buff_in_count
        = uart.buff_in_count - written.length ∧
      (snd_uart_pl011_io_loop uart rx txis txfe).1.fifo_count
        = (if txfe then 0 else if txis then 2 else uart.fifo_count) + written.length ∧
      ((snd_uart_pl011_io_loop uart rx txis txfe).1.buff_in_count = 0 ∨
        (snd_uart_pl011_io_loop uart rx txis txfe).1.fifo_limit
          ≤ (snd_uart_pl011_io_loop uart rx txis txfe).1.fifo_count) := by
  have hdone := io_loop_write_done uart rx txis txfe
  have hr := read_loop_eq rx (uart, uart.prev_in) 256
  have hs := sameRing_foldl_rx_byte (rx.take 257) (uart, uart.prev_in)
  have hf := fifo_foldl_rx_byte (rx.take 257) (uart, uart.prev_in)
  have key : ∀ u : snd_uart_pl011, SameRing uart u → u.fifo_limit = uart.fifo_limit →
      u.fifo_count = (if txfe then 0 else if txis then 2 else uart.fifo_count) →
      ∃ written : List Nat,
        (written.length : Int) = min uart.buff_in_count
          (max 0 (uart.fifo_limit - (if txfe then 0 else if txis then 2 else uart.fifo_count))) ∧
        pending uart = written ++ pending (write_loop u.buff_in_count.toNat u) ∧
        dataWrites (write_loop u.buff_in_count.toNat u).trace = dataWrites uart.trace ++ written ∧
        (write_loop u.buff_in_count.toNat u).buff_in_count = uart.buff_in_count - written.length ∧
        (write_loop u.buff_in_count.toNat u).fifo_count
          = (if txfe then 0 else if txis then 2 else uart.fifo_count) + written.length := by
    intro u hu hl hc
    have hpend : pending u = pending uart := by
      obtain ⟨h1, h2, -, h4, -⟩ := hu
      simp only [pending, h1, h2, h4]
    obtain ⟨wr, w1, w2, w3, w4, w5, -⟩ := write_loop_spec u.buff_in_count.toNat u
      (sameRing_inv hu hinv) (Int.self_le_toNat _)
      (by rw [hc]; split_ifs <;> omega) (by rw [hl]; exact hhi)
    rw [hu.2.1, hl, hc] at w1
    rw [hpend] at w2
    exact ⟨wr, w1, w2, by rw [w3, hu.2.2.2.2], by rw [w4, hu.2.1], by rw [w5, hc]⟩
  have hred : ∃ u : snd_uart_pl011, SameRing uart u ∧ u.fifo_limit = uart.fifo_limit ∧
      u.fifo_count = (if txfe then 0 else if txis then 2 else uart.fifo_count) ∧
      (snd_uart_pl011_io_loop uart rx txis txfe).1 = write_loop u.buff_in_count.toNat u := by
    simp only [snd_uart_pl011_io_loop, AMBA_ISR_PASS_LIMIT]
    rw [show (256 : Int) = ((256 : Nat) : Int) from rfl, hr]
    simp only
    generalize (List.foldl rx_byte (uart, uart.prev_in) (List.take 257 rx)) = st at hs hf
    obtain ⟨a1, a2, a3, a4, a5⟩ := hs
    obtain ⟨f1, f2⟩ := hf
    refine ⟨_, ?_, ?_, ?_, rfl⟩
    · cases txis <;> cases txfe <;>
        simp [SameRing, a1, a2, a3, a4, a5, dataWrites_append, dataWrites]
    · cases txis <;> cases txfe <;> simp [f2]
    · cases txis <;> cases txfe <;> simp [f1]
  obtain ⟨u, hu, hl, hc, he⟩ := hred
  obtain ⟨wr, w1, w2, w3, w4, w5⟩ := key u hu hl hc
  rw [he] at hdone ⊢
  refine ⟨wr, w1, w2, w3, w4, w5, ?_⟩
  by_cases hz : (write_loop u.buff_in_count.toNat u).buff_in_count = 0
  · exact Or.inl hz
  · right
    have hnn : 0 ≤ (write_loop u.buff_in_count.toNat u).buff_in_count :=
      (write_loop_flow _ u (sameRing_inv hu hinv)).1.1
    by_contra hlt
    exact hdone ⟨by omega, by omega⟩

/-! ## Output framing -/

/-- The output path leaves the adaptor, the policy, the last-used port and the
status cache alone when it hands over a byte. -/
theorem output_byte_fields (uart : snd_uart_pl011) (txfe : Bool) (b : Nat) :
    (snd_uart_pl011_output_byte uart txfe b).1.prev_out = uart.prev_out ∧
    (snd_uart_pl011_output_byte uart txfe b).1.prev_status = uart.prev_status ∧
    (snd_uart_pl011_output_byte uart txfe b).1.adaptor = uart.adaptor ∧
    (snd_uart_pl011_output_byte uart txfe b).1.drop_on_full = uart.drop_on_full := by
  unfold snd_uart_pl011_output_byte snd_uart_pl011_write_buffer
  simp only
  split_ifs <;> simp

/-- A byte offered to `snd_uart_pl011_output_byte` while the ring is full is
rejected and changes nothing but the diagnostics. -/
theorem output_byte_rejected (uart : snd_uart_pl011) (txfe : Bool) (b : Nat)
    (hc : ¬ uart.buff_in_count < TX_BUFF_SIZE) :
    (snd_uart_pl011_output_byte uart txfe b).2 = 0 ∧
    emitted (snd_uart_pl011_output_byte uart txfe b).1.trace = emitted uart.trace ∧
    (snd_uart_pl011_output_byte uart txfe b).1.buff_in_count = uart.buff_in_count := by
  have h0 : uart.buff_in_count ≠ 0 := by
    intro h; apply hc; rw [h, tx_buff_size_eq]; decide
  unfold snd_uart_pl011_output_byte snd_uart_pl011_write_buffer
  simp [h0, hc, emitted_append, emitted]

/-- The running status statement changes the cache only. -/
theorem output_write_status_fields (uart : snd_uart_pl011) (b : Nat) :
    (output_write_status uart b).prev_out = uart.prev_out ∧
    (output_write_status uart b).adaptor = uart.adaptor ∧
    (output_write_status uart b).drop_on_full = uart.drop_on_full ∧
    (output_write_status uart b).buff_in_count = uart.buff_in_count ∧
    emitted (output_write_status uart b).trace = emitted uart.trace := by
  unfold output_write_status
  split_ifs <;> simp [emitted_append, emitted]

/-- Once `first` is set the part selection is skipped. -/
theorem output_write_part_select_true (uart : snd_uart_pl011) (number : Nat) (idle : Bool)
    (fe : Nat → Bool) (k b : Nat) :
    output_write_part_select uart number idle fe true k b = some (uart, k) := by
  simp [output_write_part_select]

/-- After the first iteration the loop only hands bytes to
`snd_uart_pl011_output_byte`: the bytes accepted are a leading part of the
stream, cut where the ring is full. -/
theorem output_write_loop_tail (number : Nat) (idle : Bool) (fe : Nat → Bool)
    (stream : List Nat) :
    ∀ (uart : snd_uart_pl011) (k : Nat),
      ∃ accepted tail : List Nat, stream = accepted ++ tail ∧
        emitted (output_write_loop number idle fe stream uart true k).1.trace
          = emitted uart.trace ++ accepted ∧
        (output_write_loop number idle fe stream uart true k).1.prev_out = uart.prev_out ∧
        (uart.buff_in_count + stream.length ≤ TX_BUFF_SIZE → tail = []) ∧
        (uart.buff_in_count < TX_BUFF_SIZE → stream ≠ [] → accepted ≠ []) ∧
        ((TX_BUFF_SIZE : Int) ≤ uart.buff_in_count → accepted = []) ∧
        (uart.drop_on_full = false →
          (output_write_loop number idle fe stream uart true k).2 = tail ∧
          (tail ≠ [] → (TX_BUFF_SIZE : Int)
            ≤ (output_write_loop number idle fe stream uart true k).1.buff_in_count)) := by
  induction stream with
  | nil =>
    intro uart k
    exact ⟨[], [], rfl, by simp [output_write_loop], rfl, fun _ => rfl, fun _ h => absurd rfl h,
      fun _ => rfl, fun _ => ⟨rfl, fun h => absurd rfl h⟩⟩
  | cons b rest ih =>
    intro uart k
    obtain ⟨p1, p2, p3, p4⟩ := output_byte_fields uart (fe k) b
    obtain ⟨q1, q2, q3, q4, q5⟩ :=
      output_write_status_fields (snd_uart_pl011_output_byte uart (fe k) b).1 b
    obtain ⟨acc, tl, e1, e2, e3, e4, e5, e6, e7⟩ :=
      ih (output_write_status (snd_uart_pl011_output_byte uart (fe k) b).1 b) (k + 1)
    rw [q1, p1] at e3
    rw [q5] at e2
    rw [q4] at e4 e5 e6
    rw [q3, p4] at e7
    by_cases hc : uart.buff_in_count < TX_BUFF_SIZE
    · obtain ⟨a1, a2, a3⟩ := output_byte_emitted uart (fe k) b hc
      have hgo : ¬ ((snd_uart_pl011_output_byte uart (fe k) b).2 = 0 ∧ uart.drop_on_full = false) := by
        rw [a3]; rintro ⟨h1, -⟩; exact absurd h1 (by decide)
      have hloop : output_write_loop number idle fe (b :: rest) uart true k
          = output_write_loop number idle fe rest
            (output_write_status (snd_uart_pl011_output_byte uart (fe k) b).1 b) true (k + 1) := by
        simp only [output_write_loop, output_write_part_select_true, if_neg hgo]
      rw [hloop]
      refine ⟨b :: acc, tl, by rw [e1]; rfl, ?_, e3, ?_, fun _ _ => List.cons_ne_nil _ _, ?_, e7⟩
      · rw [e2, a1]; simp
      · intro hfit
        apply e4
        simp only [List.length_cons] at hfit
        push_cast at hfit
        omega
      · intro hfull
        exact absurd hc (by omega)
    · obtain ⟨r1, r2, r3⟩ := output_byte_rejected uart (fe k) b hc
      have hfull : (TX_BUFF_SIZE : Int) ≤ uart.buff_in_count := by omega
      by_cases hd : uart.drop_on_full = false
      · have hloop : output_write_loop number idle fe (b :: rest) uart true k
            = ((snd_uart_pl011_output_byte uart (fe k) b).1, b :: rest) := by
          simp only [output_write_loop, output_write_part_select_true, r1, hd, and_self, if_true]
        rw [hloop]
        refine ⟨[], b :: rest, rfl, by simp [r2], p1, ?_, fun h => absurd h hc, fun _ => rfl,
          fun _ => ⟨rfl, fun _ => by rw [r3]; exact hfull⟩⟩
        intro hfit
        simp only [List.length_cons] at hfit
        push_cast at hfit
        omega
      · have hgo : ¬ ((snd_uart_pl011_output_byte uart (fe k) b).2 = 0 ∧ uart.drop_on_full = false) :=
          fun h => hd h.2
        have hloop : output_write_loop number idle fe (b :: rest) uart true k
            = output_write_loop number idle fe rest
              (output_write_status (snd_uart_pl011_output_byte uart (fe k) b).1 b) true (k + 1) := by
          simp only [output_write_loop, output_write_part_select_true, if_neg hgo]
        rw [hloop]
        have hacc : acc = [] := e6 (by rw [r3]; exact hfull)
        subst hacc
        refine ⟨[], b :: rest, rfl, ?_, e3, ?_, fun h => absurd h hc, fun _ => rfl,
          fun h => absurd h hd⟩
        · rw [e2, r2]
        · intro hfit
          simp only [List.length_cons] at hfit
          push_cast at hfit
          omega

/-- The part selection sequence, emitted whole when three more bytes fit with
one to spare. -/
theorem output_write_select_spec (uart : snd_uart_pl011) (number : Nat) (fe : Nat → Bool)
    (k b : Nat) (hcw : uart.buff_in_count + 3 < TX_BUFF_SIZE) :
    emitted (output_write_select uart number fe k b).1.trace
      = emitted uart.trace ++ select_sequence uart number b ∧
    (output_write_select uart number fe k b).1.prev_out = (number : Int) ∧
    (output_write_select uart number fe k b).1.buff_in_count ≤ uart.buff_in_count + 3 ∧
    (output_write_select uart number fe k b).1.drop_on_full = uart.drop_on_full ∧
    (output_write_select uart number fe k b).1.adaptor = uart.adaptor := by
  generalize hu0 : ({ uart with prev_out := (number : Int) } : snd_uart_pl011) = u0
  have z1 : u0.buff_in_count = uart.buff_in_count := by rw [← hu0]
  have z2 : u0.trace = uart.trace := by rw [← hu0]
  have z3 : u0.prev_out = (number : Int) := by rw [← hu0]
  have z4 : u0.prev_status = uart.prev_status := by rw [← hu0]
  have z5 : u0.adaptor = uart.adaptor := by rw [← hu0]
  have z6 : u0.drop_on_full = uart.drop_on_full := by rw [← hu0]
  obtain ⟨a1, a2, -⟩ := output_byte_emitted u0 (fe k) 0xf5 (by rw [z1]; omega)
  obtain ⟨f1, f2, f3, f4⟩ := output_byte_fields u0 (fe k) 0xf5
  generalize hu1 : (snd_uart_pl011_output_byte u0 (fe k) 0xf5).1 = u1 at a1 a2 f1 f2 f3 f4
  have hport : ((u1.prev_out + 1) % 256).toNat = (number + 1) % 256 := by
    rw [f1, z3]; omega
  obtain ⟨b1, b2, -⟩ := output_byte_emitted u1 (fe (k + 1)) ((number + 1) % 256)
    (by rw [z1] at a2; omega)
  obtain ⟨g1, g2, g3, g4⟩ := output_byte_fields u1 (fe (k + 1)) ((number + 1) % 256)
  generalize hu2 : (snd_uart_pl011_output_byte u1 (fe (k + 1)) ((number + 1) % 256)).1 = u2
    at b1 b2 g1 g2 g3 g4
  have hsel : output_write_select uart number fe k b
      = if b < 0x80 ∧ u2.adaptor = SNDRV_SERIAL_SOUNDCANVAS then
          ((snd_uart_pl011_output_byte
            { u2 with trace := u2.trace ++ [Event.statusCache u2.prev_out] } (fe (k + 2))
            (u2.prev_status u2.prev_out)).1, k + 3)
        else (u2, k + 2) := by
    simp only [output_write_select, hu0, hu1, hport, hu2]
  have had : u2.adaptor = uart.adaptor := by rw [g3, f3, z5]
  have hpo : u2.prev_out = (number : Int) := by rw [g1, f1, z3]
  have hps : u2.prev_status = uart.prev_status := by rw [g2, f2, z4]
  have hdf : u2.drop_on_full = uart.drop_on_full := by rw [g4, f4, z6]
  have hem : emitted u2.trace = emitted uart.trace ++ [0xf5, (number + 1) % 256] := by
    rw [b1, a1, z2]; simp
  have hcnt : u2.buff_in_count ≤ uart.buff_in_count + 2 := by rw [z1] at a2; omega
  rw [hsel]
  unfold select_sequence
  by_cases hst : b < 0x80 ∧ u2.adaptor = SNDRV_SERIAL_SOUNDCANVAS
  · rw [if_pos hst, if_pos (by rw [← had]; exact hst)]
    generalize hu3 : ({ u2 with trace := u2.trace ++ [Event.statusCache u2.prev_out] }
      : snd_uart_pl011) = u3
    have y1 : u3.buff_in_count = u2.buff_in_count := by rw [← hu3]
    have y2 : emitted u3.trace = emitted u2.trace := by
      rw [← hu3]; simp [emitted_append, emitted]
    obtain ⟨c1, c2, -⟩ := output_byte_emitted u3 (fe (k + 2)) (u2.prev_status u2.prev_out)
      (by rw [y1]; omega)
    obtain ⟨h1, h2, h3, h4⟩ := output_byte_fields u3 (fe (k + 2)) (u2.prev_status u2.prev_out)
    refine ⟨?_, ?_, ?_, ?_, ?_⟩
    · simp only; rw [c1, y2, hem, hps, hpo]; simp
    · simp only; rw [h1, ← hu3]; exact hpo
    · simp only; rw [y1] at c2; omega
    · simp only; rw [h4, ← hu3]; exact hdf
    · simp only; rw [h3, ← hu3]; exact had
  · rw [if_neg hst, if_neg (by rw [← had]; exact hst)]
    refine ⟨by simp only; rw [hem]; simp, hpo, by simp only; omega, hdf, had⟩

/-- What `snd_uart_pl011_buffer_can_write` tests. -/
theorem can_write_iff (uart : snd_uart_pl011) (Num : Int) :
    snd_uart_pl011_buffer_can_write uart Num = 1 ↔ uart.buff_in_count + Num < TX_BUFF_SIZE := by
  unfold snd_uart_pl011_buffer_can_write
  split_ifs with h <;> simp [h]

/-- After the `if (first == 0 && ...)` statement the iteration goes on as one
with `first` set. -/
theorem output_write_loop_of_select (number : Nat) (idle : Bool) (fe : Nat → Bool)
    (b : Nat) (rest : List Nat) (uart u1 : snd_uart_pl011) (first : Bool) (k k1 : Nat)
    (h : output_write_part_select uart number idle fe first k b = some (u1, k1)) :
    output_write_loop number idle fe (b :: rest) uart first k
      = output_write_loop number idle fe (b :: rest) u1 true k1 := by
  simp only [output_write_loop, h, output_write_part_select_true]

/-- C14: Soundcanvas or generic adaptor, a first pending byte `b`.  When the port
`p` differs from the last-used output port or the idle timeout has elapsed, and
`snd_uart_pl011_buffer_can_write(uart, 3)` holds (`uart`), the bytes emitted are
0xf5, `p + 1`, the cached status byte of port `p` if `b` is a data byte and the
adaptor is Soundcanvas, and then the pending bytes as far as the ring takes
them: at least `b`, and all of them when they fit; the last-used output port
becomes `p`.  When `p` is the last-used output port and the idle timeout has
not elapsed (`v`), only pending bytes are emitted, no select bytes. -/
theorem C14_select_emission (uart v : snd_uart_pl011) (p b : Nat) (rest : List Nat)
    (idle : Bool) (fe : Nat → Bool)
    (had : uart.adaptor = SNDRV_SERIAL_SOUNDCANVAS ∨ uart.adaptor = SNDRV_SERIAL_GENERIC)
    (hp : p < 16)
    (hsel : uart.prev_out ≠ (p : Int) ∨ idle = true)
    (hcw : snd_uart_pl011_buffer_can_write uart 3 = 1)
    (hadv : v.adaptor = SNDRV_SERIAL_SOUNDCANVAS ∨ v.adaptor = SNDRV_SERIAL_GENERIC)
    (hsame : v.prev_out = (p : Int)) :
    (∃ accepted tail : List Nat, b :: rest = accepted ++ tail ∧ accepted ≠ [] ∧
      emitted (snd_uart_pl011_output_write uart p (b :: rest) idle fe).1.trace
        = emitted uart.trace ++ [0xf5, p + 1] ++
          (if b < 0x80 ∧ uart.adaptor = SNDRV_SERIAL_SOUNDCANVAS
            then [uart.prev_status (p : Int)] else []) ++ accepted ∧
      (uart.buff_in_count + 3 + (b :: rest).length ≤ TX_BUFF_SIZE → tail = []) ∧
      (snd_uart_pl011_output_write uart p (b :: rest) idle fe).1.prev_out = (p : Int)) ∧
    (∃ accepted tail : List Nat, b :: rest = accepted ++ tail ∧
      emitted (snd_uart_pl011_output_write v p (b :: rest) false fe).1.trace
        = emitted v.trace ++ accepted ∧
      (v.buff_in_count + (b :: rest).length ≤ TX_BUFF_SIZE → tail = []) ∧
      (snd_uart_pl011_output_write v p (b :: rest) false fe).1.prev_out = (p : Int)) := by
  have hmb : ∀ u : snd_uart_pl011,
      (u.adaptor = SNDRV_SERIAL_SOUNDCANVAS ∨ u.adaptor = SNDRV_SERIAL_GENERIC) →
      u.adaptor ≠ SNDRV_SERIAL_MS124W_MB := by
    intro u h
    rcases h with h | h <;> rw [h] <;> decide
  constructor
  · have hroom := (can_write_iff uart 3).mp hcw
    have hw : snd_uart_pl011_output_write uart p (b :: rest) idle fe
        = output_write_loop p idle fe (b :: rest) uart false 0 := by
      simp only [snd_uart_pl011_output_write, if_neg (hmb uart had)]
    have hps : output_write_part_select uart p idle fe false 0 b
        = some (output_write_select uart p fe 0 b) := by
      unfold output_write_part_select
      rw [if_pos ⟨rfl, had, hsel⟩, if_pos hcw]
    obtain ⟨s1, s2, s3, -, -⟩ := output_write_select_spec uart p fe 0 b hroom
    rw [hw, output_write_loop_of_select p idle fe b rest uart
      (output_write_select uart p fe 0 b).1 false 0 (output_write_select uart p fe 0 b).2 hps]
    obtain ⟨acc, tl, e1, e2, e3, e4, e5, -, -⟩ :=
      output_write_loop_tail p idle fe (b :: rest)
        (output_write_select uart p fe 0 b).1 (output_write_select uart p fe 0 b).2
    have hbyte : (p + 1) % 256 = p + 1 := by omega
    refine ⟨acc, tl, e1, e5 (by omega) (List.cons_ne_nil _ _), ?_, ?_, by rw [e3, s2]⟩
    · rw [e2, s1]
      simp only [select_sequence, hbyte, List.append_assoc]
    · intro hfit
      apply e4
      omega
  · have hw : snd_uart_pl011_output_write v p (b :: rest) false fe
        = output_write_loop p false fe (b :: rest) v false 0 := by
      simp only [snd_uart_pl011_output_write, if_neg (hmb v hadv)]
    have hps : output_write_part_select v p false fe false 0 b = some (v, 0) := by
      unfold output_write_part_select
      rw [if_neg]
      rintro ⟨-, -, h | h⟩
      · exact h hsame
      · exact absurd h (by decide)
    rw [hw, output_write_loop_of_select p false fe b rest v v false 0 0 hps]
    obtain ⟨acc, tl, e1, e2, e3, e4, -, -, -⟩ :=
      output_write_loop_tail p false fe (b :: rest) v 0
    exact ⟨acc, tl, e1, e2, e4, by rw [e3, hsame]⟩

/-! ## In-flight count and status cache -/

/-- C18 (as stated, refuted): two bytes have been written and the in-flight count
is 2; the next byte is written to the data register while the hardware reports
the transmit FIFO empty, and the in-flight count becomes 1, not 3. -/
theorem C18_counterexample :
    two_written.fifo_count = 2 ∧ two_written.buff_in_count = 0 ∧
    dataWrites (snd_uart_pl011_output_byte two_written true 3).1.trace
      = dataWrites two_written.trace ++ [3] ∧
    (snd_uart_pl011_output_byte two_written true 3).1.fifo_count = 1 := by
  decide

/-- C18 (amended): the in-flight count being a `short int` below its maximum.
`snd_uart_pl011_output_byte` with the ring empty and the transmit FIFO reported
empty writes the byte to the data register and sets the count to 1; with the
ring empty, the FIFO not reported empty and the count below the limit it writes
the byte and raises the count by exactly 1; in every other case it writes
nothing to the data register (the byte goes to the ring or is rejected) and
leaves the count as it was.  `snd_uart_pl011_buffer_output` with bytes pending
writes the oldest one and raises the count by exactly 1, and with nothing
pending writes nothing and leaves the count as it was. -/
theorem C18_flow_accounting (uart : snd_uart_pl011) (txfe : Bool) (b : Nat)
    (hlo : -32768 ≤ uart.fifo_count) (hhi : uart.fifo_count < 32767) :
    (uart.buff_in_count = 0 → txfe = true →
      dataWrites (snd_uart_pl011_output_byte uart txfe b).1.trace = dataWrites uart.trace ++ [b] ∧
      (snd_uart_pl011_output_byte uart txfe b).1.fifo_count = 1) ∧
    (uart.buff_in_count = 0 → txfe = false → uart.fifo_count < uart.fifo_limit →
      dataWrites (snd_uart_pl011_output_byte uart txfe b).1.trace = dataWrites uart.trace ++ [b] ∧
      (snd_uart_pl011_output_byte uart txfe b).1.fifo_count = uart.fifo_count + 1) ∧
    (¬ (uart.buff_in_count = 0 ∧ (txfe = true ∨ uart.fifo_count < uart.fifo_limit)) →
      dataWrites (snd_uart_pl011_output_byte uart txfe b).1.trace = dataWrites uart.trace ∧
      (snd_uart_pl011_output_byte uart txfe b).1.fifo_count = uart.fifo_count) ∧
    (uart.buff_in_count > 0 →
      dataWrites (snd_uart_pl011_buffer_output uart).trace
        = dataWrites uart.trace ++ [uart.tx_buff (uart.buff_out % 65536).toNat] ∧
      (snd_uart_pl011_buffer_output uart).fifo_count = uart.fifo_count + 1) ∧
    (¬ uart.buff_in_count > 0 →
      dataWrites (snd_uart_pl011_buffer_output uart).trace = dataWrites uart.trace ∧
      (snd_uart_pl011_buffer_output uart).fifo_count = uart.fifo_count) := by
  have hs : toShort (uart.fifo_count + 1) = uart.fifo_count + 1 :=
    toShort_of_range _ (by omega) (by omega)
  refine ⟨?_, ?_, ?_, ?_, ?_⟩
  · intro h0 ht
    unfold snd_uart_pl011_output_byte
    rw [if_pos h0, if_pos ht]
    exact ⟨by simp [dataWrites_append, dataWrites], rfl⟩
  · intro h0 ht hlt
    unfold snd_uart_pl011_output_byte
    rw [if_pos h0, if_neg (by rw [ht]; decide), if_pos hlt]
    exact ⟨by simp [dataWrites_append, dataWrites], hs⟩
  · intro hn
    unfold snd_uart_pl011_output_byte snd_uart_pl011_write_buffer
    simp only
    split_ifs <;> simp_all [dataWrites_append, dataWrites]
  · intro hc
    unfold snd_uart_pl011_buffer_output
    simp only
    rw [if_pos hc]
    exact ⟨by simp [dataWrites_append, dataWrites], hs⟩
  · intro hc
    unfold snd_uart_pl011_buffer_output
    simp only
    rw [if_neg hc]
    exact ⟨rfl, rfl⟩

/-- The running status statement stores a channel-voice status byte at index
`prev_out` of the cache and nowhere else, and stores nothing for any other
byte; the entry of port `p` is the one written only when `prev_out` is `p`. -/
theorem output_write_status_cache (uart : snd_uart_pl011) (b : Nat) :
    (0x80 ≤ b ∧ b < 0xf0 →
      (output_write_status uart b).prev_status uart.prev_out = b ∧
      ∀ i : Int, i ≠ uart.prev_out →
        (output_write_status uart b).prev_status i = uart.prev_status i) ∧
    (¬ (0x80 ≤ b ∧ b < 0xf0) → (output_write_status uart b).prev_status = uart.prev_status) := by
  unfold output_write_status
  constructor
  · intro h
    rw [if_pos h]
    exact ⟨Function.update_same _ _ _, fun i hi => Function.update_noteq hi _ _⟩
  · intro h
    rw [if_neg h]

/-- C19 (what the code does at the failing input): a new MS-124T session opens
output port 0, which leaves `prev_out` at -1, and transmits the status byte
0x90 on that port; afterwards the cache entry of port 0 still holds 0x80, not
0x90. -/
theorem C19_cache_wrong_entry :
    ms124t_note_on.adaptor = SNDRV_SERIAL_MS124T ∧
    (run_session (snd_uart_pl011_create 38400 SNDRV_SERIAL_MS124T false 48000000)
      [SessionOp.openPort ⟨Direction.output, 0⟩]).prev_out = -1 ∧
    dataWrites ms124t_note_on.trace = [0x90] ∧
    ms124t_note_on.prev_status 0 = 0x80 := by
  decide

/-- C20 (what the code does at the failing input): on a new MS-124T session,
opened and triggered with the status byte 0x90 pending,
`snd_uart_pl011_output_write` accesses `prev_status` once, at index -1, which is
outside `0..SNDRV_SERIAL_MAX_OUTS-1`. -/
theorem C20_cache_index_out_of_bounds :
    cacheIndices ms124t_note_on.trace = [-1] ∧
    ¬ ((0 : Int) ≤ -1 ∧ (-1 : Int) < SNDRV_SERIAL_MAX_OUTS) := by
  decide

/-- C15 (as stated, refuted): generic adaptor, remembered status 0xf5, input port
0 selected and open; the next byte 0x90 is neither 0xf5 nor in 1..16, yet it is
delivered to port 0 and the remembered status becomes 0x90. -/
theorem C15_counterexample :
    switch_started.adaptor = SNDRV_SERIAL_GENERIC ∧ switch_started.rstatus = 0xf5 ∧
    receives (snd_uart_pl011_io_loop switch_started (rx_words [0x90]) false false).1.trace
      = receives switch_started.trace ++ [(0, 0x90)] ∧
    (snd_uart_pl011_io_loop switch_started (rx_words [0x90]) false false).1.rstatus = 0x90 := by
  decide

/-! ## Examples of the theorems above -/

/-- C12, at a new session (closed) and at a session with four inputs open. -/
theorem C12_spurious_interrupt_witness :
    (snd_uart_pl011_interrupt (fresh SNDRV_SERIAL_GENERIC false) (rx_words [0x90])
      true true).2 = irqreturn.IRQ_NONE ∧
    (snd_uart_pl011_interrupt (fresh SNDRV_SERIAL_GENERIC false) (rx_words [0x90])
      true true).1.2 = rx_words [0x90] ∧
    (snd_uart_pl011_interrupt (fresh SNDRV_SERIAL_GENERIC false) (rx_words [0x90])
      true true).1.1 = fresh SNDRV_SERIAL_GENERIC false ∧
    (snd_uart_pl011_interrupt four_inputs (rx_words [0x90]) true true).2
      = irqreturn.IRQ_HANDLED ∧
    (snd_uart_pl011_interrupt four_inputs (rx_words [0x90]) true true).1
      = snd_uart_pl011_io_loop four_inputs (rx_words [0x90]) true true :=
  C12_spurious_interrupt (fresh SNDRV_SERIAL_GENERIC false) four_inputs (rx_words [0x90])
    true true (by decide) (by decide)

/-- C13, at 38400 baud from a 48 MHz clock: the divisor is 5000, written as
integer part 78 and fractional part 8. -/
theorem C13_baud_divisor_witness :
    (∃ fbrd ibrd : Nat,
      (snd_uart_pl011_do_open (fresh SNDRV_SERIAL_GENERIC false)).trace
        = (fresh SNDRV_SERIAL_GENERIC false).trace ++
          [Event.lineInit, Event.divisor fbrd ibrd] ∧
      fbrd < 64 ∧
      2 * |((64 * ibrd + fbrd : Nat) : Int) * ((fresh SNDRV_SERIAL_GENERIC false).speed : Int)
          - ((if (fresh SNDRV_SERIAL_GENERIC false).speed
                > (fresh SNDRV_SERIAL_GENERIC false).clk / 16 then 8 else 4 : Nat) : Int)
            * ((fresh SNDRV_SERIAL_GENERIC false).clk : Int)|
        ≤ ((fresh SNDRV_SERIAL_GENERIC false).speed : Int)) ∧
    (snd_uart_pl011_do_open (fresh SNDRV_SERIAL_GENERIC false)).trace
      = [Event.lineInit, Event.divisor 8 78] :=
  ⟨C13_baud_divisor (fresh SNDRV_SERIAL_GENERIC false) (by decide) (by decide), by decide⟩

/-- C14, at a Soundcanvas session: the data bytes 0x3c 0x64 for port 2 are sent
as 0xf5 0x03 0x80 0x3c 0x64 when port 2 was not the last-used port, and as they
are when it was. -/
theorem C14_select_emission_witness :
    ((∃ accepted tail : List Nat, [0x3c, 0x64] = accepted ++ tail ∧ accepted ≠ [] ∧
      emitted (snd_uart_pl011_output_write soundcanvas_session 2 [0x3c, 0x64] false
          (fun _ => false)).1.trace
        = emitted soundcanvas_session.trace ++ [0xf5, 2 + 1] ++
          (if 0x3c < 0x80 ∧ soundcanvas_session.adaptor = SNDRV_SERIAL_SOUNDCANVAS
            then [soundcanvas_session.prev_status ((2 : Nat) : Int)] else []) ++ accepted ∧
      (soundcanvas_session.buff_in_count + 3 + ([0x3c, 0x64] : List Nat).length
          ≤ TX_BUFF_SIZE → tail = []) ∧
      (snd_uart_pl011_output_write soundcanvas_session 2 [0x3c, 0x64] false
          (fun _ => false)).1.prev_out = ((2 : Nat) : Int)) ∧
    (∃ accepted tail : List Nat, [0x3c, 0x64] = accepted ++ tail ∧
      emitted (snd_uart_pl011_output_write soundcanvas_selected 2 [0x3c, 0x64] false
          (fun _ => false)).1.trace = emitted soundcanvas_selected.trace ++ accepted ∧
      (soundcanvas_selected.buff_in_count + ([0x3c, 0x64] : List Nat).length
          ≤ TX_BUFF_SIZE → tail = []) ∧
      (snd_uart_pl011_output_write soundcanvas_selected 2 [0x3c, 0x64] false
          (fun _ => false)).1.prev_out = ((2 : Nat) : Int))) ∧
    emitted (snd_uart_pl011_output_write soundcanvas_session 2 [0x3c, 0x64] false
      (fun _ => false)).1.trace = [0xf5, 0x03, 0x80, 0x3c, 0x64] ∧
    emitted (snd_uart_pl011_output_write soundcanvas_selected 2 [0x3c, 0x64] false
      (fun _ => false)).1.trace = emitted soundcanvas_selected.trace ++ [0x3c, 0x64] :=
  ⟨C14_select_emission soundcanvas_session soundcanvas_selected 2 0x3c [0x64] false
    (fun _ => false) (by decide) (by decide) (by decide) (by decide) (by decide) (by decide),
    by decide, by decide⟩

/-- C15 (amended), after 0xf5 was received: the data byte 0x40 is dropped and the
status byte 0x90 is delivered to the selected port 0. -/
theorem C15_out_of_range_select_witness :
    ((rx_byte (switch_started, 0) ⟨0x40, false⟩).2 = 0 ∧
      receives (rx_byte (switch_started, 0) ⟨0x40, false⟩).1.trace
        = receives switch_started.trace ∧
      (rx_byte (switch_started, 0) ⟨0x40, false⟩).1.rstatus = 0) ∧
    ((rx_byte (switch_started, 0) ⟨0x90, false⟩).2 = 0 ∧
      (rx_byte (switch_started, 0) ⟨0x90, false⟩).1.rstatus
        = (⟨0x90, false⟩ : RxWord).data % 256 ∧
      receives (rx_byte (switch_started, 0) ⟨0x90, false⟩).1.trace
        = receives switch_started.trace ++
          (if switch_started.filemode &&& SERIAL_MODE_INPUT_OPEN ≠ 0 ∧
              switch_started.midi_input 0 = true
            then [(0, (⟨0x90, false⟩ : RxWord).data % 256)] else [])) :=
  C15_out_of_range_select switch_started 0 ⟨0x40, false⟩ ⟨0x90, false⟩ (by decide) (by decide)
    (by decide) (by decide) (by decide) (by decide)

/-- C16, at a Soundcanvas session with its input open: the bytes 0xf5 0x02 0x90
are all delivered to input port 0. -/
theorem C16_no_select_parsing_witness :
    ((io_loop_repeat 1 soundcanvas_input (rx_words [0xf5, 0x02, 0x90])
        (fun _ => (false, false))).2 = [] ∧
      (io_loop_repeat 1 soundcanvas_input (rx_words [0xf5, 0x02, 0x90])
        (fun _ => (false, false))).1.prev_in = soundcanvas_input.prev_in ∧
      receives (io_loop_repeat 1 soundcanvas_input (rx_words [0xf5, 0x02, 0x90])
        (fun _ => (false, false))).1.trace = receives soundcanvas_input.trace ++
        (if soundcanvas_input.filemode &&& SERIAL_MODE_INPUT_OPEN ≠ 0 ∧
            soundcanvas_input.midi_input soundcanvas_input.prev_in = true
          then (rx_words [0xf5, 0x02, 0x90]).map
            (fun w => (soundcanvas_input.prev_in, w.data % 256)) else [])) ∧
    receives (io_loop_repeat 1 soundcanvas_input (rx_words [0xf5, 0x02, 0x90])
      (fun _ => (false, false))).1.trace = [(0, 0xf5), (0, 0x02), (0, 0x90)] :=
  ⟨C16_no_select_parsing soundcanvas_input (rx_words [0xf5, 0x02, 0x90]) 1
    (fun _ => (false, false)) (by decide) (by decide), by decide⟩

/-- C17, at a session with two bytes pending and the transmit interrupt reported:
both pending bytes are written and the in-flight count is 4. -/
theorem C17_transmit_drain_witness :
    (∃ written : List Nat,
      (written.length : Int) = min two_pending.buff_in_count
        (max 0 (two_pending.fifo_limit
          - (if false then 0 else if true then 2 else two_pending.fifo_count))) ∧
      pending two_pending = written ++ pending (snd_uart_pl011_io_loop two_pending [] true false).1 ∧
      dataWrites (snd_uart_pl011_io_loop two_pending [] true false).1.trace
        = dataWrites two_pending.trace ++ written ∧
      (snd_uart_pl011_io_loop two_pending [] true false).1.buff_in_count
        = two_pending.buff_in_count - written.length ∧
      (snd_uart_pl011_io_loop two_pending [] true false).1.fifo_count
        = (if false then 0 else if true then 2 else two_pending.fifo_count) + written.length ∧
      ((snd_uart_pl011_io_loop two_pending [] true false).1.buff_in_count = 0 ∨
        (snd_uart_pl011_io_loop two_pending [] true false).1.fifo_limit
          ≤ (snd_uart_pl011_io_loop two_pending [] true false).1.fifo_count)) ∧
    (snd_uart_pl011_io_loop two_pending [] true false).1.fifo_count = 4 ∧
    pending two_pending = [12, 0xf7] :=
  ⟨C17_transmit_drain two_pending [] true false (by unfold RingInv; decide) (by decide)
    (by decide), by decide, by decide⟩

/-- C18 (amended), at the session with two bytes written: a third byte written
with the transmit FIFO reported empty sets the in-flight count to 1, and
written with the FIFO not reported empty raises it from 2 to 3. -/
theorem C18_flow_accounting_witness :
    ((two_written.buff_in_count = 0 → true = true →
      dataWrites (snd_uart_pl011_output_byte two_written true 3).1.trace
        = dataWrites two_written.trace ++ [3] ∧
      (snd_uart_pl011_output_byte two_written true 3).1.fifo_count = 1) ∧
    (two_written.buff_in_count = 0 → true = false →
      two_written.fifo_count < two_written.fifo_limit →
      dataWrites (snd_uart_pl011_output_byte two_written true 3).1.trace
        = dataWrites two_written.trace ++ [3] ∧
      (snd_uart_pl011_output_byte two_written true 3).1.fifo_count
        = two_written.fifo_count + 1) ∧
    (¬ (two_written.buff_in_count = 0 ∧
        (true = true ∨ two_written.fifo_count < two_written.fifo_limit)) →
      dataWrites (snd_uart_pl011_output_byte two_written true 3).1.trace
        = dataWrites two_written.trace ∧
      (snd_uart_pl011_output_byte two_written true 3).1.fifo_count = two_written.fifo_count) ∧
    (two_written.buff_in_count > 0 →
      dataWrites (snd_uart_pl011_buffer_output two_written).trace
        = dataWrites two_written.trace
          ++ [two_written.tx_buff (two_written.buff_out % 65536).toNat] ∧
      (snd_uart_pl011_buffer_output two_written).fifo_count = two_written.fifo_count + 1) ∧
    (¬ two_written.buff_in_count > 0 →
      dataWrites (snd_uart_pl011_buffer_output two_written).trace
        = dataWrites two_written.trace ∧
      (snd_uart_pl011_buffer_output two_written).fifo_count = two_written.fifo_count)) ∧
    two_written.fifo_count = 2 ∧
    (snd_uart_pl011_output_byte two_written true 3).1.fifo_count = 1 ∧
    (snd_uart_pl011_output_byte two_written false 3).1.fifo_count = 3 :=
  ⟨C18_flow_accounting two_written true 3 (by decide) (by decide), by decide, by decide,
    by decide⟩

/-! ## Properties kept by the output path -/

/-- A property kept by `snd_uart_pl011_output_byte`, by the running status
statement and by changes of `prev_out` and of the access record of the status
cache is kept by `snd_uart_pl011_output_write`. -/
theorem output_write_preserves (P : snd_uart_pl011 → Prop)
    (hbyte : ∀ (u : snd_uart_pl011) (t : Bool) (b : Nat), P u →
      P (snd_uart_pl011_output_byte u t b).1)
    (hstatus : ∀ (u : snd_uart_pl011) (b : Nat), P u → P (output_write_status u b))
    (hprev : ∀ (u : snd_uart_pl011) (n : Int), P u → P { u with prev_out := n })
    (hcache : ∀ (u : snd_uart_pl011) (i : Int), P u →
      P { u with trace := u.trace ++ [Event.statusCache i] })
    (uart : snd_uart_pl011) (number : Nat) (stream : List Nat) (idle : Bool) (fe : Nat → Bool)
    (h : P uart) : P (snd_uart_pl011_output_write uart number stream idle fe).1 := by
  have hmb : ∀ (stream : List Nat) (u : snd_uart_pl011) (k : Nat), P u →
      P (output_write_mb number fe stream u k).1 := by
    intro stream
    induction stream with
    | nil => intro u k hu; exact hu
    | cons b rest ih =>
      intro u k hu
      unfold output_write_mb
      split_ifs
      · exact hu
      · exact ih _ _ (hbyte _ _ _ (hbyte _ _ _ hu))
  have hsel : ∀ (u : snd_uart_pl011) (k b : Nat), P u →
      P (output_write_select u number fe k b).1 := by
    intro u k b hu
    have h1 := hprev u (number : Int) hu
    have h2 := hbyte _ (fe k) 0xf5 h1
    have h3 := hbyte _ (fe (k + 1))
      (((snd_uart_pl011_output_byte { u with prev_out := (number : Int) } (fe k) 0xf5).1.prev_out
        + 1) % 256).toNat h2
    unfold output_write_select
    simp only
    split_ifs
    · exact hbyte _ _ _ (hcache _ _ h3)
    · exact h3
  have hpart : ∀ (u : snd_uart_pl011) (first : Bool) (k b : Nat) (r : snd_uart_pl011 × Nat),
      P u → output_write_part_select u number idle fe first k b = some r → P r.1 := by
    intro u first k b r hu hr
    unfold output_write_part_select at hr
    split_ifs at hr
    · cases hr; exact hsel u k b hu
    · cases hr; exact hu
    · cases hr; exact hu
  have hloop : ∀ (stream : List Nat) (u : snd_uart_pl011) (first : Bool) (k : Nat), P u →
      P (output_write_loop number idle fe stream u first k).1 := by
    intro stream
    induction stream with
    | nil => intro u first k hu; exact hu
    | cons b rest ih =>
      intro u first k hu
      unfold output_write_loop
      cases hs : output_write_part_select u number idle fe first k b with
      | none => exact hu
      | some r =>
        obtain ⟨u1, k1⟩ := r
        have h1 : P u1 := hpart u first k b _ hu hs
        have h2 := hbyte u1 (fe k1) b h1
        simp only
        split_ifs
        · exact h2
        · exact ih _ _ _ (hstatus _ _ h2)
  unfold snd_uart_pl011_output_write
  split_ifs
  · exact hmb stream uart 0 h
  · exact hloop stream uart false 0 h

/-! ## The in-flight estimate -/

theorem flowInv_output_byte (u : snd_uart_pl011) (t : Bool) (b : Nat) (h : FlowInv u) :
    FlowInv (snd_uart_pl011_output_byte u t b).1 := by
  obtain ⟨h1, h2, h3⟩ := h
  unfold FlowInv
  unfold snd_uart_pl011_output_byte snd_uart_pl011_write_buffer
  simp only
  split_ifs with c1 c2 c3 <;> simp only [h1, true_and]
  · decide
  · rw [toShort_of_range _ (by omega) (by omega)]; omega
  all_goals exact ⟨h2, h3⟩

theorem flowInv_write_loop (n : Nat) :
    ∀ u : snd_uart_pl011, FlowInv u → FlowInv (write_loop n u) := by
  induction n with
  | zero => intro u h; exact h
  | succ m ih =>
    intro u h
    unfold write_loop
    split_ifs with hc
    · apply ih
      obtain ⟨h1, h2, h3⟩ := h
      unfold snd_uart_pl011_buffer_output FlowInv
      rw [if_pos hc.2]
      simp only [h1, true_and]
      rw [toShort_of_range _ (by omega) (by omega)]
      omega
    · exact h

theorem flowInv_io_loop (uart : snd_uart_pl011) (rx : List RxWord) (txis txfe : Bool)
    (h : FlowInv uart) : FlowInv (snd_uart_pl011_io_loop uart rx txis txfe).1 := by
  have hr := read_loop_eq rx (uart, uart.prev_in) 256
  have hf := fifo_foldl_rx_byte (rx.take 257) (uart, uart.prev_in)
  simp only [snd_uart_pl011_io_loop, AMBA_ISR_PASS_LIMIT]
  rw [show (256 : Int) = ((256 : Nat) : Int) from rfl, hr]
  simp only
  generalize (List.foldl rx_byte (uart, uart.prev_in) (List.take 257 rx)) = st at hf
  obtain ⟨f1, f2⟩ := hf
  obtain ⟨h1, h2, h3⟩ := h
  simp only at f1 f2
  apply flowInv_write_loop
  unfold FlowInv
  cases txis <;> cases txfe <;> simp [f1, f2, h1, h2, h3]

theorem flowInv_output_write (uart : snd_uart_pl011) (number : Nat) (stream : List Nat)
    (idle : Bool) (fe : Nat → Bool) (h : FlowInv uart) :
    FlowInv (snd_uart_pl011_output_write uart number stream idle fe).1 := by
  apply output_write_preserves FlowInv flowInv_output_byte _ _ _ uart number stream idle fe h
  · intro u b hu
    unfold output_write_status
    split_ifs
    · exact hu
    · exact hu
  · intro u n hu; exact hu
  · intro u i hu; exact hu

theorem flowInv_run_flow (ops : List FlowOp) :
    ∀ u : snd_uart_pl011, FlowInv u → FlowInv (run_flow u ops) := by
  induction ops with
  | nil => intro u h; exact h
  | cons op rest ih =>
    intro u h
    apply ih
    cases op with
    | serviceLoop rx txis txfe => exact flowInv_io_loop u rx txis txfe h
    | outputWrite number stream idle fe => exact flowInv_output_write u number stream idle fe h

/-- C24: in every state reached from line initialisation by invocations of the
service loop and output writes that kept every access to `prev_status` inside
the array, whatever the flag readings, the received words and the bytes
written, the in-flight estimate `fifo_count` is at least 0 and at most
`fifo_limit`, which stays 16. -/
theorem C24_in_flight_within_limit (uart : snd_uart_pl011) (ops : List FlowOp)
    (_hin : CacheInBounds (run_flow (snd_uart_pl011_do_open uart) ops).trace) :
    0 ≤ (run_flow (snd_uart_pl011_do_open uart) ops).fifo_count ∧
    (run_flow (snd_uart_pl011_do_open uart) ops).fifo_count
      ≤ (run_flow (snd_uart_pl011_do_open uart) ops).fifo_limit ∧
    (run_flow (snd_uart_pl011_do_open uart) ops).fifo_limit = 16 := by
  have h0 : FlowInv (snd_uart_pl011_do_open uart) := by
    simp [FlowInv, snd_uart_pl011_do_open]
  obtain ⟨h1, h2, h3⟩ := flowInv_run_flow ops _ h0
  exact ⟨h2, by rw [h1]; exact h3, h1⟩

/-- C24, at a generic session: after line initialisation a note-on message is
written to output port 1 and the service loop runs on a transmit interrupt;
the status byte is stored at index 1 of the cache and the in-flight estimate
ends at 2. -/
theorem C24_in_flight_within_limit_witness :
    (0 ≤ (run_flow (snd_uart_pl011_do_open generic_output) flow_ops).fifo_count ∧
      (run_flow (snd_uart_pl011_do_open generic_output) flow_ops).fifo_count
        ≤ (run_flow (snd_uart_pl011_do_open generic_output) flow_ops).fifo_limit ∧
      (run_flow (snd_uart_pl011_do_open generic_output) flow_ops).fifo_limit = 16) ∧
    cacheIndices (run_flow (snd_uart_pl011_do_open generic_output) flow_ops).trace = [1] ∧
    (run_flow (snd_uart_pl011_do_open generic_output) flow_ops).fifo_count = 2 :=
  ⟨C24_in_flight_within_limit generic_output flow_ops (by unfold CacheInBounds; decide),
    by decide, by decide⟩

/-! ## The selected input port -/

theorem receives_bound_append (t : List Event) (e : Event)
    (h : ∀ x ∈ receives t, x.1 < SNDRV_SERIAL_MAX_INS)
    (he : ∀ x ∈ receives [e], x.1 < SNDRV_SERIAL_MAX_INS) :
    ∀ x ∈ receives (t ++ [e]), x.1 < SNDRV_SERIAL_MAX_INS := by
  intro x hx
  rw [receives_append, List.mem_append] at hx
  rcases hx with hx | hx
  · exact h x hx
  · exact he x hx

theorem rx_byte_bound (st : snd_uart_pl011 × Nat) (w : RxWord)
    (h1 : st.2 < SNDRV_SERIAL_MAX_INS)
    (h2 : ∀ e ∈ receives st.1.trace, e.1 < SNDRV_SERIAL_MAX_INS) :
    (rx_byte st w).2 < SNDRV_SERIAL_MAX_INS ∧
    ∀ e ∈ receives (rx_byte st w).1.trace, e.1 < SNDRV_SERIAL_MAX_INS := by
  have hsub : ∀ c : Nat, c ≤ SNDRV_SERIAL_MAX_INS ∧ c > 0 → c - 1 < SNDRV_SERIAL_MAX_INS := by
    intro c hc; omega
  have hrecv : ∀ (t : List Event) (c : Nat),
      (∀ x ∈ receives t, x.1 < SNDRV_SERIAL_MAX_INS) →
      ∀ x ∈ receives (t ++ [Event.receive st.2 c]), x.1 < SNDRV_SERIAL_MAX_INS := by
    intro t c ht
    apply receives_bound_append t _ ht
    intro x hx
    simp only [receives, List.mem_singleton] at hx
    rw [hx]; exact h1
  have hover : ∀ (t : List Event),
      (∀ x ∈ receives t, x.1 < SNDRV_SERIAL_MAX_INS) →
      ∀ x ∈ receives (t ++ [Event.rxOverrun]), x.1 < SNDRV_SERIAL_MAX_INS := by
    intro t ht
    apply receives_bound_append t _ ht
    intro x hx
    simp [receives] at hx
  unfold rx_byte
  simp only
  split_ifs <;>
    first
    | exact ⟨h1, h2⟩
    | exact ⟨hsub _ (by assumption), h2⟩
    | exact ⟨h1, hrecv _ _ h2⟩
    | exact ⟨h1, hover _ h2⟩
    | exact ⟨hsub _ (by assumption), hover _ h2⟩
    | exact ⟨h1, hover _ (hrecv _ _ h2)⟩

theorem foldl_rx_byte_bound (rx : List RxWord) :
    ∀ st : snd_uart_pl011 × Nat, st.2 < SNDRV_SERIAL_MAX_INS →
      (∀ e ∈ receives st.1.trace, e.1 < SNDRV_SERIAL_MAX_INS) →
      (rx.foldl rx_byte st).2 < SNDRV_SERIAL_MAX_INS ∧
      ∀ e ∈ receives (rx.foldl rx_byte st).1.trace, e.1 < SNDRV_SERIAL_MAX_INS := by
  induction rx with
  | nil => intro st h1 h2; exact ⟨h1, h2⟩
  | cons w rest ih =>
    intro st h1 h2
    obtain ⟨a, b⟩ := rx_byte_bound st w h1 h2
    exact ih _ a b

theorem demuxBound_io_loop (uart : snd_uart_pl011) (rx : List RxWord) (txis txfe : Bool)
    (h : DemuxBound uart) : DemuxBound (snd_uart_pl011_io_loop uart rx txis txfe).1 := by
  obtain ⟨-, -, -, -, a5, a6⟩ := io_loop_demux uart rx txis txfe
  obtain ⟨b1, b2⟩ := foldl_rx_byte_bound (rx.take 257) (uart, uart.prev_in) h.1 h.2
  unfold DemuxBound
  rw [a5, a6]
  exact ⟨b1, b2⟩

theorem demuxBound_output_write (uart : snd_uart_pl011) (number : Nat) (stream : List Nat)
    (idle : Bool) (fe : Nat → Bool) (h : DemuxBound uart) :
    DemuxBound (snd_uart_pl011_output_write uart number stream idle fe).1 := by
  apply output_write_preserves DemuxBound _ _ _ _ uart number stream idle fe h
  · intro u t b hu
    obtain ⟨h1, h2⟩ := hu
    have hd : ∀ (tr : List Event) (e : Event), receives [e] = [] →
        (∀ x ∈ receives tr, x.1 < SNDRV_SERIAL_MAX_INS) →
        ∀ x ∈ receives (tr ++ [e]), x.1 < SNDRV_SERIAL_MAX_INS := by
      intro tr e he ht
      apply receives_bound_append tr e ht
      rw [he]; intro x hx; cases hx
    unfold DemuxBound snd_uart_pl011_output_byte snd_uart_pl011_write_buffer
    simp only
    split_ifs <;>
      first
      | exact ⟨h1, h2⟩
      | exact ⟨h1, hd _ _ rfl h2⟩
      | exact ⟨h1, hd _ _ rfl (hd _ _ rfl h2)⟩
  · intro u b hu
    unfold output_write_status
    split_ifs
    · refine ⟨hu.1, receives_bound_append _ _ hu.2 ?_⟩
      intro x hx; cases hx
    · exact hu
  · intro u n hu; exact hu
  · intro u i hu
    refine ⟨hu.1, receives_bound_append _ _ hu.2 ?_⟩
    intro x hx; cases hx

theorem demuxBound_do_open (uart : snd_uart_pl011) (h : DemuxBound uart) :
    DemuxBound (snd_uart_pl011_do_open uart) := by
  obtain ⟨h1, h2⟩ := h
  unfold DemuxBound snd_uart_pl011_do_open
  simp only [receives_append, receives, List.append_nil]
  exact ⟨h1, h2⟩

theorem demuxBound_session_step (uart : snd_uart_pl011) (op : SessionOp)
    (h : DemuxBound uart) : DemuxBound (session_step uart op) := by
  cases op with
  | openPort p =>
    obtain ⟨d, n⟩ := p
    have ho := demuxBound_do_open uart h
    cases d <;>
      simp only [session_step, open_port, snd_uart_pl011_input_open,
        snd_uart_pl011_output_open] <;>
      split_ifs <;> first | exact ho | exact h
  | closePort p =>
    obtain ⟨d, n⟩ := p
    have hc : ∀ u : snd_uart_pl011, DemuxBound u →
        DemuxBound { u with trace := u.trace ++ [Event.lineTeardown] } := by
      intro u hu
      refine ⟨hu.1, receives_bound_append _ _ hu.2 ?_⟩
      intro x hx; cases hx
    cases d <;>
      simp only [session_step, close_port, snd_uart_pl011_input_close,
        snd_uart_pl011_output_close, snd_uart_pl011_do_close] <;>
      split_ifs <;> first | exact h | exact hc _ h
  | inputTrigger up =>
    simp only [session_step, snd_uart_pl011_input_trigger]
    split_ifs <;> exact h
  | outputTrigger number up stream idle fe =>
    simp only [session_step, snd_uart_pl011_output_trigger]
    cases up
    · exact h
    · exact demuxBound_output_write _ number stream idle fe h
  | interrupt rx txis txfe =>
    simp only [session_step, snd_uart_pl011_interrupt]
    split_ifs
    · exact h
    · exact demuxBound_io_loop uart rx txis txfe h

theorem demuxBound_run_session (ops : List SessionOp) :
    ∀ u : snd_uart_pl011, DemuxBound u → DemuxBound (run_session u ops) := by
  induction ops with
  | nil => intro u h; exact h
  | cons op rest ih => intro u h; exact ih _ (demuxBound_session_step u op h)

/-- C21: in every state reached from `snd_uart_pl011_create` by open, close,
trigger, write and interrupt operations that kept every access to
`prev_status` inside the array, for every adaptor and whatever bytes were
received, `prev_in` is below `SNDRV_SERIAL_MAX_INS`, every byte delivered so far
went to a port below `SNDRV_SERIAL_MAX_INS`, and the port selected while the
read loop handles any further words stays below `SNDRV_SERIAL_MAX_INS`. -/
theorem C21_selected_input_in_bounds (speed adaptor : Nat) (droponfull : Bool) (clk : Nat)
    (ops : List SessionOp) (rx : List RxWord)
    (_hin : CacheInBounds
      (run_session (snd_uart_pl011_create speed adaptor droponfull clk) ops).trace) :
    (run_session (snd_uart_pl011_create speed adaptor droponfull clk) ops).prev_in
      < SNDRV_SERIAL_MAX_INS ∧
    (∀ e ∈ receives (run_session (snd_uart_pl011_create speed adaptor droponfull clk) ops).trace,
      e.1 < SNDRV_SERIAL_MAX_INS) ∧
    (rx.foldl rx_byte
      (run_session (snd_uart_pl011_create speed adaptor droponfull clk) ops,
       (run_session (snd_uart_pl011_create speed adaptor droponfull clk) ops).prev_in)).2
      < SNDRV_SERIAL_MAX_INS := by
  have h0 : DemuxBound (snd_uart_pl011_create speed adaptor droponfull clk) := by
    refine ⟨by simp [snd_uart_pl011_create, SNDRV_SERIAL_MAX_INS], ?_⟩
    intro e he
    simp [snd_uart_pl011_create, receives] at he
  obtain ⟨h1, h2⟩ := demuxBound_run_session ops _ h0
  exact ⟨h1, h2, (foldl_rx_byte_bound rx _ h1 h2).1⟩

/-- C21, at a generic session that opens input port 1 and output port 1, writes
a note-on message to output port 1 and reads the select sequence for input
port 1 with a note-on message: the selected input port ends at 1, the three
bytes went to input port 1, and a further select byte 0x10 moves the
selection to port 15. -/
theorem C21_selected_input_in_bounds_witness :
    ((run_session (snd_uart_pl011_create 38400 SNDRV_SERIAL_GENERIC false 48000000)
        demux_ops).prev_in < SNDRV_SERIAL_MAX_INS ∧
      (∀ e ∈ receives (run_session
          (snd_uart_pl011_create 38400 SNDRV_SERIAL_GENERIC false 48000000) demux_ops).trace,
        e.1 < SNDRV_SERIAL_MAX_INS) ∧
      ((rx_words [0xf5, 0x10]).foldl rx_byte
        (run_session (snd_uart_pl011_create 38400 SNDRV_SERIAL_GENERIC false 48000000) demux_ops,
         (run_session (snd_uart_pl011_create 38400 SNDRV_SERIAL_GENERIC false 48000000)
           demux_ops).prev_in)).2 < SNDRV_SERIAL_MAX_INS) ∧
    cacheIndices (run_session (snd_uart_pl011_create 38400 SNDRV_SERIAL_GENERIC false 48000000)
      demux_ops).trace = [1] ∧
    (run_session (snd_uart_pl011_create 38400 SNDRV_SERIAL_GENERIC false 48000000)
      demux_ops).prev_in = 1 ∧
    receives (run_session (snd_uart_pl011_create 38400 SNDRV_SERIAL_GENERIC false 48000000)
      demux_ops).trace = [(1, 0x90), (1, 0x3c), (1, 0x64)] ∧
    ((rx_words [0xf5, 0x10]).foldl rx_byte
      (run_session (snd_uart_pl011_create 38400 SNDRV_SERIAL_GENERIC false 48000000) demux_ops,
       (run_session (snd_uart_pl011_create 38400 SNDRV_SERIAL_GENERIC false 48000000)
         demux_ops).prev_in)).2 = 15 :=
  ⟨C21_selected_input_in_bounds 38400 SNDRV_SERIAL_GENERIC false 48000000 demux_ops
    (rx_words [0xf5, 0x10]) (by unfold CacheInBounds; decide), by decide, by decide, by decide,
    by decide⟩

/-! ## Framing on output, demultiplexing on input -/

/-- With nothing to read, invocations of the service loop deliver nothing. -/
theorem io_loop_repeat_nil (n : Nat) :
    ∀ (uart : snd_uart_pl011) (tx : Nat → Bool × Bool),
      (io_loop_repeat n uart [] tx).2 = [] ∧
      receives (io_loop_repeat n uart [] tx).1.trace = receives uart.trace := by
  induction n with
  | zero => intro uart tx; exact ⟨rfl, rfl⟩
  | succ m ih =>
    intro uart tx
    have hsame := io_loop_demux uart [] (tx 0).1 (tx 0).2
    have hun := io_loop_unread uart [] (tx 0).1 (tx 0).2
    simp only [List.take_nil, List.foldl_nil, List.drop_nil] at hsame hun
    simp only [io_loop_repeat]
    rw [hun]
    obtain ⟨g1, g2⟩ := ih (snd_uart_pl011_io_loop uart [] (tx 0).1 (tx 0).2).1
      (fun i => tx (i + 1))
    exact ⟨g1, g2.trans hsame.2.2.2.2.2⟩

/-- The words 0xf5, `p + 1` and a payload without 0xf5, read by a generic session
whose input side counts as open and whose slot `p` is bound: the payload goes
to input port `p`, the two select bytes to no port. -/
theorem io_loop_repeat_select (uart : snd_uart_pl011) (p : Nat) (s1 s2 : RxWord)
    (payload : List RxWord) (n : Nat) (tx : Nat → Bool × Bool)
    (hg : uart.adaptor = SNDRV_SERIAL_GENERIC) (hp : p < 16)
    (hslot : uart.midi_input p = true)
    (hflag : uart.filemode &&& SERIAL_MODE_INPUT_OPEN ≠ 0)
    (h1 : s1.data % 256 = 0xf5) (h2 : s2.data % 256 = p + 1)
    (hpay : ∀ w ∈ payload, w.data % 256 ≠ 0xf5)
    (hn : payload.length + 2 ≤ 257 * n) :
    (io_loop_repeat n uart (s1 :: s2 :: payload) tx).2 = [] ∧
    receives (io_loop_repeat n uart (s1 :: s2 :: payload) tx).1.trace
      = receives uart.trace ++ payload.map (fun w => (p, w.data % 256)) := by
  cases n with
  | zero => omega
  | succ m =>
    have hsame := io_loop_demux uart (s1 :: s2 :: payload) (tx 0).1 (tx 0).2
    have hun := io_loop_unread uart (s1 :: s2 :: payload) (tx 0).1 (tx 0).2
    have htake : (s1 :: s2 :: payload).take 257 = s1 :: s2 :: payload.take 255 := by
      simp [List.take]
    have hdrop : (s1 :: s2 :: payload).drop 257 = payload.drop 255 := by
      simp [List.drop]
    rw [htake, List.foldl_cons, List.foldl_cons] at hsame
    rw [hdrop] at hun
    obtain ⟨e1, e2, e3⟩ := rx_byte_select uart uart.prev_in p s1 s2 hg hflag hslot hp h1 h2
    have hst : rx_byte (rx_byte (uart, uart.prev_in) s1) s2
        = ((rx_byte (rx_byte (uart, uart.prev_in) s1) s2).1, p) := Prod.ext rfl e1
    rw [hst] at hsame
    obtain ⟨f1, f2, f3⟩ := foldl_rx_byte_plain p (payload.take 255)
      (rx_byte (rx_byte (uart, uart.prev_in) s1) s2).1 e2
      (fun w hw => hpay w (List.mem_of_mem_take hw))
    have hready : DemuxReady (snd_uart_pl011_io_loop uart (s1 :: s2 :: payload)
        (tx 0).1 (tx 0).2).1 p := demuxReady_of_same hsame f2
    have hin : (snd_uart_pl011_io_loop uart (s1 :: s2 :: payload)
        (tx 0).1 (tx 0).2).1.prev_in = p := by
      rw [hsame.2.2.2.2.1]; exact f1
    have hrec : receives (snd_uart_pl011_io_loop uart (s1 :: s2 :: payload)
        (tx 0).1 (tx 0).2).1.trace
        = receives uart.trace ++ (payload.take 255).map (fun w => (p, w.data % 256)) := by
      rw [hsame.2.2.2.2.2, ← e3]; exact f3
    obtain ⟨g1, g2⟩ := io_loop_repeat_plain p m
      (snd_uart_pl011_io_loop uart (s1 :: s2 :: payload) (tx 0).1 (tx 0).2).1
      (snd_uart_pl011_io_loop uart (s1 :: s2 :: payload) (tx 0).1 (tx 0).2).2
      (fun i => tx (i + 1)) hready hin
      (by rw [hun]; exact fun w hw => hpay w (List.mem_of_mem_drop hw))
      (by rw [hun, List.length_drop]; omega)
    simp only [io_loop_repeat]
    refine ⟨g1, ?_⟩
    rw [g2, hrec, hun, List.append_assoc, ← List.map_append, List.take_append_drop]

/-- C22 (as stated, refuted): the generic sender emits 0xf5 0x02 0x90 0x3c 0x64
for the note-on message on port 1, which was not the last-used port.  The
generic receiver has input port 1 open, but input port 0 was closed after it
was opened, which cleared `SERIAL_MODE_INPUT_OPEN`.  The receiver reads the
five bytes and delivers nothing. -/
theorem C22_counterexample :
    generic_output.adaptor = SNDRV_SERIAL_GENERIC ∧
    generic_output.prev_out ≠ 1 ∧
    emitted (snd_uart_pl011_output_write generic_output 1 [0x90, 0x3c, 0x64] false
      (fun _ => false)).1.trace = [0xf5, 0x02, 0x90, 0x3c, 0x64] ∧
    input_flag_cleared.adaptor = SNDRV_SERIAL_GENERIC ∧
    port_slot input_flag_cleared ⟨Direction.input, 1⟩ = true ∧
    (io_loop_repeat 1 input_flag_cleared
      (rx_words (emitted (snd_uart_pl011_output_write generic_output 1 [0x90, 0x3c, 0x64] false
        (fun _ => false)).1.trace)) (fun _ => (false, false))).2 = [] ∧
    receives (io_loop_repeat 1 input_flag_cleared
      (rx_words (emitted (snd_uart_pl011_output_write generic_output 1 [0x90, 0x3c, 0x64] false
        (fun _ => false)).1.trace)) (fun _ => (false, false))).1.trace = [] := by
  decide

/-- C22 (amended): generic adaptor on both sides, `p` in 0..15 and not the
last-used output port of the sender, a payload of bytes other than 0xf5 that
fits in the ring behind the three bytes reserved for the select sequence.  The
receiver has the slot of input port `p` open and `SERIAL_MODE_INPUT_OPEN` set in
the bitmask.  The bytes `snd_uart_pl011_output_write` emits for port `p`, read by
`n` invocations of the service loop of the receiver, `n` large enough for the
pass limit of 257 words each, deliver exactly the payload, in order, to input
port `p` and nothing to any other port. -/
theorem C22_framing_inverse (tx rxs : snd_uart_pl011) (p : Nat) (payload : List Nat)
    (idle : Bool) (fe : Nat → Bool) (n : Nat) (txr : Nat → Bool × Bool)
    (htx : tx.adaptor = SNDRV_SERIAL_GENERIC) (hp : p < 16)
    (hlast : tx.prev_out ≠ (p : Int))
    (hfit : tx.buff_in_count + 3 + payload.length ≤ TX_BUFF_SIZE)
    (hpay : ∀ b ∈ payload, b ≠ 0xf5 ∧ b < 256)
    (hrx : rxs.adaptor = SNDRV_SERIAL_GENERIC)
    (hslot : rxs.midi_input p = true)
    (hflag : rxs.filemode &&& SERIAL_MODE_INPUT_OPEN ≠ 0)
    (hn : payload.length + 2 ≤ 257 * n) :
    ∃ sent : List Nat,
      emitted (snd_uart_pl011_output_write tx p payload idle fe).1.trace
        = emitted tx.trace ++ sent ∧
      (payload ≠ [] → sent = 0xf5 :: (p + 1) :: payload) ∧
      (io_loop_repeat n rxs (rx_words sent) txr).2 = [] ∧
      receives (io_loop_repeat n rxs (rx_words sent) txr).1.trace
        = receives rxs.trace ++ payload.map (fun b => (p, b)) := by
  have hmb : tx.adaptor ≠ SNDRV_SERIAL_MS124W_MB := by rw [htx]; decide
  have hsc : tx.adaptor ≠ SNDRV_SERIAL_SOUNDCANVAS := by rw [htx]; decide
  cases payload with
  | nil =>
    obtain ⟨g1, g2⟩ := io_loop_repeat_nil n rxs txr
    refine ⟨[], ?_, fun h => absurd rfl h, g1, ?_⟩
    · simp only [snd_uart_pl011_output_write, if_neg hmb, output_write_loop,
        List.append_nil]
    · rw [List.map_nil, List.append_nil]; exact g2
  | cons b rest =>
    have hlen : ((b :: rest).length : Int) = (rest.length : Int) + 1 := by
      simp [List.length_cons]
    rw [hlen] at hfit
    have hroom : tx.buff_in_count + 3 < TX_BUFF_SIZE := by omega
    have hw : snd_uart_pl011_output_write tx p (b :: rest) idle fe
        = output_write_loop p idle fe (b :: rest) tx false 0 := by
      simp only [snd_uart_pl011_output_write, if_neg hmb]
    have hps : output_write_part_select tx p idle fe false 0 b
        = some (output_write_select tx p fe 0 b) := by
      unfold output_write_part_select
      rw [if_pos ⟨rfl, Or.inr htx, Or.inl hlast⟩, if_pos ((can_write_iff tx 3).mpr hroom)]
    obtain ⟨s1, -, s3, -, -⟩ := output_write_select_spec tx p fe 0 b hroom
    obtain ⟨acc, tl, e1, e2, -, e4, -, -, -⟩ :=
      output_write_loop_tail p idle fe (b :: rest)
        (output_write_select tx p fe 0 b).1 (output_write_select tx p fe 0 b).2
    have htl : tl = [] := e4 (by rw [hlen]; omega)
    rw [htl, List.append_nil] at e1
    have hbyte : (p + 1) % 256 = p + 1 := by omega
    have hseq : select_sequence tx p b = [0xf5, p + 1] := by
      simp only [select_sequence, hbyte, hsc, and_false, if_false, List.append_nil]
    have hwords : rx_words (0xf5 :: (p + 1) :: b :: rest)
        = ⟨0xf5, false⟩ :: ⟨p + 1, false⟩ :: rx_words (b :: rest) := by
      simp only [rx_words, List.map_cons]
    have hmap : (rx_words (b :: rest)).map (fun w => (p, w.data % 256))
        = (b :: rest).map (fun x => (p, x)) := by
      rw [rx_words, List.map_map]
      apply List.map_congr_left
      intro x hx
      simp only [Function.comp]
      rw [Nat.mod_eq_of_lt (hpay x hx).2]
    obtain ⟨g1, g2⟩ := io_loop_repeat_select rxs p ⟨0xf5, false⟩ ⟨p + 1, false⟩
      (rx_words (b :: rest)) n txr hrx hp hslot hflag (by decide) hbyte
      (by
        intro w hw
        simp only [rx_words, List.mem_map] at hw
        obtain ⟨x, hx, rfl⟩ := hw
        simp only
        rw [Nat.mod_eq_of_lt (hpay x hx).2]
        exact (hpay x hx).1)
      (by simp only [rx_words, List.length_map]; exact hn)
    refine ⟨0xf5 :: (p + 1) :: b :: rest, ?_, fun _ => rfl, ?_, ?_⟩
    · rw [hw, output_write_loop_of_select p idle fe b rest tx
        (output_write_select tx p fe 0 b).1 false 0 (output_write_select tx p fe 0 b).2 hps,
        e2, s1, hseq, ← e1]
      simp only [List.append_assoc, List.cons_append, List.nil_append]
    · rw [hwords]; exact g1
    · rw [hwords, g2, hmap]

/-- C22 (amended), at the example: the generic sender emits 0xf5 0x02 0x90 0x3c
0x64 for the note-on message on port 1, and the receiver with four inputs open
delivers 0x90 0x3c 0x64 to input port 1. -/
theorem C22_framing_inverse_witness :
    ∃ sent : List Nat,
      emitted (snd_uart_pl011_output_write generic_output 1 [0x90, 0x3c, 0x64] false
          (fun _ => false)).1.trace = emitted generic_output.trace ++ sent ∧
      (([0x90, 0x3c, 0x64] : List Nat) ≠ [] → sent = 0xf5 :: (1 + 1) :: [0x90, 0x3c, 0x64]) ∧
      (io_loop_repeat 1 four_inputs (rx_words sent) (fun _ => (false, false))).2 = [] ∧
      receives (io_loop_repeat 1 four_inputs (rx_words sent) (fun _ => (false, false))).1.trace
        = receives four_inputs.trace ++ ([0x90, 0x3c, 0x64] : List Nat).map (fun b => (1, b)) :=
  C22_framing_inverse generic_output four_inputs 1 [0x90, 0x3c, 0x64] false (fun _ => false) 1
    (fun _ => (false, false)) (by decide) (by decide) (by decide) (by decide) (by decide)
    (by decide) (by decide) (by decide) (by decide)

/-! ## The select sequence and the byte behind it -/

/-- C23: Soundcanvas or generic adaptor, a first pending byte `b`, the port
differs from the last-used output port or the idle timeout has elapsed, and
`snd_uart_pl011_buffer_can_write(uart, 3)` returned 1.  Then the bytes of the
select sequence (0xf5, the port byte, the cached status byte if one is sent)
are all accepted, the call of `snd_uart_pl011_output_byte` for `b` that follows
returns 1, and the output path accepted the select sequence and then `b`
without a gap before anything else of this write. -/
theorem C23_select_sequence_not_split (uart : snd_uart_pl011) (p b : Nat) (rest : List Nat)
    (idle : Bool) (fe : Nat → Bool)
    (had : uart.adaptor = SNDRV_SERIAL_SOUNDCANVAS ∨ uart.adaptor = SNDRV_SERIAL_GENERIC)
    (hsel : uart.prev_out ≠ (p : Int) ∨ idle = true)
    (hcw : snd_uart_pl011_buffer_can_write uart 3 = 1) :
    output_write_part_select uart p idle fe false 0 b
      = some (output_write_select uart p fe 0 b) ∧
    emitted (output_write_select uart p fe 0 b).1.trace
      = emitted uart.trace ++ select_sequence uart p b ∧
    (snd_uart_pl011_output_byte (output_write_select uart p fe 0 b).1
      (fe (output_write_select uart p fe 0 b).2) b).2 = 1 ∧
    emitted (snd_uart_pl011_output_byte (output_write_select uart p fe 0 b).1
      (fe (output_write_select uart p fe 0 b).2) b).1.trace
      = emitted uart.trace ++ select_sequence uart p b ++ [b] ∧
    ∃ later : List Nat,
      emitted (snd_uart_pl011_output_write uart p (b :: rest) idle fe).1.trace
        = emitted uart.trace ++ select_sequence uart p b ++ [b] ++ later := by
  have hmb : uart.adaptor ≠ SNDRV_SERIAL_MS124W_MB := by
    rcases had with h | h <;> rw [h] <;> decide
  have hroom := (can_write_iff uart 3).mp hcw
  have hw : snd_uart_pl011_output_write uart p (b :: rest) idle fe
      = output_write_loop p idle fe (b :: rest) uart false 0 := by
    simp only [snd_uart_pl011_output_write, if_neg hmb]
  have hps : output_write_part_select uart p idle fe false 0 b
      = some (output_write_select uart p fe 0 b) := by
    unfold output_write_part_select
    rw [if_pos ⟨rfl, had, hsel⟩, if_pos hcw]
  obtain ⟨s1, -, s3, -, -⟩ := output_write_select_spec uart p fe 0 b hroom
  obtain ⟨b1, -, b3⟩ := output_byte_emitted (output_write_select uart p fe 0 b).1
    (fe (output_write_select uart p fe 0 b).2) b (by omega)
  refine ⟨hps, s1, b3, by rw [b1, s1], ?_⟩
  rw [hw, output_write_loop_of_select p idle fe b rest uart
    (output_write_select uart p fe 0 b).1 false 0 (output_write_select uart p fe 0 b).2 hps]
  obtain ⟨acc, tl, e1, e2, -, -, e5, -, -⟩ :=
    output_write_loop_tail p idle fe (b :: rest)
      (output_write_select uart p fe 0 b).1 (output_write_select uart p fe 0 b).2
  have hne := e5 (by omega) (List.cons_ne_nil _ _)
  cases acc with
  | nil => exact absurd rfl hne
  | cons a later =>
    have ha : a = b := by
      have := congrArg List.head? e1
      simp at this
      exact this.symm
    refine ⟨later, ?_⟩
    rw [e2, s1, ha]
    simp only [List.append_assoc, List.singleton_append]

/-- C23, at a Soundcanvas session: the data byte 0x3c for port 2 is sent behind
0xf5 0x03 0x80, and all four bytes are accepted. -/
theorem C23_select_sequence_not_split_witness :
    (output_write_part_select soundcanvas_session 2 false (fun _ => false) false 0 0x3c
      = some (output_write_select soundcanvas_session 2 (fun _ => false) 0 0x3c) ∧
    emitted (output_write_select soundcanvas_session 2 (fun _ => false) 0 0x3c).1.trace
      = emitted soundcanvas_session.trace ++ select_sequence soundcanvas_session 2 0x3c ∧
    (snd_uart_pl011_output_byte (output_write_select soundcanvas_session 2 (fun _ => false) 0 0x3c).1
      ((fun _ => false) (output_write_select soundcanvas_session 2 (fun _ => false) 0 0x3c).2)
      0x3c).2 = 1 ∧
    emitted (snd_uart_pl011_output_byte
      (output_write_select soundcanvas_session 2 (fun _ => false) 0 0x3c).1
      ((fun _ => false) (output_write_select soundcanvas_session 2 (fun _ => false) 0 0x3c).2)
      0x3c).1.trace
      = emitted soundcanvas_session.trace ++ select_sequence soundcanvas_session 2 0x3c
        ++ [0x3c] ∧
    ∃ later : List Nat,
      emitted (snd_uart_pl011_output_write soundcanvas_session 2 [0x3c, 0x64] false
          (fun _ => false)).1.trace
        = emitted soundcanvas_session.trace ++ select_sequence soundcanvas_session 2 0x3c
          ++ [0x3c] ++ later) ∧
    select_sequence soundcanvas_session 2 0x3c = [0xf5, 0x03, 0x80] :=
  ⟨C23_select_sequence_not_split soundcanvas_session 2 0x3c [0x64] false (fun _ => false)
    (by decide) (by decide) (by decide), by decide⟩

end SerialPl011
